import Mathlib

/-!
# TerminalOS: file system, program loader, system calls, terminal and RTC

A shallow embedding of `filesystem.c` and `sys_calls.c`, of the driver calls of
`rtc.c`, of the line discipline of `terminal.c`, and of the part of `directory.c`
that `open` reaches.

Conventions of the embedding

* Memory is byte addressed: a `Mem` maps an address to the byte stored there.
  The file-system image is a `Mem` whose address 0 is the global `fs`; the
  image is taken to lie in the 32-bit address space without wrapping.
* A pointer to bytes is either `none` (`NULL`) or the memory it points to,
  index 0 being the byte at the pointer. A C string given as a list of bytes
  is turned into such memory by `cstr`, which puts the terminator after it.
* A pointer to a PCB is its address (`0` is `NULL`); the PCB memory is the
  map `State.pcbs` from addresses to records.
* Loops of the source are structural recursions on the number of iterations
  that remain.
* A call that waits for interrupts (`terminal_read` for the keyboard, `rtc_read` for
  the RTC) is modelled up to the wait and, for the keyboard, with the list of the
  events that arrive while it waits.
-/

namespace TerminalOS

/-! ## Machine words and memory -/

/-- Byte-addressed memory. -/
abbrev Mem := Nat → Nat

/-- Truncation to `uint32_t`. -/
def u32 (n : Nat) : Nat := n % 4294967296

/-- The byte at address `a`. -/
def rd8 (m : Mem) (a : Nat) : Nat := m a % 256

/-- The little-endian 32-bit word at address `a`: `*((uint32_t *)a)`. -/
def rd32 (m : Mem) (a : Nat) : Nat :=
  rd8 m a + 256 * rd8 m (a + 1) + 65536 * rd8 m (a + 2) + 16777216 * rd8 m (a + 3)

/-- Store of one byte: `m[a] = v`, for a byte `v`. -/
def wr8 (m : Mem) (a v : Nat) : Mem := fun k => if k = a then v else m k

/-- Store of a little-endian 32-bit word: `*((uint32_t *)a) = v`. -/
def wr32 (m : Mem) (a v : Nat) : Mem :=
  wr8 (wr8 (wr8 (wr8 m a (v % 256)) (a + 1) (v / 256 % 256)) (a + 2) (v / 65536 % 256))
    (a + 3) (v / 16777216 % 256)

/-- A 32-bit pattern read as `int32_t`. -/
def i32 (n : Nat) : Int :=
  if n % 4294967296 < 2147483648 then ((n % 4294967296 : Nat) : Int)
  else ((n % 4294967296 : Nat) : Int) - 4294967296

/-- The 32-bit pattern of an `int`. -/
def u32i (z : Int) : Nat := (z % 4294967296).toNat

/-- The value of a byte read as `int8_t`. -/
def i8 (b : Nat) : Int := if b % 256 < 128 then (b % 256 : Nat) else ((b % 256 : Nat) : Int) - 256

/-- A C string held in a list, seen as memory: past its end lies the terminator. -/
def cstr (l : List Nat) : Mem := fun i => l.getD i 0

/-! ## lib.c string routines -/

/-- Modelled from the spec: `strncmp` of `lib.c`, which is not among the sources; the
spec calls its use in the directory scan a "32-byte prefix compare". Bytes are compared
from index `i` on, at most `n` of them, stopping at the first difference or at the
terminator of `s1`; the result is the difference of the two bytes there, or 0. -/
def strncmp_from (s1 s2 : Mem) : Nat → Nat → Int
  | 0, _ => 0
  | n + 1, i =>
    if s1 i ≠ s2 i ∨ s1 i = 0 then i8 (s1 i) - i8 (s2 i)
    else strncmp_from s1 s2 n (i + 1)

/-- Modelled from the spec: `strncmp(s1, s2, n)` of `lib.c` (see `strncmp_from`). -/
def strncmp (s1 s2 : Mem) (n : Nat) : Int := strncmp_from s1 s2 n 0

/-- Modelled from the spec: `strlen` of `lib.c`, the number of bytes before the first
terminator. -/
def strlen (s : List Nat) : Nat := (s.takeWhile (fun c => c ≠ 0)).length

/-! ## filesystem.c -/

/-- Directory entry (`dentry_t`). -/
structure dentry_t where
  file_name : List Nat
  file_type : Nat
  inode_num : Nat
deriving DecidableEq, Repr

/-- The three stores that fill a `dentry_t` from the 64-byte directory entry at address
`dentries`: `file_name[j] = *((uint32_t *)(dentries + j))` keeps the low byte of the word,
which is the byte at `dentries + j`. -/
def fill_dentry (fs : Mem) (dentries : Nat) : dentry_t :=
  { file_name := (List.range 32).map (fun j => rd8 fs (dentries + j))
    file_type := rd32 fs (dentries + 32)
    inode_num := rd32 fs (dentries + 36) }

/-- `num_dir_entries`: the first word of the boot block. -/
def num_dir_entries (fs : Mem) : Nat := rd32 fs 0

/-- The `for` loop of `read_dentry_by_name`: `n` entries remain, the next one is at
address `dentries`. -/
def read_dentry_by_name_loop (fs : Mem) (fname : Mem) : Nat → Nat → Option dentry_t
  | 0, _ => none
  | n + 1, dentries =>
    if strncmp fname (fun j => rd8 fs (dentries + j)) 32 = 0 then
      some (fill_dentry fs dentries)
    else read_dentry_by_name_loop fs fname n (dentries + 64)

/-- `read_dentry_by_name(fname, dentry)`: a null pointer is `none`, a non-null `fname`
is the memory it points to; the result is the return value and the contents of `*dentry`
afterwards. -/
def read_dentry_by_name (fs : Mem) (fname : Option Mem) (dentry : Option dentry_t) :
    Int × Option dentry_t :=
  match fname, dentry with
  | some name, some d =>
    match read_dentry_by_name_loop fs name (rd32 fs 0) 64 with
    | some e => (0, some e)
    | none => (-1, some d)
  | _, _ => (-1, dentry)

/-- The `for` loop of `read_dentry_by_index`: the first entry whose inode number is
`index`. -/
def read_dentry_by_index_loop (fs : Mem) (index : Nat) : Nat → Nat → Option dentry_t
  | 0, _ => none
  | n + 1, dentries =>
    if rd32 fs (dentries + 36) = index then some (fill_dentry fs dentries)
    else read_dentry_by_index_loop fs index n (dentries + 64)

/-- `read_dentry_by_index(index, dentry)`. -/
def read_dentry_by_index (fs : Mem) (index : Nat) (dentry : Option dentry_t) :
    Int × Option dentry_t :=
  match dentry with
  | none => (-1, none)
  | some d =>
    match read_dentry_by_index_loop fs index (rd32 fs 0) 64 with
    | some e => (0, some e)
    | none => (-1, some d)

/-- `read_dentry_by_dir_index(index, dentry)`. -/
def read_dentry_by_dir_index (fs : Mem) (index : Nat) (dentry : Option dentry_t) :
    Int × Option dentry_t :=
  match dentry with
  | none => (-1, none)
  | some _ => (1, some (fill_dentry fs (64 + 64 * index)))

/-- Outcome of the inner `while` loop of `read_data`. -/
structure CopyResult where
  /-- `true` when the loop left through `return 0` -/
  eof : Bool
  j : Nat
  num_read : Nat
  buf : Mem

/-- The inner loop of `read_data`, `while(num_read < length && j < 4096)`, for the data
block at `cur_data_pointer` whose number in the inode is `i`. The first argument bounds
the iterations that remain (each one increments `j`). -/
def read_data_copy (fs : Mem) (cur_data_pointer i offset length num_bytes : Nat) :
    Nat → Nat → Nat → Mem → CopyResult
  | 0, j, num_read, buf => ⟨false, j, num_read, buf⟩
  | fuel + 1, j, num_read, buf =>
    if num_read < length ∧ j < 4096 then
      let cur_char := rd8 fs (cur_data_pointer + j)
      let buf1 := wr8 buf (u32 (i * 4096 + j + (4294967296 - offset))) cur_char
      if u32 (num_read + 1 + offset) = num_bytes then ⟨true, j + 1, num_read + 1, buf1⟩
      else read_data_copy fs cur_data_pointer i offset length num_bytes fuel (j + 1)
        (num_read + 1) buf1
    else ⟨false, j, num_read, buf⟩

/-- The outer loop of `read_data`, `while(i <= num_bytes/4096)`: the first argument is the
number of iterations that remain, `d` the address of the block pointer that the next
iteration reads. The branch that skips a block before the offset does `i++; continue;`
and so keeps `d`. -/
def read_data_loop (fs : Mem) (inode_addrs data_addrs num_data_blocks offset length
    num_bytes : Nat) : Nat → Nat → Nat → Nat → Mem → Int × Mem
  | 0, _, _, num_read, buf => (i32 num_read, buf)
  | fuel + 1, i, d, num_read, buf =>
    let cur_data_index := rd32 fs d
    let cur_data_pointer := data_addrs + cur_data_index * 4096
    if cur_data_index > num_data_blocks then (-1, buf)
    else if offset / 4096 > i then
      read_data_loop fs inode_addrs data_addrs num_data_blocks offset length num_bytes
        fuel (i + 1) d num_read buf
    else
      let j := if offset / 4096 = i then offset % 4096 else 0
      let r := read_data_copy fs cur_data_pointer i offset length num_bytes 4096 j num_read buf
      if r.eof then (0, r.buf)
      else
        read_data_loop fs inode_addrs data_addrs num_data_blocks offset length num_bytes
          fuel (i + 1) (inode_addrs + 4 + (i + 1) * 4) r.num_read r.buf

/-- `read_data(inode, offset, buf, length)` for a non-null `buf`: the return value and
the buffer afterwards (`buf k` is `buf[k]`). `inode`, `offset` and `length` are
`uint32_t` values; the count `num_read` is returned as an `int32_t`. -/
def read_data (fs : Mem) (inode offset : Nat) (buf : Mem) (length : Nat) : Int × Mem :=
  if inode > 63 then (-1, buf)
  else
    let num_inodes := rd32 fs 4
    let num_data_blocks := rd32 fs 8
    let inode_addrs := (inode + 1) * 4096
    let data_addrs := (num_inodes + 1) * 4096
    let num_bytes := rd32 fs inode_addrs
    read_data_loop fs inode_addrs data_addrs num_data_blocks offset length num_bytes
      (num_bytes / 4096 + 1) 0 (inode_addrs + 4) 0 buf

/-- `file_size(inode)`. -/
def file_size (fs : Mem) (inode : Nat) : Nat := rd32 fs ((inode + 1) * 4096)

/-- `is_valid_cmd(executable, program_name)`: the return value and `*executable`
afterwards. `buf` is what the local array `uint8_t buf[4]` holds when the function is
entered (the source does not initialise it, and does not look at what `read_data`
returns). -/
def is_valid_cmd (fs : Mem) (executable : dentry_t) (program_name : Option Mem)
    (buf : Mem) : Int × dentry_t :=
  match read_dentry_by_name fs program_name (some executable) with
  | (r, e) =>
    let exe := e.getD executable
    if r = -1 then (-1, exe)
    else
      let buf1 := (read_data fs exe.inode_num 0 buf 4).2
      if rd32 buf1 0 ≠ 0x464C457F then (-1, exe) else (1, exe)

/-- `load_program` and `execute` address the user image at virtual `_128MB + EXE_OFFSET`. -/
def EXE_OFFSET : Nat := 0x48000

/-! ## Process control blocks -/

/-- The functions a `file_operations_t` slot can point to (`null` is `NULL`). -/
inductive fn_t where
  | null
  | terminal_open
  | terminal_read
  | terminal_write
  | rtc_open
  | rtc_read
  | rtc_write
  | dir_open
  | dir_read
  | dir_write
  | fs_open
  | fs_read
  | fs_write
deriving DecidableEq, Repr

/-- File operations table (`file_operations_t`); the member `open` is `open_fn` here, and
likewise for the other two. -/
structure file_operations_t where
  open_fn : fn_t
  read_fn : fn_t
  write_fn : fn_t
deriving DecidableEq, Repr

/-- File structure (`file_t`). -/
structure file_t where
  f_pos : Nat
  f_ops : file_operations_t
  eof : Nat
  f_dentry : dentry_t
deriving DecidableEq, Repr

/-- Process control block (`pcb_t`). Arrays are maps from the index; `args` is the C
string that `strcpy` last stored at `args`, terminator included (the member has room for
32 bytes, `strcpy` does not look at that). -/
structure pcb_t where
  pid : Int
  terminal_id : Int
  parent_pid : Int
  read_pos : Int
  isReading : Int
  terminal_buffer : Mem
  terminal_pos : Int
  screen_x : Int
  screen_y : Int
  enter_pressed : Int
  clear_was_pressed : Int
  parent_pcb : Nat
  file_array : Int → file_t
  used_desc : Int → Int
  k_esp : Nat
  k_ebp : Nat
  ret_eip : Nat
  ret_esp : Nat
  ret_ebp : Nat
  ret_cs : Nat
  ret_flags : Nat
  parent_esp : Nat
  args : List Nat

/-- Virtual RTC (`virtual_rtc_t`); the two `float` members hold the values written to
them exactly. -/
structure virtual_rtc_t where
  counter : Rat
  freq : Nat

/-- The global variables of the kernel that the system calls read and write, together
with the memory they point into. The contents of video memory are not part of it. -/
structure State where
  /-- the file-system image, address 0 being `fs` -/
  fs : Mem
  /-- `page_dir[32]` -/
  page_dir32 : Nat
  /-- `video_pg_table[0]` -/
  video_pg_table0 : Nat
  /-- physical memory behind the user pages -/
  phys : Mem
  /-- PCB memory: the record at each address -/
  pcbs : Nat → pcb_t
  current_pcb : Nat
  /-- address of the PCB whose `file_array` the global `file_array` points to -/
  file_array : Nat
  /-- address of the PCB whose `used_desc` the global `used_desc` points to -/
  used_desc : Nat
  num_process : Int
  open_pid : Int → Int
  open_terminals : Int → Int
  active_process : Int → Int
  active_terminals : Int → Int
  cur_terminal : Int
  cur_process : Int
  sched_on : Int
  /-- `start_pit` has been called -/
  pit_started : Bool
  /-- `tss.esp0` -/
  tss_esp0 : Nat
  /-- `tss.ss0` -/
  tss_ss0 : Nat
  /-- cursor of `lib.c` (`get_screen_x`, `get_screen_y`, `set_screen_x_y`) -/
  screen_x : Int
  screen_y : Int
  /-- `terminal.c`: `cur_pcb`, and the PCB that the pointers set by `update_pointers`
  point into -/
  cur_pcb : Nat
  terminal_pointers : Nat
  /-- `rtc.c` globals; `rtc_reg_a`, `rtc_reg_b` are the RTC registers A and B -/
  running_freq : Nat
  current_rtc : Int
  virtual_rtc : Int → virtual_rtc_t
  active_rtc : Int → Int
  rtc_reg_a : Nat
  rtc_reg_b : Nat
  /-- `directory.c` globals -/
  num_entries : Nat
  cur_entry : Int

/-- `get_pcb(pid)`: the address `0x800000 - pid*8192`, as a 32-bit pointer. -/
def get_pcb (pid : Int) : Nat := u32i (0x800000 - pid * 8192)

/-- The PCB the global `current_pcb` points to. -/
def State.cur (s : State) : pcb_t := s.pcbs s.current_pcb

/-- Store into one PCB: `f` is applied to the record at address `p`. -/
def State.modify_pcb (s : State) (p : Nat) (f : pcb_t → pcb_t) : State :=
  { s with pcbs := Function.update s.pcbs p (f (s.pcbs p)) }

/-- The local `dentry_t` of `open`, `fs_read` and `execute` before it is filled. These
functions read it only after a lookup has stored an entry in it. -/
def blank_dentry : dentry_t := ⟨[], 0, 0⟩

/-! ## rtc.c and directory.c, as far as `open` and `close` call them -/

/-- The `switch` of `change_RTC_freq`: the rate for the listed frequencies. -/
def rtc_rate (freq : Nat) : Option Nat :=
  if freq = 2 then some 15 else if freq = 4 then some 14 else if freq = 8 then some 13
  else if freq = 16 then some 12 else if freq = 32 then some 11 else if freq = 64 then some 10
  else if freq = 128 then some 9 else if freq = 256 then some 8 else if freq = 512 then some 7
  else if freq = 1024 then some 6 else none

/-- The four port accesses that end `change_RTC_freq`: the low nibble of register A
becomes `rate`. -/
def write_rtc_rate (s : State) (rate : Nat) : State :=
  { s with rtc_reg_a := (s.rtc_reg_a &&& 0xF0) ||| rate }

/-- `change_RTC_freq(freq)`. -/
def change_RTC_freq (s : State) (freq : Nat) : State :=
  if freq ≤ s.running_freq ∧ freq ≠ 0 then s
  else
    match rtc_rate freq with
    | some rate => write_rtc_rate { s with running_freq := freq } (rate &&& 0x0F)
    | none =>
      let s1 := { s with active_rtc := Function.update s.active_rtc s.current_rtc 0 }
      if (List.range 6).any (fun i => decide (s1.active_rtc (i : Int) = 1)) then s1
      else write_rtc_rate { s1 with running_freq := freq } 0

/-- `change_to_virtual_rtc(pid)`. -/
def change_to_virtual_rtc (s : State) (pid : Int) : State :=
  { s with current_rtc := pid - 1 }

/-- `rtc_init()`. -/
def rtc_init (s : State) : State :=
  { s with virtual_rtc := fun i => if 0 ≤ i ∧ i < 6 then ⟨0, 0⟩ else s.virtual_rtc i }

/-- `rtc_open()`: return value and state. -/
def rtc_open (s : State) : Int × State :=
  if (List.range 6).any (fun i => decide (s.active_rtc (i : Int) = 1)) then
    (0, { s with active_rtc := Function.update s.active_rtc s.current_rtc 1 })
  else
    let s1 := rtc_init s
    let s2 := { s1 with rtc_reg_b := s1.rtc_reg_b ||| 0x40 }
    let s3 := change_RTC_freq s2 2
    (0, { s3 with active_rtc := Function.update s3.active_rtc s3.current_rtc 1 })

/-- `rtc_close(fd)`. -/
def rtc_close (s : State) (_fd : Int) : Int × State := (0, change_RTC_freq s 0)

/-- `dir_open()`. -/
def dir_open (s : State) : Int × State :=
  (1, { s with num_entries := num_dir_entries s.fs, cur_entry := 0 })

/-! ## filesystem.c: `fs_read` and `load_program` -/

/-- `fs_read(buf, nbytes)` for a non-null `buf`, whose first words say what to read.
`entry` is the local `dentry_t` as the function finds it. -/
def fs_read (fs : Mem) (entry : dentry_t) (buf : Mem) (nbytes : Int) : Int × Mem :=
  let sel := rd32 buf 0
  let look : Int × Option dentry_t × Nat :=
    if sel = 0 then
      let r := read_dentry_by_name fs (some (fun i => buf (i + 4))) (some entry)
      (r.1, r.2, 0)
    else if sel = 1 then
      let r := read_dentry_by_index fs (rd32 buf 4) (some entry)
      (r.1, r.2, rd32 buf 8)
    else (0, some entry, 0)
  if look.1 ≠ 0 then (0, buf)
  else
    let e := look.2.1.getD entry
    let offset := look.2.2
    let fsize := rd32 fs ((e.inode_num + 1) * 4096)
    let r := read_data fs e.inode_num offset buf (u32i nbytes)
    if r.1 = 0 then (i32 fsize, r.2) else r

/-! ## sys_calls.c: file descriptors -/

/-- The `for` loop of `open` that looks for an empty file descriptor: the first `pos`
among the `n` positions from `pos` on with `used_desc[pos] != 1`, and 0 (the initial
`file_desc`) when there is none. -/
def open_scan (used_desc : Int → Int) : Nat → Int → Int
  | 0, _ => 0
  | n + 1, pos => if used_desc pos ≠ 1 then pos else open_scan used_desc n (pos + 1)

/-- The operations that `open` stores for a file type. -/
def ops_of_type (file_type : Nat) : file_operations_t :=
  if file_type = 0 then ⟨fn_t.rtc_open, fn_t.rtc_read, fn_t.rtc_write⟩
  else if file_type = 1 then ⟨fn_t.dir_open, fn_t.dir_read, fn_t.dir_write⟩
  else ⟨fn_t.fs_open, fn_t.fs_read, fn_t.fs_write⟩

/-- Store into `file_array[fd]`, through the global pointer `file_array`. -/
def set_file (s : State) (fd : Int) (f : file_t → file_t) : State :=
  s.modify_pcb s.file_array (fun p =>
    { p with file_array := Function.update p.file_array fd (f (p.file_array fd)) })

/-- Store into `used_desc[fd]`, through the global pointer `used_desc`. -/
def set_used (s : State) (fd : Int) (v : Int) : State :=
  s.modify_pcb s.used_desc (fun p => { p with used_desc := Function.update p.used_desc fd v })

/-- The stores of `open` into the new `file_t`: the entry, the position, the eof flag and
the operations of the file type. -/
def open_file (dentry : dentry_t) (f : file_t) : file_t :=
  { f with f_dentry := dentry, f_pos := 0, eof := 0, f_ops := ops_of_type dentry.file_type }

/-- The driver call of `open`: `rtc_open()` for the RTC, `dir_open()` for the directory,
none for a regular file. -/
def open_driver (s : State) (file_type : Nat) : State :=
  if file_type = 0 then (rtc_open s).2
  else if file_type = 1 then (dir_open s).2
  else s

/-- `open(filename)`: return value and state. -/
def sys_open (s : State) (filename : Option Mem) : Int × State :=
  let r := read_dentry_by_name s.fs filename (some blank_dentry)
  if r.1 = -1 then (-1, s)
  else
    let dentry := r.2.getD blank_dentry
    let file_desc := open_scan (s.pcbs s.used_desc).used_desc 6 2
    if file_desc = 0 then (-1, s)
    else
      let s1 := set_file s file_desc (open_file dentry)
      let s2 := open_driver s1 dentry.file_type
      (file_desc, set_used s2 file_desc 1)

/-- `close(fd)`: return value and state. -/
def close (s : State) (fd : Int) : Int × State :=
  if fd ≤ 1 ∨ fd > 7 then (-1, s)
  else
    let s1 :=
      if ((s.pcbs s.file_array).file_array fd).f_dentry.file_type = 0 then (rtc_close s fd).2
      else s
    (0, set_used s1 fd 0)

/-- How `read` ends: it returns `retval` leaving the state `s` and the user buffer `buf`,
or it calls the driver `f` that the slot names (a driver other than `fs_read`) and
returns what that call returns. -/
inductive ReadResult where
  | ret (retval : Int) (s : State) (buf : Mem)
  | driver (f : fn_t) (s : State)

/-- `read(fd, buf, nbytes)` for a non-null `buf`. -/
def read (s : State) (fd : Int) (buf : Mem) (nbytes : Int) : ReadResult :=
  if fd < 0 ∨ fd > 7 then ReadResult.ret (-1) s buf
  else
    let file := (s.pcbs s.file_array).file_array fd
    if file.f_dentry.file_type = 2 then
      if file.eof = 1 then ReadResult.ret 0 s buf
      else if file.f_ops.read_fn ≠ fn_t.fs_read then ReadResult.driver file.f_ops.read_fn s
      else
        let header : Mem → Mem := fun m =>
          wr32 (wr32 (wr32 m 0 1) 4 file.f_dentry.inode_num) 8 file.f_pos
        let r : Int × Mem :=
          if nbytes < 12 then
            let buffer := (fs_read s.fs blank_dentry (header (fun _ => 0)) nbytes)
            (buffer.1, fun i => if (i : Int) < nbytes then buffer.2 i else buf i)
          else fs_read s.fs blank_dentry (header buf) nbytes
        let bytes_read := r.1
        if bytes_read ≠ nbytes then
          if file.f_pos ≠ 0 then
            ReadResult.ret (i32 (u32i (bytes_read - file.f_pos)))
              (set_file s fd (fun f => { f with eof := 1 })) r.2
          else
            ReadResult.ret bytes_read
              (set_file s fd (fun f =>
                { f with eof := 1, f_pos := u32i (f.f_pos + bytes_read) })) r.2
        else
          ReadResult.ret bytes_read
            (set_file s fd (fun f => { f with f_pos := u32i (f.f_pos + bytes_read) })) r.2
    else ReadResult.driver file.f_ops.read_fn s

/-! ## Program loader -/

/-- Physical base of the 4 MiB page that `page_dir[32]` maps at virtual `0x08000000`
(bits 31..22 of the entry). -/
def user_base (s : State) : Nat := s.page_dir32 / 0x400000 * 0x400000

/-- What `load_program` hands back: the PCB pointer (`0` is `NULL`), `*esp`, `*eip` and the
state. -/
structure LoadResult where
  pcb : Nat
  esp : Nat
  eip : Nat
  s : State

/-- Lines 445-464 of `load_program`, for the directory entry `executable` that
`is_valid_cmd` has filled: the PCB gets its pid, the user image is zeroed and the file is
copied into it. The image is written through the user page: byte `k` of `program_mem` is
physical byte `user_base + EXE_OFFSET + k` while `k` stays inside the page. -/
def load_image (s : State) (executable : dentry_t) (pid : Int) : LoadResult :=
  let program_mem := 0x8000000 + EXE_OFFSET
  let pcb := u32i (0x800000 - pid * 8192)
  let s1 := s.modify_pcb pcb (fun p => { p with pid := pid })
  let base := user_base s1 + EXE_OFFSET
  let zeroed : Mem := fun k => if k < 0x400000 - EXE_OFFSET then 0 else s1.phys (base + k)
  let f_size := file_size s1.fs executable.inode_num
  let image := (read_data s1.fs executable.inode_num 0 zeroed f_size).2
  let phys1 : Mem := fun a =>
    if base ≤ a ∧ a < base + (0x400000 - EXE_OFFSET) then image (a - base) else s1.phys a
  ⟨pcb, u32 (program_mem - EXE_OFFSET + 0x400000), rd32 image 24, { s1 with phys := phys1 }⟩

/-- `load_program(program_name, esp, eip, pid)`. `buf` is the uninitialised local of
`is_valid_cmd`; `esp0`, `eip0` are `*esp`, `*eip` before the call. -/
def load_program (s : State) (program_name : Option Mem) (esp0 eip0 : Nat) (pid : Int)
    (buf : Mem) : LoadResult :=
  let v := is_valid_cmd s.fs blank_dentry program_name buf
  if v.1 = -1 then ⟨0, esp0, eip0, s⟩ else load_image s v.2 pid

/-! ## sys_calls.c: processes -/

/-- Modelled from the spec: the segment selectors of `x86_desc.h`, which is not among the
sources ("User stack/code segments `0x23`/`0x1B`; kernel stack/code `0x10`/`0x08`"). -/
def USER_DS : Nat := 0x23

/-- Modelled from the spec: see `USER_DS`. -/
def USER_CS : Nat := 0x1B

/-- Modelled from the spec: see `USER_DS`. -/
def KERNEL_DS : Nat := 0x10

/-- Modelled from the spec: see `USER_DS`. -/
def KERNEL_CS : Nat := 0x08

/-- `update_cur_pcb(new_pcb)`, with `update_cur_buf` of `terminal.c`. -/
def update_cur_pcb (s : State) (new_pcb : Nat) : State :=
  { s with current_pcb := new_pcb, file_array := new_pcb, used_desc := new_pcb,
           cur_pcb := new_pcb }

/-- `update_pointers(pcb, option)` of `terminal.c`: the cursor is set only when `option`
is 1. -/
def update_pointers (s : State) (pcb : Nat) (option : Int) : State :=
  { s with
    terminal_pointers := pcb
    screen_x := if option = 1 then (s.pcbs pcb).screen_x else s.screen_x
    screen_y := if option = 1 then (s.pcbs pcb).screen_y else s.screen_y }

/-- `update_screen_x_y(pcb)`. -/
def update_screen_x_y (s : State) (pcb : Nat) : State :=
  s.modify_pcb pcb (fun p => { p with screen_x := s.screen_x, screen_y := s.screen_y })

/-- `update_parent_video(pcb)`. -/
def update_parent_video (s : State) (pcb : Nat) : State :=
  let par := (s.pcbs pcb).parent_pcb
  s.modify_pcb par (fun p =>
    { p with screen_y := (s.pcbs pcb).screen_y, screen_x := (s.pcbs pcb).screen_x })

/-- `clear_pcb(pid)`. -/
def clear_pcb (s : State) (pid : Int) : State :=
  s.modify_pcb (get_pcb pid) (fun p => { p with pid := 0 })

/-- The value `execute`, `halt` and `jump_to_process` store in `page_dir[32]` for a pid. -/
def user_page_entry (pid : Int) : Nat := u32i (0x800000 + 0x400000 * (pid - 1)) ||| 0x87

/-- What `execute` finds in the registers and in its uninitialised locals when it is
called: `esp`, `ebp`, `eflags`; the array `args`; and the local `buf` of `is_valid_cmd`
in the call made by `execute` (`buf`) and in the one made by `load_program` (`buf_load`);
`esp_local`, `eip_local` are the locals `esp` and `eip`. -/
structure Frame where
  esp : Nat
  ebp : Nat
  eflags : Nat
  args : Mem
  buf : Mem
  buf_load : Mem
  esp_local : Nat
  eip_local : Nat

/-- The five words `execute` pushes for `iret`, and the data segment it loads. -/
structure iret_t where
  ss : Nat
  esp : Nat
  eflags : Nat
  cs : Nat
  eip : Nat
  ds : Nat
deriving DecidableEq, Repr

/-- How `execute` ends before any `halt`: it returns `retval` to its caller; or it enters
the new program through `iret`, and returns only when that program calls `halt`; or the
scan of `open_pid` has left the six entries of the table. -/
inductive ExecResult where
  | returned (retval : Int) (s : State)
  | entered (s : State) (frame : iret_t)
  | off_table (s : State)

/-- The loop of `execute` that splits the command: `n` iterations remain, `i` is the
index. The result is `com`, `args` and `argsStarted`. -/
def split_loop : Nat → Nat → Mem → Mem → Nat → Mem × Mem × Nat
  | 0, _, com, args, argsStarted => (com, args, argsStarted)
  | n + 1, i, com, args, argsStarted =>
    if com i = 32 ∧ argsStarted = 0 then split_loop n (i + 1) (wr8 com i 0) args (i + 1)
    else if argsStarted ≠ 0 then
      split_loop n (i + 1) com (wr8 args (i - argsStarted) (com i)) argsStarted
    else split_loop n (i + 1) com args argsStarted

/-- Lines 121-148 of `execute`: `com` is the copy of `command` (with its terminator, which
`strcpy` stores one byte past the array `com[strlen(command)]`), `args0` the array `args`
as found. The result is `com` and `args` after the loop and the `if` that follows it. -/
def split_command (command : List Nat) (args0 : Mem) : Mem × Mem :=
  let com := cstr (command.takeWhile (fun c => c ≠ 0))
  let len := strlen command + 1
  let r := split_loop len 0 com args0 0
  if r.2.2 = 0 then (r.1, wr8 r.2.1 0 0) else (r.1, r.2.1)

/-- Modelled from the spec: `strcpy` of `lib.c` (not among the sources), as the bytes it
stores at the destination: those of `src` from index `i` up to and including the first
terminator. The first argument bounds the search for it. -/
def strcpy_bytes (src : Mem) : Nat → Nat → List Nat
  | 0, _ => []
  | n + 1, i => if src i = 0 then [0] else src i :: strcpy_bytes src n (i + 1)

/-- The `while` loop of `execute` over `open_pid`: the first `pid_pos` among the `n`
entries from `pid_pos` on with `open_pid[pid_pos] != 1`; `none` when the loop goes on
past them. -/
def pid_scan (open_pid : Int → Int) : Nat → Int → Option Int
  | 0, _ => none
  | n + 1, pid_pos =>
    if open_pid pid_pos = 1 then pid_scan open_pid n (pid_pos + 1) else some pid_pos

/-- Lines 179-188 of `execute`: the terminal of the new process and the scheduler tables;
`open_terminals[cur_terminal]` is written only when it is 0. (`copy_video_mem_in` and
`write_terminal_number` touch video memory only.) -/
def execute_tables (s : State) (pcb : Nat) : State :=
  let s1 := s.modify_pcb pcb (fun p => { p with terminal_id := s.cur_terminal })
  { s1 with
    open_terminals :=
      if s1.open_terminals s1.cur_terminal = 0 then
        Function.update s1.open_terminals s1.cur_terminal (s1.pcbs pcb).pid
      else s1.open_terminals
    active_process := Function.update s1.active_process s1.cur_terminal (s1.pcbs pcb).pid
    num_process := s1.num_process + 1 }

/-- Lines 190-197 of `execute`: the parent of the new process. -/
def execute_parent (s : State) (pcb : Nat) : State :=
  s.modify_pcb pcb (fun p =>
    { p with
      parent_pid := if s.current_pcb ≠ 0 then s.cur.pid else 0
      parent_pcb := if s.current_pcb ≠ 0 then s.current_pcb else 0 })

/-- Lines 204-219 of `execute`: stdin, stdout and the remaining file descriptors. -/
def execute_files (p : pcb_t) : pcb_t :=
  let fa0 := Function.update p.file_array 0
    { (p.file_array 0) with f_ops := ⟨fn_t.terminal_open, fn_t.terminal_read, fn_t.null⟩ }
  let fa1 := Function.update fa0 1
    { (fa0 1) with f_ops := ⟨(fa0 1).f_ops.open_fn, fn_t.null, fn_t.terminal_write⟩ }
  { p with
    file_array := fa1
    used_desc := fun pos =>
      if 2 ≤ pos ∧ pos < 8 then 0 else if pos = 0 ∨ pos = 1 then 1 else p.used_desc pos }

/-- Lines 221-234 of `execute`: the kernel stack of the caller, `tss.esp0` and the
arguments are saved in the new PCB. -/
def execute_save (s : State) (pcb : Nat) (command : List Nat) (args : Mem) (fr : Frame) :
    State :=
  s.modify_pcb pcb (fun p =>
    { p with
      k_esp := fr.esp
      k_ebp := fr.ebp
      parent_esp := s.tss_esp0
      args := strcpy_bytes args (strlen command + 1) 0 })

/-- Lines 243-250 of `execute`: the scheduler tick is started when the test of line 243
holds, and the TSS is set. -/
def execute_tss (s : State) (pcb : Nat) : State :=
  { s with
    pit_started :=
      if s.cur_terminal = 1 ∧ s.num_process = 2 ∧ s.sched_on = 0 then true else s.pit_started
    sched_on := if s.cur_terminal = 1 ∧ s.num_process = 2 ∧ s.sched_on = 0 then 1 else s.sched_on
    tss_esp0 := u32 (pcb + 8192)
    tss_ss0 := KERNEL_DS }

/-- Lines 179-250 of `execute`, after `load_program` has returned the PCB at address
`pcb`: the state in which `iret` is executed. -/
def execute_start (s : State) (pcb : Nat) (command : List Nat) (args : Mem) (fr : Frame) :
    State :=
  let s1 := execute_parent (execute_tables s pcb) pcb
  let s2 := update_cur_pcb s1 pcb
  let s3 := change_to_virtual_rtc s2 (s2.pcbs pcb).pid
  let s4 := s3.modify_pcb pcb execute_files
  let s5 := execute_save s4 pcb command args fr
  execute_tss (update_pointers s5 pcb (-1)) pcb

/-- Lines 160-276 of `execute`, once the scan of `open_pid` has stopped at `pid_pos0`:
`com` and `args` are the two halves of the command. -/
def execute_load (s : State) (command : List Nat) (com args : Mem) (fr : Frame)
    (pid_pos0 : Int) : ExecResult :=
  let pid_pos := pid_pos0 + 1
  let s2 := { s with
    open_pid := Function.update s.open_pid pid_pos0 1
    page_dir32 := if s.current_pcb ≠ 0 then user_page_entry pid_pos else s.page_dir32 }
  let l := load_program s2 (some com) fr.esp_local fr.eip_local pid_pos fr.buf_load
  if l.pcb = 0 then
    ExecResult.returned (-1)
      { l.s with open_pid := Function.update l.s.open_pid (pid_pos - 1) 0 }
  else
    ExecResult.entered (execute_start l.s l.pcb command args fr)
      ⟨USER_DS, l.esp, fr.eflags ||| 0x200, USER_CS, l.eip, USER_DS⟩

/-- `execute(command)` up to the `iret` (or the `return` that comes before it). -/
def execute (s : State) (command : List Nat) (fr : Frame) : ExecResult :=
  if s.num_process > 6 then ExecResult.returned 0 s
  else
    let sp := split_command command fr.args
    if (is_valid_cmd s.fs blank_dentry (some sp.1) fr.buf).1 = -1 then
      ExecResult.returned (-1) s
    else
      match pid_scan s.open_pid 6 0 with
      | none => ExecResult.off_table s
      | some pid_pos0 => execute_load s command sp.1 sp.2 fr pid_pos0

/-- How `halt` ends: it jumps to `finishHalt` in `execute` with `retval` pushed on the
stack `esp` (and `ebp` restored), so that the `execute` that started the caller returns
`retval`; or the caller was the root shell of its terminal, and `halt` goes on to
`switch_terminal(next)` for the first terminal `next` that is still open, or spins
forever when there is none. -/
inductive HaltResult where
  | finishHalt (retval : Int) (esp ebp : Nat) (s : State)
  | root (s : State) (next : Option Int)

/-- Lines 49-55 of `halt`: the root shell of a terminal gives up the terminal and its
pid. (`clear_video_mem` touches video memory only.) -/
def halt_root (s : State) : State :=
  let tid := s.cur.terminal_id
  let s1 := { s with
    open_terminals := Function.update s.open_terminals tid 0
    active_terminals := Function.update s.active_terminals tid 0
    active_process := Function.update s.active_process tid 0
    open_pid := Function.update s.open_pid (s.cur.pid - 1) 0 }
  let s2 := clear_pcb s1 s1.cur.pid
  { s2 with num_process := s2.num_process - 1 }

/-- Lines 81-86 of `halt`: the scheduler tables and the pid of the caller. -/
def halt_tables (s : State) : State :=
  let s1 := { s with num_process := s.num_process - 1 }
  let s2 := update_parent_video (update_screen_x_y s1 s1.current_pcb) s1.current_pcb
  let s3 := { s2 with
    active_process := Function.update s2.active_process s2.cur.terminal_id s2.cur.parent_pid }
  let s4 := { s3 with open_pid := Function.update s3.open_pid (s3.cur.pid - 1) 0 }
  clear_pcb s4 s4.cur.pid

/-- `halt(status)`; the parameter is a `uint8_t`. -/
def halt (s : State) (status : Nat) : HaltResult :=
  let status8 := status % 256
  if s.cur.pid = s.open_terminals s.cur.terminal_id then
    let s1 := halt_root s
    HaltResult.root s1
      (([1, 2, 3] : List Int).find? (fun pos => decide (s1.open_terminals pos ≠ 0)))
  else
    let s1 := { s with
      page_dir32 := user_page_entry s.cur.parent_pid
      tss_esp0 := s.cur.parent_esp }
    let retval : Int := ((status8 &&& 0x000000FF : Nat) : Int)
    let esp := s1.cur.k_esp
    let ebp := s1.cur.k_ebp
    let s2 := halt_tables s1
    let s3 := update_cur_pcb s2 s2.cur.parent_pcb
    HaltResult.finishHalt retval esp ebp (update_pointers s3 s3.current_pcb 1)

/-- `clear_foregrounds(skip)`. -/
def clear_foregrounds (s : State) (skip : Int) : State :=
  { s with active_terminals := fun pos =>
      if 1 ≤ pos ∧ pos < 4 ∧ pos ≠ skip then 0 else s.active_terminals pos }

/-- Lines 625-642 of `switch_terminal(num)`, up to the test for a first execution on the
terminal. (`copy_video_mem_out` touches video memory only.) -/
def switch_terminal_begin (s : State) (num : Int) : State :=
  if num < 1 ∨ num > 3 then s
  else
    let s1 := { s with
      cur_terminal := num
      active_terminals := Function.update s.active_terminals num 1 }
    let s2 :=
      if s1.current_pcb ≠ 0 then update_screen_x_y (clear_foregrounds s1 num) s1.current_pcb
      else s1
    { s2 with video_pg_table0 := 0xB8000 ||| 7 }

/-- The globals as their initialisers and `entry` of `kernel.c` leave them (`tss.esp0`,
`tss.ss0`, `page_directory[32]`, `video_page_table[0]`, and `cur_terminal`, which
`terminal_init` sets to 1), for a file-system image `fs`, PCB memory `pcbs` and user
memory `phys`. -/
def init_state (fs : Mem) (pcbs : Nat → pcb_t) (phys : Mem) : State :=
  { fs := fs, page_dir32 := 0x00800087, video_pg_table0 := 0xB8000 ||| 7, phys := phys,
    pcbs := pcbs, current_pcb := 0, file_array := 0, used_desc := 0,
    num_process := 1, open_pid := fun _ => 0, open_terminals := fun _ => 0,
    active_process := fun _ => 0, active_terminals := fun _ => 0,
    cur_terminal := 1, cur_process := 1, sched_on := 0, pit_started := false,
    tss_esp0 := 0x800000, tss_ss0 := KERNEL_DS, screen_x := 0, screen_y := 0, cur_pcb := 0,
    terminal_pointers := 0, running_freq := 0, current_rtc := 0,
    virtual_rtc := fun _ => ⟨0, 0⟩, active_rtc := fun _ => 0, rtc_reg_a := 0, rtc_reg_b := 0,
    num_entries := 0, cur_entry := 0 }

/-- The state in which `switch_terminal(1)`, called at the end of `entry`, calls
`execute("shell")`. -/
def boot_state (fs : Mem) (pcbs : Nat → pcb_t) (phys : Mem) : State :=
  switch_terminal_begin (init_state fs pcbs phys) 1

/-! ## Reading off results -/

/-- The state an `execute` leaves. -/
def ExecResult.state : ExecResult → State
  | ExecResult.returned _ s => s
  | ExecResult.entered s _ => s
  | ExecResult.off_table s => s

/-- The value `execute` returns at once, if it does. -/
def ExecResult.retval : ExecResult → Option Int
  | ExecResult.returned r _ => some r
  | ExecResult.entered _ _ => none
  | ExecResult.off_table _ => none

/-- The value `read` returns, when it does not go through another driver. -/
def ReadResult.retval : ReadResult → Option Int
  | ReadResult.ret r _ _ => some r
  | ReadResult.driver _ _ => none

/-- The state a `read` leaves. -/
def ReadResult.state : ReadResult → State
  | ReadResult.ret _ s _ => s
  | ReadResult.driver _ s => s

/-- The user buffer after a `read` of a regular file (`buf` when another driver is called). -/
def ReadResult.buf (buf : Mem) : ReadResult → Mem
  | ReadResult.ret _ _ b => b
  | ReadResult.driver _ _ => buf

/-! ## What the specification says of a file's bytes -/

/-- Block pointer number `n` of an inode: the word at `4 + 4n` in its inode block. -/
def block_pointer (fs : Mem) (inode n : Nat) : Nat := rd32 fs ((inode + 1) * 4096 + 4 + 4 * n)

/-- Byte `k` of the file of an inode, in the words of the specification: the byte at
position `k mod 4096` of the data block named by block pointer number `k div 4096`. -/
def file_byte (fs : Mem) (inode k : Nat) : Nat :=
  rd8 fs ((rd32 fs 4 + 1) * 4096 + block_pointer fs inode (k / 4096) * 4096 + k % 4096)

/-- The first `n` bytes of `m`, as a list. -/
def bytes_of (m : Mem) (n : Nat) : List Nat := (List.range n).map m

/-! ## A small file-system image and the states built on it -/

/-- Memory that holds the listed bytes at the listed addresses, and 0 elsewhere. -/
def mem_of (l : List (Nat × Nat)) : Mem := fun a => (l.lookup a).getD 0

/-- The bytes `l` placed from address `base` on. -/
def put (base : Nat) (l : List Nat) : List (Nat × Nat) :=
  l.enum.map (fun p => (base + p.1, p.2))

/-- An image with six directory entries, four inodes and four data blocks:
`.` (directory, inode 0), `shell` (inode 1, 28 bytes, data block 0), `ls` (inode 2,
28 bytes, data block 1), `frame0.txt` (inode 3, 16 bytes, data block 2), `empty`
(a regular file on inode 0, which has size 0 and all block pointers 0) and `cat` (a
second name of inode 2). Data blocks 0 and 1 start with the ELF magic number; data
block 2 holds the bytes 1, 2, ..., 20. -/
def demo_fs : Mem := mem_of (
  [(0, 6), (4, 4), (8, 4)] ++
  put 64 [46] ++ [(96, 1), (100, 0)] ++
  put 128 [115, 104, 101, 108, 108] ++ [(160, 2), (164, 1)] ++
  put 192 [108, 115] ++ [(224, 2), (228, 2)] ++
  put 256 [102, 114, 97, 109, 101, 48, 46, 116, 120, 116] ++ [(288, 2), (292, 3)] ++
  put 320 [101, 109, 112, 116, 121] ++ [(352, 2), (356, 0)] ++
  put 384 [99, 97, 116] ++ [(416, 2), (420, 2)] ++
  [(8192, 28), (8196, 0)] ++
  [(12288, 28), (12292, 1)] ++
  [(16384, 16), (16388, 2)] ++
  put 20480 [127, 69, 76, 70] ++ put 20504 [0x10, 0x80, 0x04, 0x08] ++
  put 24576 [127, 69, 76, 70] ++ put 24600 [0x20, 0x80, 0x04, 0x08] ++
  put 28672 [1, 2, 3, 4, 5, 6, 7, 8, 9, 10, 11, 12, 13, 14, 15, 16, 17, 18, 19, 20])

/-- An image with one file of 4100 bytes on inode 0: block pointer 0 names data block 0,
which starts with the byte 11, and block pointer 1 names data block 1, which starts with
the byte 22. -/
def two_block_fs : Mem := mem_of
  [(0, 1), (4, 1), (8, 2), (64, 97), (96, 2), (100, 0),
   (4096, 4), (4097, 16), (4100, 0), (4104, 1), (8192, 11), (12288, 22)]

/-- The strings used below. -/
def str_shell : List Nat := [115, 104, 101, 108, 108]

/-- The string `ls`. -/
def str_ls : List Nat := [108, 115]

/-- The string `cat frame0.txt`. -/
def str_cat_frame0 : List Nat := [99, 97, 116, 32, 102, 114, 97, 109, 101, 48, 46, 116, 120, 116]

/-- The string `frame0.txt`. -/
def str_frame0 : List Nat := [102, 114, 97, 109, 101, 48, 46, 116, 120, 116]

/-- The string `empty`. -/
def str_empty : List Nat := [101, 109, 112, 116, 121]

/-- A file slot with nothing in it. -/
def blank_file : file_t := ⟨0, ⟨fn_t.null, fn_t.null, fn_t.null⟩, 0, blank_dentry⟩

/-- A PCB of zeros. -/
def blank_pcb : pcb_t :=
  { pid := 0, terminal_id := 0, parent_pid := 0, read_pos := 0, isReading := 0,
    terminal_buffer := fun _ => 0, terminal_pos := 0, screen_x := 0, screen_y := 0,
    enter_pressed := 0, clear_was_pressed := 0, parent_pcb := 0,
    file_array := fun _ => blank_file, used_desc := fun _ => 0,
    k_esp := 0, k_ebp := 0, ret_eip := 0, ret_esp := 0, ret_ebp := 0, ret_cs := 0,
    ret_flags := 0, parent_esp := 0, args := [] }

/-- Registers and locals for the calls of `execute` below. -/
def demo_frame : Frame := ⟨0x7FDF00, 0x7FDF40, 2, fun _ => 0, fun _ => 0, fun _ => 0, 0, 0⟩

/-- Boot on `demo_fs`, with zeroed PCB and user memory. -/
def demo_boot : State := boot_state demo_fs (fun _ => blank_pcb) (fun _ => 0)

/-- The boot shell is running: `execute("shell")` from `demo_boot`. -/
def demo_shell : State := (execute demo_boot str_shell demo_frame).state

/-- The shell has opened `frame0.txt`. -/
def demo_opened : State := (sys_open demo_shell (some (cstr str_frame0))).2

/-- The `iret` frame with which an `execute` enters the new program, if it does. -/
def ExecResult.frame : ExecResult → Option iret_t
  | ExecResult.returned _ _ => none
  | ExecResult.entered _ f => some f
  | ExecResult.off_table _ => none

/-- The state a `halt` leaves. -/
def HaltResult.state : HaltResult → State
  | HaltResult.finishHalt _ _ _ s => s
  | HaltResult.root s _ => s

/-- The value a `halt` hands to `finishHalt`, if it gets there. -/
def HaltResult.retval : HaltResult → Option Int
  | HaltResult.finishHalt r _ _ _ => some r
  | HaltResult.root _ _ => none

/-- The shell has run `ls`: `execute("ls")` from `demo_shell`. -/
def demo_ls : State := (execute demo_shell str_ls demo_frame).state

/-- Six processes are live: `execute("shell")` five more times from `demo_shell`. -/
def demo_six : State :=
  (execute (execute (execute (execute (execute demo_shell str_shell demo_frame).state
    str_shell demo_frame).state str_shell demo_frame).state str_shell demo_frame).state
    str_shell demo_frame).state

/-! ## Sequences of `open` and `close` -/

/-- A call of `open` or of `close` made by the running process. -/
inductive FdCall where
  | open_call (filename : Option Mem)
  | close_call (fd : Int)

/-- The state after one such call. -/
def fd_call (s : State) : FdCall → State
  | FdCall.open_call filename => (sys_open s filename).2
  | FdCall.close_call fd => (close s fd).2

/-- The state after a sequence of such calls, made one after the other. -/
def fd_calls (s : State) (calls : List FdCall) : State := calls.foldl fd_call s

/-! ## terminal.c: the line discipline -/

/-- What the keyboard handler does to the terminal while a process waits in
`terminal_read`: `print_scancode_to_terminal` calls `terminal_write(buf, 1)` with the
character `c` in `buf[0]`; Enter calls `terminal_enter()`; Backspace calls
`terminal_backspace()`; Ctrl-L calls `clear_pressed()`. -/
inductive key_event where
  | char (c : Nat)
  | enter
  | backspace
  | clear
deriving DecidableEq, Repr

/-- `terminal_clear()`, on the PCB that the terminal pointers point into: when
`*clear_was_pressed` is 1 the read buffer and its position are reset. (The screen and
the cursor, which `clear` and `puts` of `lib.c` change, are not part of the model.) -/
def terminal_clear (p : pcb_t) : pcb_t :=
  { p with
    terminal_pos := if p.clear_was_pressed = 1 then 0 else p.terminal_pos
    terminal_buffer := fun i =>
      if p.clear_was_pressed = 1 ∧ i < 1024 then 0 else p.terminal_buffer i
    clear_was_pressed := if p.clear_was_pressed = 1 then 0 else p.clear_was_pressed }

/-- The `for` loop of `terminal_write(buf, nbytes)`: `n` iterations remain, `i` is the
index. The result is the value returned and the PCB. While `*isReading` is 1 the
character goes to `terminal_buffer[*t_pos]`; otherwise it goes to the screen only. (The
arrays `dbufarray`, `dposarray` are not part of the model.) -/
def terminal_write_loop (buf : Mem) : Nat → Nat → pcb_t → Int × pcb_t
  | 0, i, p => (i, p)
  | n + 1, i, p =>
    if buf i % 256 = 0 then (i, p)
    else if p.isReading = 1 then
      if p.terminal_pos ≥ 1024 then (i, p)
      else
        terminal_write_loop buf n (i + 1)
          { p with
            terminal_buffer := wr8 p.terminal_buffer p.terminal_pos.toNat (buf i % 256)
            terminal_pos := p.terminal_pos + 1 }
    else terminal_write_loop buf n (i + 1) p

/-- `terminal_write(buf, nbytes)` for a non-null `buf`. -/
def terminal_write (p : pcb_t) (buf : Mem) (nbytes : Int) : Int × pcb_t :=
  terminal_write_loop buf nbytes.toNat 0 (terminal_clear p)

/-- `terminal_enter()`. -/
def terminal_enter (p : pcb_t) : pcb_t := { p with enter_pressed := 1 }

/-- `terminal_enter_off()`. -/
def terminal_enter_off (p : pcb_t) : pcb_t := { p with enter_pressed := 0 }

/-- `clear_pressed()`. -/
def clear_pressed (p : pcb_t) : pcb_t := { p with clear_was_pressed := 1 }

/-- `terminal_backspace()`: the last character of the read buffer becomes a blank. -/
def terminal_backspace (p : pcb_t) : pcb_t :=
  { p with
    terminal_pos := if p.terminal_pos > 0 ∧ p.isReading = 1 then p.terminal_pos - 1
      else p.terminal_pos
    terminal_buffer :=
      if p.terminal_pos > 0 ∧ p.isReading = 1 then
        wr8 p.terminal_buffer (p.terminal_pos - 1).toNat 32
      else p.terminal_buffer }

/-- One keyboard interrupt, as the terminal of the waiting process sees it. -/
def key_step (p : pcb_t) : key_event → pcb_t
  | key_event.char c => (terminal_write p (fun _ => c) 1).2
  | key_event.enter => terminal_enter p
  | key_event.backspace => terminal_backspace p
  | key_event.clear => clear_pressed p

/-- The loop `while(!(*enter_pressed)) terminal_clear();` of `terminal_read`, with the
keyboard interrupts that arrive while it spins, one between two rounds of the loop. The
result is `none` when the events end before Enter is pressed: the loop is still
spinning. -/
def terminal_wait : List key_event → pcb_t → Option pcb_t
  | [], p => if p.enter_pressed ≠ 0 then some p else none
  | e :: es, p =>
    if p.enter_pressed ≠ 0 then some p else terminal_wait es (key_step (terminal_clear p) e)

/-- The `for` loop of `terminal_read` that fills `buf`: `n` iterations remain, `i` is the
index. The result is `i` after the loop and the buffer. A newline ends the loop before
it is stored; a `'\0'` does not end it. (The cursor moves of `increment_row` are not
part of the model.) -/
def terminal_read_copy (terminal_buffer : Mem) (nbytes : Int) : Nat → Nat → Mem → Nat × Mem
  | 0, i, buf => (i, buf)
  | n + 1, i, buf =>
    if (i : Int) < nbytes then
      if terminal_buffer i % 256 = 10 then (i + 1, buf)
      else terminal_read_copy terminal_buffer nbytes n (i + 1) (wr8 buf i (terminal_buffer i % 256))
    else (i, buf)

/-- Lines 122-132 of `terminal_read`: the read buffer is cleared and the terminal starts
to read. -/
def terminal_read_begin (p : pcb_t) : pcb_t :=
  { p with
    terminal_pos := 0
    terminal_buffer := fun i => if i < 1024 then 0 else p.terminal_buffer i
    enter_pressed := 0
    isReading := 1 }

/-- What `terminal_read` hands back: the value returned, the caller's buffer and the
PCB. -/
structure TermRead where
  retval : Int
  buf : Mem
  pcb : pcb_t

/-- The loop `for (i = 0; i < 1024; i++) terminal_buffer[i] = '\0';` that ends
`terminal_read`: `n` iterations remain, `i` is the index. The result is `i` after the
loop and the read buffer. -/
def terminal_read_clear : Nat → Nat → Mem → Nat × Mem
  | 0, i, tb => (i, tb)
  | n + 1, i, tb =>
    if i < 1024 then terminal_read_clear n (i + 1) (wr8 tb i 0) else (i, tb)

/-- Lines 138-173 of `terminal_read`, once Enter has been pressed. The terminator is
stored at the index `i` that the copy loop has left; the loop that clears the read
buffer then runs the same variable `i` from 0 to 1024, and `return i+1` returns the
value it has after that loop. -/
def terminal_read_finish (p : pcb_t) (buf : Mem) (nbytes : Int) : TermRead :=
  let r := terminal_read_copy p.terminal_buffer nbytes nbytes.toNat 0 buf
  let c := terminal_read_clear 1024 0 p.terminal_buffer
  { retval := i32 (c.1 + 1)
    buf := wr8 r.2 r.1 0
    pcb := { p with
      isReading := 0
      terminal_pos := 0
      terminal_buffer := c.2 } }

/-- `terminal_read(buf, nbytes)` for a non-null `buf`, called by the process whose PCB is
`p`, while the keyboard delivers `keys`. `none`: Enter has not been pressed, the call has
not returned. -/
def terminal_read (p : pcb_t) (keys : List key_event) (buf : Mem) (nbytes : Int) :
    Option TermRead :=
  match terminal_wait keys (terminal_read_begin p) with
  | none => none
  | some q => some (terminal_read_finish q buf nbytes)

/-! ## rtc.c: `rtc_write`, `rtc_read` and sequences of RTC calls -/

/-- `rtc_write(buf, nbytes)`: return value and state; `buf` is `none` for a null
pointer, and `buf[0]` is the word at its start. -/
def rtc_write (s : State) (buf : Option Mem) (_nbytes : Int) : Int × State :=
  match buf with
  | none => (-1, s)
  | some b =>
    let freq := rd32 b 0
    if freq > 1024 ∨ freq < 1 then (-1, s)
    else if freq ≠ 1 ∧ freq % 2 ≠ 0 then (-1, s)
    else
      let s1 := change_RTC_freq s freq
      (4, { s1 with
        virtual_rtc := Function.update s1.virtual_rtc s1.current_rtc
          { (s1.virtual_rtc s1.current_rtc) with freq := freq } })

/-- How `rtc_read` goes on from its call: it returns `retval`, or it finds the counter
below 1 and spins in its `while` loop until `tick` has raised the counter. -/
inductive RtcRead where
  | returned (retval : Int) (s : State)
  | waiting (s : State)

/-- `rtc_read(buf, nbytes)` up to the first test of its `while` loop. -/
def rtc_read (s : State) : RtcRead :=
  if (s.virtual_rtc s.current_rtc).freq = 0 then RtcRead.returned 0 s
  else if (s.virtual_rtc s.current_rtc).counter < 1 then RtcRead.waiting s
  else
    RtcRead.returned 0
      { s with
        virtual_rtc := Function.update s.virtual_rtc s.current_rtc
          { (s.virtual_rtc s.current_rtc) with counter := 0 } }

/-- A user buffer whose first word is `v`. -/
def word_buf (v : Nat) : Mem := wr32 (fun _ => 0) 0 v

/-- A call into the RTC driver: `rtc_open()`, `rtc_write(buf, 4)` for a buffer whose
first word is `freq`, or `rtc_close(fd)`. -/
inductive RtcCall where
  | open_call
  | write_call (freq : Nat)
  | close_call
deriving DecidableEq, Repr

/-- One call into the RTC driver made while process `pid` runs: `current_rtc` is what
`change_to_virtual_rtc(pid)` made it when the process was switched to. -/
def rtc_call (s : State) (c : Int × RtcCall) : State :=
  match c.2 with
  | RtcCall.open_call => (rtc_open (change_to_virtual_rtc s c.1)).2
  | RtcCall.write_call freq => (rtc_write (change_to_virtual_rtc s c.1) (some (word_buf freq)) 4).2
  | RtcCall.close_call => (rtc_close (change_to_virtual_rtc s c.1) 2).2

/-- The state after a sequence of RTC calls, each with the pid of its caller. -/
def rtc_calls (s : State) (calls : List (Int × RtcCall)) : State := calls.foldl rtc_call s

/-- The largest requested frequency among the virtual RTCs that are open, 0 when none
is. -/
def max_requested (s : State) : Nat :=
  (((List.range 6).filter (fun (i : Nat) => decide (s.active_rtc (i : Int) = 1))).map
    (fun (i : Nat) => (s.virtual_rtc (i : Int)).freq)).foldl max 0

/-- The frequencies the specification lets `rtc_write` accept: the powers of two from 1
to 1024. -/
def pow2_freqs : List Nat := [1, 2, 4, 8, 16, 32, 64, 128, 256, 512, 1024]

/-- Every caller of the sequence is one of the six processes, and every `rtc_write` asks
for a power of two from 1 to 1024. -/
def pow2_calls (calls : List (Int × RtcCall)) : Prop :=
  ∀ c ∈ calls, 1 ≤ c.1 ∧ c.1 ≤ 6 ∧ ∀ freq, c.2 = RtcCall.write_call freq → freq ∈ pow2_freqs

/-- Some virtual RTC is open. -/
def some_rtc_open (s : State) : Prop := ∃ i : Int, 0 ≤ i ∧ i < 6 ∧ s.active_rtc i = 1

/-! ## sys_calls.c: `getargs`, `vidmap` and `jump_to_process` -/

/-- Modelled from the spec: `strcpy(dest, src)` of `lib.c` (not among the sources), for a
source string held in a list: the bytes before the first terminator, and the terminator,
are stored from `dest[0]` on. -/
def strcpy_to (dest : Mem) (src : List Nat) : Mem :=
  fun k =>
    if k < (src.takeWhile (fun c => c ≠ 0)).length then (src.takeWhile (fun c => c ≠ 0)).getD k 0
    else if k = (src.takeWhile (fun c => c ≠ 0)).length then 0
    else dest k

/-- `getargs(buf, nbytes)`: return value and the user buffer. -/
def getargs (s : State) (buf : Mem) (nbytes : Int) : Int × Mem :=
  if nbytes < 32 then (-1, buf) else (0, strcpy_to buf s.cur.args)

/-- `vidmap(screen_start)`: return value and the memory of the caller, `vm` being its
virtual address space; `screen_start` is a 32-bit pointer. -/
def vidmap (vm : Mem) (screen_start : Nat) : Int × Mem :=
  if screen_start < 0x08000000 ∨ screen_start > 0x08400000 then (-1, vm)
  else (0, wr32 vm screen_start 0x10000000)

/-- The loop of `print_buffer` (sys_calls.c), as far as the cursor goes: `n` iterations
remain, `i` is the index, `j` the counter, `y` the row that `set_screen_x_y` will be given. -/
def print_buffer_loop (terminal_buffer : Mem) (y_old : Int) : Nat → Nat → Int → Int → Int
  | 0, _, _, y => y
  | n + 1, i, j, y =>
    if terminal_buffer i % 256 = 0 then y
    else
      print_buffer_loop terminal_buffer y_old n (i + 1) (j + 1)
        (if j + 1 ≥ 72 ∧ y_old = 24 then
          (if j + 1 = 72 then y - 1 else if (j + 1 - 72) % 80 = 0 then y - 2 else y)
         else y)

/-- `print_buffer()` of sys_calls.c: the buffer of the current PCB is printed and the
cursor is put back in its column, in the row that the loop has computed. -/
def print_buffer (s : State) : State :=
  { s with screen_y := print_buffer_loop s.cur.terminal_buffer s.screen_y 1024 0 0 s.screen_y }

/-- How `jump_to_process` ends: it returns into kernel code at `eip` on the stack `esp`;
or it enters user code through `iret`; or the saved code segment is neither, and it
halts the machine. -/
inductive JumpResult where
  | kernel (s : State) (esp ebp eflags eip : Nat)
  | user (s : State) (frame : iret_t) (ebp : Nat)
  | bad_cs (s : State)

/-- Lines 774-800 of `jump_to_process(pid)`: the virtual RTC, the user page, the PCB
pointers and the terminal. `terminal_enter_off` stores through the pointer
`enter_pressed`, which still points into the PCB of the last `update_pointers`. -/
def jump_prepare (s : State) (pid : Int) : State :=
  let s1 := { change_to_virtual_rtc s pid with page_dir32 := user_page_entry pid }
  let s2 := s1.modify_pcb s1.terminal_pointers terminal_enter_off
  let s3 := update_pointers (update_cur_pcb s2 (get_pcb pid)) (get_pcb pid) 1
  { s3 with
    screen_y := if s3.active_terminals s3.cur_terminal = 1 then (print_buffer s3).screen_y
      else s3.screen_y }

/-- Lines 808-809 and 828-829 of `jump_to_process`: the TSS of the process at `pcb`. -/
def jump_tss (s : State) (pcb : Nat) : State :=
  { s with tss_esp0 := u32 (pcb + 8192), tss_ss0 := KERNEL_DS }

/-- `jump_to_process(pid)`. In the last case `swap_video_pages(1, 1)` is called; what
`clear` and `printf` do to the screen is not part of the model. -/
def jump_to_process (s : State) (pid : Int) : JumpResult :=
  let s1 := jump_prepare s pid
  let pcb := s1.pcbs (get_pcb pid)
  if pcb.ret_cs = KERNEL_CS then
    JumpResult.kernel (jump_tss s1 (get_pcb pid)) pcb.ret_esp pcb.ret_ebp pcb.ret_flags pcb.ret_eip
  else if pcb.ret_cs = USER_CS then
    JumpResult.user (jump_tss s1 (get_pcb pid))
      ⟨USER_DS, pcb.ret_esp, pcb.ret_flags, pcb.ret_cs, pcb.ret_eip, USER_DS⟩ pcb.ret_ebp
  else JumpResult.bad_cs { s1 with video_pg_table0 := 0xB8000 ||| 7 }

/-- The state a `jump_to_process` leaves. -/
def JumpResult.state : JumpResult → State
  | JumpResult.kernel s _ _ _ _ => s
  | JumpResult.user s _ _ => s
  | JumpResult.bad_cs s => s

/-- The bytes of the user image: byte `k` is the one at virtual `0x08048000 + k`, which
the page-directory entry 32 maps to physical `user_base + EXE_OFFSET + k`. -/
def user_image (s : State) : Mem := fun k => s.phys (user_base s + EXE_OFFSET + k)

/-! ## Predicates and inputs of the statements below -/

/-- Slot 0 of the running process is bound to `terminal_read`, slot 1 to
`terminal_write`, both are marked in use, and the global pointers `file_array` and
`used_desc` point into its PCB. -/
def stdio_bound (s : State) : Prop :=
  s.file_array = s.current_pcb ∧ s.used_desc = s.current_pcb ∧
  (s.cur.file_array 0).f_ops.read_fn = fn_t.terminal_read ∧
  (s.cur.file_array 1).f_ops.write_fn = fn_t.terminal_write ∧
  s.cur.used_desc 0 = 1 ∧ s.cur.used_desc 1 = 1

/-- The keys `l`, `s` and Enter. -/
def keys_ls : List key_event := [key_event.char 108, key_event.char 115, key_event.enter]

/-- The shell has opened the RTC: `rtc_open()` from `demo_shell`. -/
def demo_rtc : State := (rtc_open demo_shell).2

/-- The frequencies of the `switch` of `change_RTC_freq`. -/
def rate_freqs : List Nat := [2, 4, 8, 16, 32, 64, 128, 256, 512, 1024]

/-- What the RTC calls keep true: the running frequency is 0, 1 or one of the table;
and while some virtual RTC is open it is one of the table and no virtual RTC asks for
more. -/
def rtc_inv (s : State) : Prop :=
  (s.running_freq = 0 ∨ s.running_freq = 1 ∨ s.running_freq ∈ rate_freqs) ∧
  (some_rtc_open s → s.running_freq ∈ rate_freqs ∧
    ∀ i : Int, 0 ≤ i → i < 6 → (s.virtual_rtc i).freq ≤ s.running_freq)

/-- Process 1 opens the RTC, asks for 8 Hz and then for 2 Hz. -/
def calls_8_then_2 : List (Int × RtcCall) :=
  [(1, RtcCall.open_call), (1, RtcCall.write_call 8), (1, RtcCall.write_call 2)]

/-- Process 1 opens the RTC and asks for 8 Hz, process 2 opens the RTC, process 1 closes
it. -/
def calls_close_1 : List (Int × RtcCall) :=
  [(1, RtcCall.open_call), (1, RtcCall.write_call 8), (2, RtcCall.open_call),
   (1, RtcCall.close_call)]

/-- The same calls, after which process 1 opens the RTC again. -/
def calls_reopen_1 : List (Int × RtcCall) := calls_close_1 ++ [(1, RtcCall.open_call)]

/-- `true` when `rtc_read` returns at once. -/
def RtcRead.returns : RtcRead → Bool
  | RtcRead.returned _ _ => true
  | RtcRead.waiting _ => false

/-- The command `cat` followed by a blank and forty letters `a`. -/
def str_cat_long : List Nat := [99, 97, 116, 32] ++ List.replicate 40 97

/-- The shell has run that command: `execute` from `demo_shell`. -/
def demo_cat_long : State := (execute demo_shell str_cat_long demo_frame).state

/-- The program `ls` of `demo_ls` (pid 2) as the scheduler leaves its PCB when it preempts
it in user mode: `store_state` has saved the user code segment and the registers. -/
def demo_preempted : State :=
  demo_ls.modify_pcb (get_pcb 2) (fun p =>
    { p with ret_cs := USER_CS, ret_eip := 0x08048100, ret_esp := 0x083FFF00, ret_flags := 0x202 })

/-- What holds of the PCB of a process that waits in `terminal_read` while characters
other than a newline are typed: Enter has not been pressed, the terminal is reading, and
the read buffer holds no newline. -/
def reading_inv (q : pcb_t) : Prop :=
  q.enter_pressed = 0 ∧ q.isReading = 1 ∧ ∀ i : Nat, i < 1024 → q.terminal_buffer i % 256 ≠ 10

/-! ## keyboard.c -/

/-- The table `row_1`: the characters `1234567890-=`. -/
def row_1 : List Nat := [49, 50, 51, 52, 53, 54, 55, 56, 57, 48, 45, 61]

/-- The table `row_2`: the characters `qwertyuiop[]`. -/
def row_2 : List Nat := [113, 119, 101, 114, 116, 121, 117, 105, 111, 112, 91, 93]

/-- The table `row_3`: the characters `asdfghjkl;'`, the backquote and the backslash. -/
def row_3 : List Nat := [97, 115, 100, 102, 103, 104, 106, 107, 108, 59, 39, 96, 92]

/-- The table `row_4`: the characters `zxcvbnm,./` and the blank. -/
def row_4 : List Nat := [122, 120, 99, 118, 98, 110, 109, 44, 46, 47, 32]

/-- The table `shift_row_1`: the characters `!@#$%^&*()_+`. -/
def shift_row_1 : List Nat := [33, 64, 35, 36, 37, 94, 38, 42, 40, 41, 95, 43]

/-- The table `shift_row_2`: the characters `QWERTYUIOP` and the two braces. -/
def shift_row_2 : List Nat := [81, 87, 69, 82, 84, 89, 85, 73, 79, 80, 123, 125]

/-- The table `shift_row_3`: the characters `ASDFGHJKL:`, the double quote, `~` and `|`. -/
def shift_row_3 : List Nat := [65, 83, 68, 70, 71, 72, 74, 75, 76, 58, 34, 126, 124]

/-- The table `shift_row_4`: the characters `ZXCVBNM<>?`. -/
def shift_row_4 : List Nat := [90, 88, 67, 86, 66, 78, 77, 60, 62, 63]

/-- The variables of `keyboard.c`. `caps_lock` only ever holds 0 or 1; the three
counters are `int`s, taken here without wrap-around. -/
structure kbd_t where
  shift_ON : Int
  ctl_ON : Int
  alt_ON : Int
  caps_lock : Nat
deriving DecidableEq, Repr

/-- `init_keyboard()`; `alt_ON`, which it leaves alone, has the initial value 0 of a
global. -/
def init_keyboard : kbd_t := ⟨0, 0, 0, 0⟩

/-- An access `table[index]` of `print_scancode_to_terminal`: the table and the index
that the subtraction gives. -/
structure row_access where
  table : List Nat
  index : Int
deriving DecidableEq, Repr

/-- The element that a table access reads; `none` when the index is outside the table. -/
def row_access.value (a : row_access) : Option Nat :=
  if 0 ≤ a.index ∧ a.index < a.table.length then a.table.get? a.index.toNat else none

/-- The `if` chain of `print_scancode_to_terminal(scancode)`: the table it selects and
the index it computes. `shift` says whether `shift_ON` is non-zero. -/
def scancode_access (shift : Bool) (caps_lock : Nat) (scancode : Nat) : row_access :=
  if scancode ≤ 0x0D then
    if shift then ⟨shift_row_1, (scancode : Int) - 0x02⟩ else ⟨row_1, (scancode : Int) - 0x02⟩
  else if scancode ≤ 0x1B then
    if shift ∨ (caps_lock &&& (if scancode ≤ 0x19 then 1 else 0)) ≠ 0 then
      ⟨shift_row_2, (scancode : Int) - 0x10⟩
    else ⟨row_2, (scancode : Int) - 0x10⟩
  else if scancode ≤ 0x28 then
    if shift ∨ (caps_lock &&& (if scancode ≤ 0x26 then 1 else 0)) ≠ 0 then
      ⟨shift_row_3, (scancode : Int) - 0x1E⟩
    else ⟨row_3, (scancode : Int) - 0x1E⟩
  else if scancode = 0x29 then
    if shift then ⟨shift_row_3, 11⟩ else ⟨row_3, 11⟩
  else if scancode = 0x2B then
    if shift then ⟨shift_row_3, 12⟩ else ⟨row_3, 12⟩
  else if scancode = 0x39 then ⟨row_4, 10⟩
  else
    if shift ∨ (caps_lock &&& (if scancode ≤ 0x32 then 1 else 0)) ≠ 0 then
      ⟨shift_row_4, (scancode : Int) - 0x2C⟩
    else ⟨row_4, (scancode : Int) - 0x2C⟩

/-- `print_scancode_to_terminal(scancode)`: the character it puts in `buf[0]` and hands
to `terminal_write(buf, 1)`; `none` when it reads outside the table. -/
def print_scancode_to_terminal (k : kbd_t) (scancode : Nat) : Option Nat :=
  (scancode_access (decide (k.shift_ON ≠ 0)) k.caps_lock scancode).value

/-- What `print_scancode` does besides changing the variables of the keyboard: nothing;
or it calls `print_scancode_to_terminal(scancode)`, `terminal_enter()`,
`terminal_backspace()`, `clear_pressed()` or `switch_terminal(n)`. -/
inductive key_action where
  | nothing
  | to_terminal (scancode : Nat)
  | enter
  | backspace
  | clear
  | switch_terminal (n : Int)
deriving DecidableEq, Repr

/-- `print_scancode(scancode)`: the variables of the keyboard afterwards and the call it
makes. -/
def print_scancode (k : kbd_t) (scancode : Nat) : kbd_t × key_action :=
  if scancode = 0x2A ∨ scancode = 0x36 then
    ({ k with shift_ON := k.shift_ON + 1 }, key_action.nothing)
  else if scancode = 0xAA ∨ scancode = 0xB6 then
    ({ k with shift_ON := k.shift_ON - 1 }, key_action.nothing)
  else if scancode = 0x38 then ({ k with alt_ON := k.alt_ON + 1 }, key_action.nothing)
  else if scancode = 0xB8 then ({ k with alt_ON := k.alt_ON - 1 }, key_action.nothing)
  else if scancode = 0x3A then
    ({ k with caps_lock := if k.caps_lock = 0 then 1 else 0 }, key_action.nothing)
  else if scancode = 0x1D then ({ k with ctl_ON := k.ctl_ON + 1 }, key_action.nothing)
  else if scancode = 0x9D then ({ k with ctl_ON := k.ctl_ON - 1 }, key_action.nothing)
  else if scancode = 0x1C then (k, key_action.enter)
  else if scancode = 0x0E then (k, key_action.backspace)
  else if scancode = 0x26 then
    if k.ctl_ON ≠ 0 then (k, key_action.clear) else (k, key_action.to_terminal scancode)
  else if scancode = 0x2E then
    if k.ctl_ON ≠ 0 then (k, key_action.nothing) else (k, key_action.to_terminal scancode)
  else if scancode = 0x3B then
    if k.alt_ON ≠ 0 then (k, key_action.switch_terminal 1) else (k, key_action.nothing)
  else if scancode = 0x3C then
    if k.alt_ON ≠ 0 then (k, key_action.switch_terminal 2) else (k, key_action.nothing)
  else if scancode = 0x3D then
    if k.alt_ON ≠ 0 then (k, key_action.switch_terminal 3) else (k, key_action.nothing)
  else if scancode ≤ 0x35 ∨ scancode = 0x39 then (k, key_action.to_terminal scancode)
  else (k, key_action.nothing)

/-- The printable keys of the claim about the characters: the make-code of the key, the
character of the key in its base row, and the character at the same place of the shifted
row (for the space bar, which has no place in a shifted row, the blank). -/
def key_layout : List (Nat × Nat × Nat) :=
  [(2, 49, 33), (3, 50, 64), (4, 51, 35), (5, 52, 36), (6, 53, 37), (7, 54, 94), (8, 55, 38),
   (9, 56, 42), (10, 57, 40), (11, 48, 41), (12, 45, 95), (13, 61, 43),
   (16, 113, 81), (17, 119, 87), (18, 101, 69), (19, 114, 82), (20, 116, 84), (21, 121, 89),
   (22, 117, 85), (23, 105, 73), (24, 111, 79), (25, 112, 80), (26, 91, 123), (27, 93, 125),
   (30, 97, 65), (31, 115, 83), (32, 100, 68), (33, 102, 70), (34, 103, 71), (35, 104, 72),
   (36, 106, 74), (37, 107, 75), (38, 108, 76), (39, 59, 58), (40, 39, 34), (41, 96, 126),
   (43, 92, 124),
   (44, 122, 90), (45, 120, 88), (46, 99, 67), (47, 118, 86), (48, 98, 66), (49, 110, 78),
   (50, 109, 77), (51, 44, 60), (52, 46, 62), (53, 47, 63),
   (57, 32, 32)]

/-- The make-codes of the printable keys: `0x02-0x0D`, `0x10-0x1B`, `0x1E-0x29`,
`0x2B-0x35` and `0x39`. -/
def printable_codes : List Nat :=
  List.range' 0x02 12 ++ List.range' 0x10 12 ++ List.range' 0x1E 12 ++ List.range' 0x2B 11 ++
    [0x39]

/-- A character is a small letter. -/
def is_letter (c : Nat) : Bool := decide (97 ≤ c ∧ c ≤ 122)

/-- The character of a key of `key_layout` as the claim gives it: the shifted one when
Shift is held, or when Caps Lock is on and the key is a letter; the base one otherwise. -/
def layout_char (shift : Bool) (caps_lock : Nat) (e : Nat × Nat × Nat) : Nat :=
  if shift ∨ (caps_lock = 1 ∧ is_letter e.2.1) then e.2.2 else e.2.1

/-- An image with one file of 8 bytes on inode 0 and one data block; block pointer 0 of
the inode is 1, the number of data blocks, so that it names the 4 KiB after the data
region, where the bytes 77, 78, 79, 80 lie. -/
def bad_block_fs : Mem := mem_of
  [(0, 1), (4, 1), (8, 1), (64, 97), (96, 2), (100, 0),
   (4096, 8), (4100, 1), (12288, 77), (12289, 78), (12290, 79), (12291, 80)]

/-! ## directory.c: `dir_read` -/

/-- Modelled from the spec: `strncpy(dest, src, n)` of `lib.c` (not among the sources),
with its C meaning, for a source held in a list: the bytes of `src` before its first
terminator, at most `n` of them, are stored from `dest[0]` on, and zeros after them up
to `dest[n-1]`. -/
def strncpy_to (dest : Mem) (src : List Nat) (n : Nat) : Mem :=
  fun k => if k < n then ((src.take n).takeWhile (fun c => c ≠ 0)).getD k 0 else dest k

/-- The four bytes of a 32-bit word in memory. -/
def word_bytes (v : Nat) : List Nat :=
  [v % 256, v / 256 % 256, v / 65536 % 256, v / 16777216 % 256]

/-- The 40 bytes of a `dentry_t` in memory: `file_name`, `file_type`, `inode_num`. -/
def dentry_bytes (e : dentry_t) : List Nat :=
  e.file_name ++ word_bytes e.file_type ++ word_bytes e.inode_num

/-- `dir_read(buf, nbytes)`: the return value, the buffer and the state. `stack` holds
the bytes that follow the local `entry` in memory; `strlen(entry.file_name)` goes on
into `file_type`, `inode_num` and them when the name has no terminator. The comparison
of `cur_entry` with `num_entries` is unsigned. -/
def dir_read (s : State) (buf : Mem) (_nbytes : Int) (stack : List Nat) : Int × Mem × State :=
  if u32i s.cur_entry ≥ s.num_entries then (0, buf, s)
  else
    let entry :=
      (read_dentry_by_dir_index s.fs (u32i s.cur_entry) (some blank_dentry)).2.getD blank_dentry
    (i32 (strlen (dentry_bytes entry ++ stack)), strncpy_to buf entry.file_name 32,
      { s with cur_entry := i32 (u32i (s.cur_entry + 1)) })

/-- The name of 32 letters `a`. -/
def str_long_name : List Nat := List.replicate 32 97

/-- An image with two directory entries: `.` and a regular file on inode 0 whose name
fills the 32 bytes of `file_name`. -/
def long_name_fs : Mem := mem_of (
  [(0, 2), (4, 1), (8, 1)] ++
  put 64 [46] ++ [(96, 1), (100, 0)] ++
  put 128 str_long_name ++ [(160, 2), (164, 0)])

/-- The directory of `long_name_fs` has been opened. -/
def long_name_opened : State :=
  (dir_open (init_state long_name_fs (fun _ => blank_pcb) (fun _ => 0))).2

/-- The index of the first directory entry, among the first `num_dir_entries`, whose
name equals `fname` under `strncmp` bounded to 32 bytes. -/
def first_match (fs : Mem) (fname : Mem) : Option Nat :=
  (List.range (rd32 fs 0)).find?
    (fun i => decide (strncmp fname (fun j => rd8 fs (64 + 64 * i + j)) 32 = 0))

/-! ## sys_calls.c: the scheduler -/

/-- `increment_cur_process()`, on the value of `cur_process`. -/
def increment_cur_process (cur_process : Int) : Int :=
  if cur_process + 1 = 4 then 1 else cur_process + 1

/-- The loop `while(active_process[cur_process] == 0) increment_cur_process();` of
`get_next_process`: the value of `cur_process` when it ends, `none` when it has not
ended after `fuel` increments. -/
def next_process_scan (active_process : Int → Int) : Nat → Int → Option Int
  | 0, c => if active_process c = 0 then none else some c
  | fuel + 1, c =>
    if active_process c = 0 then next_process_scan active_process fuel (increment_cur_process c)
    else some c

/-- `swap_video_pages(terminal_num, foreground)`: the entry it stores in
`video_pg_table[0]`. -/
def swap_video_pages (terminal_num : Int) (foreground : Int) : Nat :=
  if foreground ≠ 0 then 0xB8000 ||| 7 else u32i (0xB8000 + terminal_num * 0x1000) ||| 7

/-- The part of `get_next_process` after its loop has stopped at the terminal `c`:
`cur_terminal` is set, the cursor of the screen is saved in the current PCB, if there is
one, and the video page is swapped. -/
def schedule_terminal (s : State) (c : Int) : State :=
  let s1 := { s with cur_process := c, cur_terminal := c }
  let s2 := { s1 with
    pcbs := if s1.current_pcb ≠ 0 then (update_screen_x_y s1 s1.current_pcb).pcbs
      else s1.pcbs }
  { s2 with
    video_pg_table0 := swap_video_pages s2.cur_terminal (s2.active_terminals s2.cur_terminal) }

/-- `get_next_process()`: the pid it returns and the state; `none` when its loop has not
ended after `fuel` increments. -/
def get_next_process (fuel : Nat) (s : State) : Option (Int × State) :=
  if s.num_process = 1 then some (0, s)
  else
    match next_process_scan s.active_process fuel (increment_cur_process s.cur_process) with
    | none => none
    | some c =>
      some ((schedule_terminal s c).active_process (schedule_terminal s c).cur_process,
        schedule_terminal s c)

/-- The terminals after `c` in the cyclic order 1, 2, 3, 1, ending with `c` itself. -/
def cyclic_after (c : Int) : List Int :=
  if c = 1 then [2, 3, 1] else if c = 2 then [3, 1, 2] else [1, 2, 3]

/-- The first terminal after the cursor, in the cyclic order, that has a scheduled
process. -/
def first_scheduled (s : State) : Option Int :=
  (cyclic_after s.cur_process).find? (fun t => decide (s.active_process t ≠ 0))

/-- Three terminals with the scheduled processes 1, 2 and 3, the cursor on terminal 2. -/
def demo_three : State :=
  { demo_shell with
    num_process := 4, cur_process := 2
    active_process := fun t => if t = 1 then 1 else if t = 2 then 2 else if t = 3 then 3 else 0 }

/-! ## sys_calls.c: `switch_terminal` and the states reachable from boot -/

/-- How `switch_terminal(num)` ends: it returns at once, `num` being none of 1, 2, 3; or
the `execute("shell")` of a terminal that is not open yet enters the shell, or scans
`open_pid` past the table; or it gets to `jump_to_process`, for a terminal that is open
or after an `execute` that has returned. -/
inductive SwitchResult where
  | returned (s : State)
  | entered (s : State) (frame : iret_t)
  | off_table (s : State)
  | jumped (j : JumpResult)

/-- `switch_terminal(num)`; `fr` holds the registers and locals that its call of
`execute` finds. (`clear` touches the screen only.) -/
def switch_terminal (s : State) (num : Int) (fr : Frame) : SwitchResult :=
  if num < 1 ∨ num > 3 then SwitchResult.returned s
  else
    if (switch_terminal_begin s num).open_terminals num = 0 then
      match execute (switch_terminal_begin s num) str_shell fr with
      | ExecResult.entered s2 f => SwitchResult.entered s2 f
      | ExecResult.off_table s2 => SwitchResult.off_table s2
      | ExecResult.returned _ s2 =>
        SwitchResult.jumped
          (jump_to_process s2 (s2.pcbs (get_pcb (s2.active_process num))).pid)
    else
      SwitchResult.jumped
        (jump_to_process (switch_terminal_begin s num)
          ((switch_terminal_begin s num).pcbs
            (get_pcb ((switch_terminal_begin s num).active_process num))).pid)

/-- The state a `switch_terminal` leaves. -/
def SwitchResult.state : SwitchResult → State
  | SwitchResult.returned s => s
  | SwitchResult.entered s _ => s
  | SwitchResult.off_table s => s
  | SwitchResult.jumped j => j.state

/-- The machine has stopped: `jump_to_process` has found a bad code segment and spins in
`hlt` with the interrupts off. -/
def SwitchResult.stopped : SwitchResult → Bool
  | SwitchResult.jumped (JumpResult.bad_cs _) => true
  | _ => false

/-- The model follows the call: it has not left the table `open_pid`. -/
def SwitchResult.followed : SwitchResult → Bool
  | SwitchResult.off_table _ => false
  | _ => true

/-- At most one of `active_terminals[1..3]` is set. -/
def at_most_one_foreground (s : State) : Prop :=
  ∀ a b : Int, 1 ≤ a → a ≤ 3 → 1 ≤ b → b ≤ 3 →
    s.active_terminals a ≠ 0 → s.active_terminals b ≠ 0 → a = b

/-- Of `active_terminals[1..3]` exactly the entry `n` is set. -/
def only_foreground (s : State) (n : Int) : Prop :=
  ∀ t : Int, 1 ≤ t → t ≤ 3 → (s.active_terminals t ≠ 0 ↔ t = n)

/-- The states reachable from boot through `switch_terminal`, `execute` and `halt`; the
flag says that the machine has stopped in a loop with the interrupts off. `entry` calls
`switch_terminal(1)` on the initial globals; after that the keyboard handler calls
`switch_terminal`, the running program calls `execute` and `halt`, and a `halt` of the
root shell of a terminal goes on to `switch_terminal(next)` or stops the machine. A call
that leaves `current_pcb` null is not followed: the kernel goes on to read through the
pointer, and `entry` leaves the page at address 0 unmapped. Neither is an `execute`
whose scan leaves the table `open_pid`. -/
inductive Reachable : State → Bool → Prop where
  | boot (fs : Mem) (pcbs : Nat → pcb_t) (phys : Mem) (fr : Frame) :
    (switch_terminal (init_state fs pcbs phys) 1 fr).followed = true →
    (switch_terminal (init_state fs pcbs phys) 1 fr).state.current_pcb ≠ 0 →
    Reachable (switch_terminal (init_state fs pcbs phys) 1 fr).state
      (switch_terminal (init_state fs pcbs phys) 1 fr).stopped
  | switch (s : State) (n : Int) (fr : Frame) :
    Reachable s false →
    (switch_terminal s n fr).followed = true →
    (switch_terminal s n fr).state.current_pcb ≠ 0 →
    Reachable (switch_terminal s n fr).state (switch_terminal s n fr).stopped
  | exec (s : State) (command : List Nat) (fr : Frame) :
    Reachable s false →
    (∀ s', execute s command fr ≠ ExecResult.off_table s') →
    Reachable (execute s command fr).state false
  | halt_finish (s : State) (status : Nat) (r : Int) (esp ebp : Nat) (s' : State) :
    Reachable s false →
    halt s status = HaltResult.finishHalt r esp ebp s' →
    s'.current_pcb ≠ 0 →
    Reachable s' false
  | halt_spin (s : State) (status : Nat) (s1 : State) :
    Reachable s false →
    halt s status = HaltResult.root s1 none →
    Reachable s1 true
  | halt_switch (s : State) (status : Nat) (s1 : State) (n : Int) (fr : Frame) :
    Reachable s false →
    halt s status = HaltResult.root s1 (some n) →
    (switch_terminal s1 n fr).followed = true →
    (switch_terminal s1 n fr).state.current_pcb ≠ 0 →
    Reachable (switch_terminal s1 n fr).state (switch_terminal s1 n fr).stopped

/-- Boot on `demo_fs`, then Alt+F2: the shell of terminal 2 is running. -/
def demo_second : State :=
  (switch_terminal (switch_terminal (init_state demo_fs (fun _ => blank_pcb) (fun _ => 0)) 1
    demo_frame).state 2 demo_frame).state

/-! ## The processes of a machine that runs `execute` and `halt` -/

/-- The `halt` was that of the root shell of a terminal: it goes on to
`switch_terminal`, or stops the machine. -/
def HaltResult.is_root : HaltResult → Bool
  | HaltResult.finishHalt _ _ _ _ => false
  | HaltResult.root _ _ => true

/-- The states reachable from boot through `execute` and `halt`: `entry` gets to the
call `execute("shell")` of `switch_terminal(1)` in `boot_state`; after that `execute` is
called, and `halt` by a running program. The flag says that the root shell has halted,
after which no program is left to call them. (An `execute` whose scan leaves the table
`open_pid` counts with the state before the call.) -/
inductive ReachableExec : State → Bool → Prop where
  | boot (fs : Mem) (pcbs : Nat → pcb_t) (phys : Mem) :
    ReachableExec (boot_state fs pcbs phys) false
  | exec (s : State) (command : List Nat) (fr : Frame) :
    ReachableExec s false → ReachableExec (execute s command fr).state false
  | halt (s : State) (status : Nat) :
    ReachableExec s false → s.current_pcb ≠ 0 →
    ReachableExec (halt s status).state (halt s status).is_root

/-- The number of entries of `open_pid[0..5]` that are 1. -/
def live_processes (s : State) : Nat :=
  ((List.range 6).filter (fun (k : Nat) => decide (s.open_pid (k : Int) = 1))).length

/-- Each PCB of the list names the next one as its parent. -/
def parent_chain (s : State) : List Int → Prop
  | [] => True
  | [_] => True
  | p :: q :: rest => (s.pcbs (get_pcb p)).parent_pcb = get_pcb q ∧ parent_chain s (q :: rest)

/-- The pids `stack` are those of the live processes, the running one first and the
root shell of terminal 1 last, each the child of the next. -/
structure process_stack (s : State) (stack : List Int) : Prop where
  nodup : stack.Nodup
  live : ∀ p ∈ stack, 1 ≤ p ∧ p ≤ 6 ∧ (s.pcbs (get_pcb p)).pid = p ∧
    (s.pcbs (get_pcb p)).terminal_id = 1
  table : ∀ k : Int, 0 ≤ k → k ≤ 5 → (s.open_pid k = 1 ↔ k + 1 ∈ stack)
  num : s.num_process = 1 + (stack.length : Int)
  term : s.cur_terminal = 1
  root : s.open_terminals 1 = stack.getLast?.getD 0
  others : s.open_terminals 2 = 0 ∧ s.open_terminals 3 = 0
  chain : parent_chain s stack

/-! ## Auxiliary lemmas -/

/-- An `execute` that has an `iret` frame is one that entered the new program. -/
theorem entered_of_frame (r : ExecResult) (f : iret_t) (h : r.frame = some f) :
    r = ExecResult.entered r.state f := by
  cases r with
  | returned v s => simp [ExecResult.frame] at h
  | entered s g =>
    simp only [ExecResult.frame, Option.some.injEq] at h
    rw [h]
    rfl
  | off_table s => simp [ExecResult.frame] at h

/-- The scan of `open` either finds no slot among the `n` from `pos` on, all of which are then in use, or stops at the first one whose used flag is not 1. -/
theorem open_scan_cases (u : Int → Int) (n : Nat) (pos : Int) (hpos : 0 < pos) :
    (open_scan u n pos = 0 ∧ ∀ k, pos ≤ k → k < pos + n → u k = 1) ∨
    (pos ≤ open_scan u n pos ∧ open_scan u n pos < pos + n ∧ u (open_scan u n pos) ≠ 1 ∧
      ∀ k, pos ≤ k → k < open_scan u n pos → u k = 1) := by
  induction n generalizing pos with
  | zero =>
    left
    refine ⟨rfl, ?_⟩
    intro k h1 h2
    simp at h2
    omega
  | succ n ih =>
    unfold open_scan
    by_cases h : u pos = 1
    · rw [if_neg (not_not.mpr h)]
      rcases ih (pos + 1) (by omega) with ⟨h0, hall⟩ | ⟨h1, h2, h3, h4⟩
      · left
        refine ⟨h0, ?_⟩
        intro k hk1 hk2
        by_cases hkp : k = pos
        · rw [hkp]; exact h
        · apply hall k (by omega)
          push_cast at hk2
          omega
      · right
        refine ⟨by omega, by push_cast; omega, h3, ?_⟩
        intro k hk1 hk2
        by_cases hkp : k = pos
        · rw [hkp]; exact h
        · exact h4 k (by omega) hk2
    · right
      rw [if_pos h]
      refine ⟨le_refl _, by push_cast; omega, h, ?_⟩
      intro k hk1 hk2
      omega


/-- Projections of a store into a PCB. -/
@[simp]
theorem modify_pcb_pcbs (s : State) (p : Nat) (f : pcb_t → pcb_t) :
    (s.modify_pcb p f).pcbs = Function.update s.pcbs p (f (s.pcbs p)) := rfl
/-- A store into a PCB keeps `current_pcb`. -/
@[simp]
theorem modify_pcb_current_pcb (s : State) (p : Nat) (f : pcb_t → pcb_t) :
    (s.modify_pcb p f).current_pcb = s.current_pcb := rfl
/-- A store into a PCB keeps the global `file_array`. -/
@[simp]
theorem modify_pcb_file_array (s : State) (p : Nat) (f : pcb_t → pcb_t) :
    (s.modify_pcb p f).file_array = s.file_array := rfl
/-- A store into a PCB keeps the global `used_desc`. -/
@[simp]
theorem modify_pcb_used_desc (s : State) (p : Nat) (f : pcb_t → pcb_t) :
    (s.modify_pcb p f).used_desc = s.used_desc := rfl

/-- Writing the RTC rate touches neither PCB memory nor the PCB pointers. -/
theorem write_rtc_rate_keeps (s : State) (rate : Nat) :
    (write_rtc_rate s rate).pcbs = s.pcbs ∧ (write_rtc_rate s rate).current_pcb = s.current_pcb ∧
    (write_rtc_rate s rate).file_array = s.file_array ∧
    (write_rtc_rate s rate).used_desc = s.used_desc := ⟨rfl, rfl, rfl, rfl⟩

/-- Changing the RTC frequency touches neither PCB memory nor the PCB pointers. -/
theorem change_RTC_freq_keeps (s : State) (freq : Nat) :
    (change_RTC_freq s freq).pcbs = s.pcbs ∧ (change_RTC_freq s freq).current_pcb = s.current_pcb ∧
    (change_RTC_freq s freq).file_array = s.file_array ∧
    (change_RTC_freq s freq).used_desc = s.used_desc := by
  unfold change_RTC_freq
  by_cases h : freq ≤ s.running_freq ∧ freq ≠ 0
  · rw [if_pos h]
    exact ⟨rfl, rfl, rfl, rfl⟩
  · rw [if_neg h]
    cases rtc_rate freq with
    | some r => exact ⟨rfl, rfl, rfl, rfl⟩
    | none =>
      dsimp only
      split_ifs <;> exact ⟨rfl, rfl, rfl, rfl⟩

/-- Opening the RTC touches neither PCB memory nor the PCB pointers. -/
theorem rtc_open_keeps (s : State) :
    (rtc_open s).2.pcbs = s.pcbs ∧ (rtc_open s).2.current_pcb = s.current_pcb ∧
    (rtc_open s).2.file_array = s.file_array ∧ (rtc_open s).2.used_desc = s.used_desc := by
  unfold rtc_open
  split_ifs
  · exact ⟨rfl, rfl, rfl, rfl⟩
  · obtain ⟨h1, h2, h3, h4⟩ := change_RTC_freq_keeps
      { rtc_init s with rtc_reg_b := (rtc_init s).rtc_reg_b ||| 0x40 } 2
    exact ⟨h1, h2, h3, h4⟩

/-- Closing the RTC touches neither PCB memory nor the PCB pointers. -/
theorem rtc_close_keeps (s : State) (fd : Int) :
    (rtc_close s fd).2.pcbs = s.pcbs ∧ (rtc_close s fd).2.current_pcb = s.current_pcb ∧
    (rtc_close s fd).2.file_array = s.file_array ∧ (rtc_close s fd).2.used_desc = s.used_desc :=
  change_RTC_freq_keeps s 0

/-- Opening the directory touches neither PCB memory nor the PCB pointers. -/
theorem dir_open_keeps (s : State) :
    (dir_open s).2.pcbs = s.pcbs ∧ (dir_open s).2.current_pcb = s.current_pcb ∧
    (dir_open s).2.file_array = s.file_array ∧ (dir_open s).2.used_desc = s.used_desc :=
  ⟨rfl, rfl, rfl, rfl⟩



/-- The driver call of `open` touches neither PCB memory nor the PCB pointers. -/
theorem open_driver_keeps (s : State) (t : Nat) :
    (open_driver s t).pcbs = s.pcbs ∧ (open_driver s t).current_pcb = s.current_pcb ∧
    (open_driver s t).file_array = s.file_array ∧ (open_driver s t).used_desc = s.used_desc := by
  unfold open_driver
  split_ifs
  · exact rtc_open_keeps s
  · exact dir_open_keeps s
  · exact ⟨rfl, rfl, rfl, rfl⟩

/-- The current PCB after a store into `used_desc[fd]`. -/
theorem cur_set_used (s : State) (fd v : Int) (hud : s.used_desc = s.current_pcb) :
    (set_used s fd v).cur = { s.cur with used_desc := Function.update s.cur.used_desc fd v } := by
  simp [set_used, State.cur, State.modify_pcb, hud]

/-- The current PCB after a store into `file_array[fd]`. -/
theorem cur_set_file (s : State) (fd : Int) (f : file_t → file_t)
    (hfa : s.file_array = s.current_pcb) :
    (set_file s fd f).cur =
      { s.cur with file_array := Function.update s.cur.file_array fd (f (s.cur.file_array fd)) } := by
  simp [set_file, State.cur, State.modify_pcb, hfa]

/-- The driver call of `open` leaves the current PCB as it was. -/
theorem cur_open_driver (s : State) (t : Nat) : (open_driver s t).cur = s.cur := by
  obtain ⟨h1, h2, -, -⟩ := open_driver_keeps s t
  simp [State.cur, h1, h2]

/-- When the lookup fails or no slot is free, `open` returns -1 and the state it was given. -/
theorem sys_open_fail (s : State) (filename : Option Mem)
    (h : (read_dentry_by_name s.fs filename (some blank_dentry)).1 = -1 ∨
      open_scan (s.pcbs s.used_desc).used_desc 6 2 = 0) :
    sys_open s filename = (-1, s) := by
  unfold sys_open
  dsimp only
  by_cases hr : (read_dentry_by_name s.fs filename (some blank_dentry)).1 = -1
  · rw [if_pos hr]
  · rw [if_neg hr, if_pos (h.resolve_left hr)]

/-- When the lookup succeeds and a slot is free, `open` returns that slot after its three steps. -/
theorem sys_open_ok (s : State) (filename : Option Mem)
    (hr : (read_dentry_by_name s.fs filename (some blank_dentry)).1 ≠ -1)
    (hfd : open_scan (s.pcbs s.used_desc).used_desc 6 2 ≠ 0) :
    sys_open s filename =
      (open_scan (s.pcbs s.used_desc).used_desc 6 2,
        set_used
          (open_driver
            (set_file s (open_scan (s.pcbs s.used_desc).used_desc 6 2)
              (open_file ((read_dentry_by_name s.fs filename (some blank_dentry)).2.getD
                blank_dentry)))
            ((read_dentry_by_name s.fs filename (some blank_dentry)).2.getD
              blank_dentry).file_type)
          (open_scan (s.pcbs s.used_desc).used_desc 6 2) 1) := by
  unfold sys_open
  dsimp only
  rw [if_neg hr, if_neg hfd]

/-- The file table of the current process after an `open` that succeeds. -/
theorem sys_open_ok_cur (s : State) (filename : Option Mem)
    (hfa : s.file_array = s.current_pcb) (hud : s.used_desc = s.current_pcb)
    (hr : (read_dentry_by_name s.fs filename (some blank_dentry)).1 ≠ -1)
    (hfd : open_scan s.cur.used_desc 6 2 ≠ 0) :
    (sys_open s filename).1 = open_scan s.cur.used_desc 6 2 ∧
    (sys_open s filename).2.cur.used_desc =
      Function.update s.cur.used_desc (open_scan s.cur.used_desc 6 2) 1 ∧
    (sys_open s filename).2.cur.file_array =
      Function.update s.cur.file_array (open_scan s.cur.used_desc 6 2)
        (open_file ((read_dentry_by_name s.fs filename (some blank_dentry)).2.getD blank_dentry)
          (s.cur.file_array (open_scan s.cur.used_desc 6 2))) ∧
    (sys_open s filename).2.file_array = s.current_pcb ∧
    (sys_open s filename).2.used_desc = s.current_pcb := by
  have hcur : s.pcbs s.used_desc = s.cur := by rw [hud]; rfl
  have hfd2 : open_scan (s.pcbs s.used_desc).used_desc 6 2 ≠ 0 := by rwa [hcur]
  rw [sys_open_ok s filename hr hfd2, hcur]
  dsimp only
  generalize open_scan s.cur.used_desc 6 2 = fd
  generalize (read_dentry_by_name s.fs filename (some blank_dentry)).2.getD blank_dentry = e
  have hud2 : (open_driver (set_file s fd (open_file e)) e.file_type).used_desc =
      (open_driver (set_file s fd (open_file e)) e.file_type).current_pcb := by
    rw [(open_driver_keeps _ _).2.2.2, (open_driver_keeps _ _).2.1]
    exact hud
  rw [cur_set_used _ _ _ hud2, cur_open_driver, cur_set_file _ _ _ hfa]
  refine ⟨rfl, rfl, rfl, ?_, ?_⟩
  · show (open_driver (set_file s fd (open_file e)) e.file_type).file_array = _
    rw [(open_driver_keeps _ _).2.2.1]; exact hfa
  · show (open_driver (set_file s fd (open_file e)) e.file_type).used_desc = _
    rw [(open_driver_keeps _ _).2.2.2]; exact hud


/-- The physical window that the page-directory entry of a pid in 1..6 maps. -/
theorem user_base_of_entry (s : State) (pid : Int) (h1 : 1 ≤ pid) (h6 : pid ≤ 6)
    (h : s.page_dir32 = user_page_entry pid) :
    user_base s = 0x800000 + 0x400000 * (pid - 1).toNat := by
  unfold user_base
  rw [h]
  interval_cases pid <;> decide

/-- The low byte of a `uint8_t` status is the low byte of the value it was cut from. -/
theorem status_byte (status : Nat) :
    ((status % 256 &&& 0x000000FF : Nat) : Int) = ((status &&& 0xFF : Nat) : Int) := by
  have h := Nat.and_pow_two_sub_one_eq_mod (status % 256) 8
  have h2 := Nat.and_pow_two_sub_one_eq_mod status 8
  norm_num at h h2
  rw [h, h2]

/-- The state in which a `halt` that is not the one of a root shell jumps to `finishHalt`. -/
theorem halt_not_root_eq (s : State) (status : Nat)
    (hroot : s.cur.pid ≠ s.open_terminals s.cur.terminal_id) :
    halt s status = HaltResult.finishHalt ((status &&& 0xFF : Nat) : Int) s.cur.k_esp s.cur.k_ebp
      (update_pointers
        (update_cur_pcb
          (halt_tables { s with page_dir32 := user_page_entry s.cur.parent_pid
                                tss_esp0 := s.cur.parent_esp })
          (halt_tables { s with page_dir32 := user_page_entry s.cur.parent_pid
                                tss_esp0 := s.cur.parent_esp }).cur.parent_pcb)
        (halt_tables { s with page_dir32 := user_page_entry s.cur.parent_pid
                              tss_esp0 := s.cur.parent_esp }).cur.parent_pcb 1) := by
  unfold halt
  dsimp only
  rw [if_neg hroot, status_byte]
  rfl

/-- A store into a PCB that keeps a field keeps it in the current PCB. -/
theorem modify_pcb_cur_field {α : Type} (g : pcb_t → α) (s : State) (p : Nat)
    (f : pcb_t → pcb_t) (h : ∀ q, g (f q) = g q) : g (s.modify_pcb p f).cur = g s.cur := by
  unfold State.cur State.modify_pcb
  dsimp only
  by_cases hp : s.current_pcb = p
  · rw [hp, Function.update_same, h]
  · rw [Function.update_noteq hp]

/-- Saving the cursor in a PCB and in its parent keeps every other field of the current PCB. -/
theorem screen_sync_cur {α : Type} (g : pcb_t → α) (s : State) (cp : Nat)
    (h : ∀ q x y, g { q with screen_x := x, screen_y := y } = g q) :
    g (update_parent_video (update_screen_x_y s cp) cp).cur = g s.cur := by
  unfold update_parent_video
  dsimp only
  rw [modify_pcb_cur_field g _ _ _ (fun q => h q _ _)]
  unfold update_screen_x_y
  rw [modify_pcb_cur_field g _ _ _ (fun q => h q _ _)]

/-- The scheduler tables after lines 81-86 of `halt`. -/
theorem halt_tables_spec (s : State) :
    (halt_tables s).open_pid (s.cur.pid - 1) = 0 ∧
    (halt_tables s).num_process = s.num_process - 1 ∧
    (halt_tables s).active_process s.cur.terminal_id = s.cur.parent_pid ∧
    (halt_tables s).page_dir32 = s.page_dir32 ∧
    (halt_tables s).tss_esp0 = s.tss_esp0 ∧
    (halt_tables s).cur.parent_pcb = s.cur.parent_pcb := by
  obtain ⟨s2, hs2⟩ : ∃ s2, s2 = update_parent_video
      (update_screen_x_y { s with num_process := s.num_process - 1 } s.current_pcb)
      s.current_pcb := ⟨_, rfl⟩
  have hpid : s2.cur.pid = s.cur.pid := by
    rw [hs2]
    exact screen_sync_cur (fun q => q.pid) _ _ (fun _ _ _ => rfl)
  have htid : s2.cur.terminal_id = s.cur.terminal_id := by
    rw [hs2]
    exact screen_sync_cur (fun q => q.terminal_id) _ _ (fun _ _ _ => rfl)
  have hppid : s2.cur.parent_pid = s.cur.parent_pid := by
    rw [hs2]
    exact screen_sync_cur (fun q => q.parent_pid) _ _ (fun _ _ _ => rfl)
  have hppcb : s2.cur.parent_pcb = s.cur.parent_pcb := by
    rw [hs2]
    exact screen_sync_cur (fun q => q.parent_pcb) _ _ (fun _ _ _ => rfl)
  have e : halt_tables s =
      clear_pcb { s2 with
        active_process := Function.update s2.active_process s2.cur.terminal_id s2.cur.parent_pid
        open_pid := Function.update s2.open_pid (s2.cur.pid - 1) 0 } s2.cur.pid := by
    rw [hs2]
    rfl
  rw [e]
  refine ⟨?_, ?_, ?_, ?_, ?_, ?_⟩
  · show Function.update s2.open_pid (s2.cur.pid - 1) 0 (s.cur.pid - 1) = 0
    rw [hpid, Function.update_same]
  · show s2.num_process = _
    rw [hs2]
    rfl
  · show Function.update s2.active_process s2.cur.terminal_id s2.cur.parent_pid
      s.cur.terminal_id = _
    rw [htid, hppid, Function.update_same]
  · rw [hs2]
    rfl
  · rw [hs2]
    rfl
  · have h := modify_pcb_cur_field (fun q => q.parent_pcb)
      { s2 with
        active_process := Function.update s2.active_process s2.cur.terminal_id s2.cur.parent_pid
        open_pid := Function.update s2.open_pid (s2.cur.pid - 1) 0 }
      (get_pcb s2.cur.pid) (fun p => { p with pid := 0 }) (fun _ => rfl)
    exact h.trans hppcb

/-- What `halt` does when the caller is not the root shell of its terminal. -/
theorem halt_not_root_spec (s : State) (status : Nat)
    (hroot : s.cur.pid ≠ s.open_terminals s.cur.terminal_id) :
    (∃ s', halt s status =
        HaltResult.finishHalt ((status &&& 0xFF : Nat) : Int) s.cur.k_esp s.cur.k_ebp s' ∧
      s'.open_pid (s.cur.pid - 1) = 0 ∧
      s'.num_process = s.num_process - 1 ∧
      s'.active_process s.cur.terminal_id = s.cur.parent_pid ∧
      s'.page_dir32 = user_page_entry s.cur.parent_pid ∧
      (1 ≤ s.cur.parent_pid → s.cur.parent_pid ≤ 6 →
        user_base s' = 0x800000 + 0x400000 * (s.cur.parent_pid - 1).toNat) ∧
      s'.tss_esp0 = s.cur.parent_esp ∧
      s'.current_pcb = s.cur.parent_pcb) := by
  refine ⟨_, halt_not_root_eq s status hroot, ?_⟩
  obtain ⟨h1, h2, h3, h4, h5, h6⟩ := halt_tables_spec
    { s with page_dir32 := user_page_entry s.cur.parent_pid, tss_esp0 := s.cur.parent_esp }
  have hpd : ∀ t : State, ∀ a : Nat, (update_pointers (update_cur_pcb t a) a 1).page_dir32 = t.page_dir32 := by
    intro t a
    unfold update_pointers
    simp [update_cur_pcb]
  refine ⟨?_, ?_, ?_, ?_, ?_, ?_, ?_⟩
  · unfold update_pointers
    simp only [update_cur_pcb, if_true]
    exact h1
  · unfold update_pointers
    simp only [update_cur_pcb, if_true]
    exact h2
  · unfold update_pointers
    simp only [update_cur_pcb, if_true]
    exact h3
  · rw [hpd]; exact h4
  · intro hp1 hp6
    exact user_base_of_entry _ _ hp1 hp6 (by rw [hpd]; exact h4)
  · unfold update_pointers
    simp only [update_cur_pcb, if_true]
    exact h5
  · unfold update_pointers
    simp only [update_cur_pcb, if_true]
    exact h6

/-- The scan of `open_pid` stops at the first entry that is not 1. -/
theorem pid_scan_some (f : Int → Int) (n : Nat) (i k : Int) (h : pid_scan f n i = some k) :
    i ≤ k ∧ k < i + n ∧ f k ≠ 1 ∧ ∀ j, i ≤ j → j < k → f j = 1 := by
  induction n generalizing i with
  | zero => simp [pid_scan] at h
  | succ n ih =>
    unfold pid_scan at h
    by_cases h1 : f i = 1
    · rw [if_pos h1] at h
      obtain ⟨a, b, c, d⟩ := ih (i + 1) h
      refine ⟨by omega, by push_cast; omega, c, ?_⟩
      intro j hj1 hj2
      by_cases hji : j = i
      · rw [hji]; exact h1
      · exact d j (by omega) hj2
    · rw [if_neg h1] at h
      have hk : i = k := by simpa using h
      subst hk
      refine ⟨le_refl _, by push_cast; omega, h1, ?_⟩
      intro j hj1 hj2
      omega

/-- What `execute_start` leaves in the tables and in the new PCB. -/
theorem execute_start_fields (s : State) (pcb : Nat) (command : List Nat) (args : Mem)
    (fr : Frame) :
    (execute_start s pcb command args fr).current_pcb = pcb ∧
    (execute_start s pcb command args fr).file_array = pcb ∧
    (execute_start s pcb command args fr).used_desc = pcb ∧
    (execute_start s pcb command args fr).cur.pid = (s.pcbs pcb).pid ∧
    (execute_start s pcb command args fr).cur.terminal_id = s.cur_terminal ∧
    (execute_start s pcb command args fr).cur.parent_pid =
      (if s.current_pcb = 0 then 0
       else if s.current_pcb = pcb then (s.pcbs pcb).pid else (s.pcbs s.current_pcb).pid) ∧
    (execute_start s pcb command args fr).cur.parent_pcb = s.current_pcb ∧
    (execute_start s pcb command args fr).cur.parent_esp = s.tss_esp0 ∧
    (execute_start s pcb command args fr).cur.k_esp = fr.esp ∧
    (execute_start s pcb command args fr).cur.k_ebp = fr.ebp ∧
    (execute_start s pcb command args fr).cur.args = strcpy_bytes args (strlen command + 1) 0 ∧
    (execute_start s pcb command args fr).open_pid = s.open_pid ∧
    (execute_start s pcb command args fr).num_process = s.num_process + 1 ∧
    (execute_start s pcb command args fr).active_process =
      Function.update s.active_process s.cur_terminal (s.pcbs pcb).pid ∧
    (execute_start s pcb command args fr).open_terminals =
      (if s.open_terminals s.cur_terminal = 0 then
        Function.update s.open_terminals s.cur_terminal (s.pcbs pcb).pid
       else s.open_terminals) ∧
    (execute_start s pcb command args fr).tss_esp0 = u32 (pcb + 8192) ∧
    (execute_start s pcb command args fr).page_dir32 = s.page_dir32 ∧
    (execute_start s pcb command args fr).cur_terminal = s.cur_terminal := by
  refine ⟨?_, ?_, ?_, ?_, ?_, ?_, ?_, ?_, ?_, ?_, ?_, ?_, ?_, ?_, ?_, ?_, ?_, ?_⟩
  all_goals
    simp only [execute_start, execute_tss, update_pointers, execute_save, State.modify_pcb,
      change_to_virtual_rtc, update_cur_pcb, execute_parent, execute_tables,
      Function.update_same, execute_files, State.cur, Function.update_apply]
  · split_ifs <;> simp_all
  · split_ifs <;> simp_all

/-- What `load_image` returns, and the fields of the state it leaves alone. -/
theorem load_image_spec (s : State) (e : dentry_t) (pid : Int) :
    (load_image s e pid).pcb = get_pcb pid ∧
    (load_image s e pid).esp = 0x8400000 ∧
    (load_image s e pid).s.pcbs =
      Function.update s.pcbs (get_pcb pid) { (s.pcbs (get_pcb pid)) with pid := pid } ∧
    (load_image s e pid).s.current_pcb = s.current_pcb ∧
    (load_image s e pid).s.open_pid = s.open_pid ∧
    (load_image s e pid).s.num_process = s.num_process ∧
    (load_image s e pid).s.active_process = s.active_process ∧
    (load_image s e pid).s.open_terminals = s.open_terminals ∧
    (load_image s e pid).s.tss_esp0 = s.tss_esp0 ∧
    (load_image s e pid).s.page_dir32 = s.page_dir32 ∧
    (load_image s e pid).s.cur_terminal = s.cur_terminal := by
  refine ⟨?_, ?_, ?_, ?_, ?_, ?_, ?_, ?_, ?_, ?_, ?_⟩
  all_goals simp only [load_image, State.modify_pcb, get_pcb]
  decide

/-- A `load_program` that returns a PCB has loaded the image. -/
theorem load_program_ok (s : State) (name : Option Mem) (esp0 eip0 : Nat) (pid : Int) (buf : Mem)
    (h : (load_program s name esp0 eip0 pid buf).pcb ≠ 0) :
    load_program s name esp0 eip0 pid buf =
      load_image s (is_valid_cmd s.fs blank_dentry name buf).2 pid := by
  unfold load_program at h ⊢
  dsimp only at h ⊢
  by_cases hv : (is_valid_cmd s.fs blank_dentry name buf).1 = -1
  · rw [if_pos hv] at h
    exact absurd rfl h
  · rw [if_neg hv]

/-- An `execute` that enters the new program has found a free pid and started the PCB of that pid. -/
theorem execute_entered (s : State) (command : List Nat) (fr : Frame) (s' : State) (f : iret_t)
    (h : execute s command fr = ExecResult.entered s' f) :
    ∃ (k : Int) (e : dentry_t), pid_scan s.open_pid 6 0 = some k ∧
      s' = execute_start
        (load_image
          { s with
            open_pid := Function.update s.open_pid k 1
            page_dir32 := if s.current_pcb ≠ 0 then user_page_entry (k + 1) else s.page_dir32 }
          e (k + 1)).s
        (get_pcb (k + 1)) command (split_command command fr.args).2 fr := by
  unfold execute at h
  dsimp only at h
  by_cases h1 : s.num_process > 6
  · rw [if_pos h1] at h
    exact absurd h (by simp)
  · rw [if_neg h1] at h
    by_cases h2 : (is_valid_cmd s.fs blank_dentry (some (split_command command fr.args).1) fr.buf).1 = -1
    · rw [if_pos h2] at h
      exact absurd h (by simp)
    · rw [if_neg h2] at h
      cases hk : pid_scan s.open_pid 6 0 with
      | none => rw [hk] at h; exact absurd h (by simp)
      | some k =>
        rw [hk] at h
        dsimp only at h
        unfold execute_load at h
        dsimp only at h
        by_cases h3 : (load_program
            { s with
              open_pid := Function.update s.open_pid k 1
              page_dir32 := if s.current_pcb ≠ 0 then user_page_entry (k + 1) else s.page_dir32 }
            (some (split_command command fr.args).1) fr.esp_local fr.eip_local (k + 1)
            fr.buf_load).pcb = 0
        · rw [if_pos h3] at h
          exact absurd h (by simp)
        · rw [if_neg h3] at h
          have hl := load_program_ok _ _ _ _ _ _ h3
          rw [hl] at h
          injection h with h4 h5
          rw [(load_image_spec _ _ _).1] at h4
          exact ⟨k, _, rfl, h4.symm⟩

/-- The PCB address of a pid in 1..6, without wrap-around. -/
theorem get_pcb_val (c : Int) (h1 : 1 ≤ c) (h6 : c ≤ 6) :
    ((get_pcb c : Nat) : Int) = 0x800000 - c * 8192 := by
  interval_cases c <;> decide

/-- Two pids in 1..6 have different PCB addresses. -/
theorem get_pcb_inj (c d : Int) (hc1 : 1 ≤ c) (hc6 : c ≤ 6) (hd1 : 1 ≤ d) (hd6 : d ≤ 6)
    (h : get_pcb c = get_pcb d) : c = d := by
  have h1 := get_pcb_val c hc1 hc6
  have h2 := get_pcb_val d hd1 hd6
  rw [h] at h1
  omega

/-- The PCB address of a pid in 1..6 is not `NULL`. -/
theorem get_pcb_ne_zero (c : Int) (h1 : 1 ≤ c) (h6 : c ≤ 6) : get_pcb c ≠ 0 := by
  intro h
  have h1 := get_pcb_val c h1 h6
  rw [h] at h1
  omega

/-- The pid and the tables after an `execute` that enters the new program. -/
theorem execute_entered_spec (s : State) (command : List Nat) (fr : Frame)
    (s' : State) (f : iret_t)
    (hcur : s.current_pcb = 0 ∨
      (1 ≤ s.cur.pid ∧ s.cur.pid ≤ 6 ∧ s.current_pcb = get_pcb s.cur.pid ∧
        s.open_pid (s.cur.pid - 1) = 1))
    (h : execute s command fr = ExecResult.entered s' f) :
    ∃ p : Int, 1 ≤ p ∧ p ≤ 6 ∧ s.open_pid (p - 1) ≠ 1 ∧
      (∀ q : Int, 1 ≤ q → q < p → s.open_pid (q - 1) = 1) ∧
      s'.current_pcb = get_pcb p ∧ s'.cur.pid = p ∧
      s'.open_pid (p - 1) = 1 ∧ (∀ q : Int, q ≠ p - 1 → s'.open_pid q = s.open_pid q) ∧
      s'.cur.terminal_id = s.cur_terminal ∧
      s'.cur.parent_pid = (if s.current_pcb = 0 then 0 else s.cur.pid) ∧
      s'.cur_terminal = s.cur_terminal ∧
      s'.active_process s.cur_terminal = p ∧
      (∀ t : Int, t ≠ s.cur_terminal → s'.active_process t = s.active_process t) ∧
      s'.open_terminals s.cur_terminal =
        (if s.open_terminals s.cur_terminal = 0 then p else s.open_terminals s.cur_terminal) ∧
      (∀ t : Int, t ≠ s.cur_terminal → s'.open_terminals t = s.open_terminals t) := by
  obtain ⟨k, e, hk, hs'⟩ := execute_entered s command fr s' f h
  obtain ⟨k0, k6, kfree, kall⟩ := pid_scan_some _ _ _ _ hk
  obtain ⟨L, hL⟩ : ∃ L, L = load_image
      { s with
        open_pid := Function.update s.open_pid k 1
        page_dir32 := if s.current_pcb ≠ 0 then user_page_entry (k + 1) else s.page_dir32 }
      e (k + 1) := ⟨_, rfl⟩
  rw [← hL] at hs'
  obtain ⟨-, -, l3, l4, l5, l6, l7, l8, l9, l10, l11⟩ := load_image_spec
      { s with
        open_pid := Function.update s.open_pid k 1
        page_dir32 := if s.current_pcb ≠ 0 then user_page_entry (k + 1) else s.page_dir32 }
      e (k + 1)
  rw [← hL] at l3 l4 l5 l6 l7 l8 l9 l10 l11
  dsimp only at l3 l4 l5 l6 l7 l8 l9 l10 l11
  obtain ⟨f1, -, -, f4, f5, f6, -, -, -, -, -, f12, -, f14, f15, -, -, f18⟩ :=
    execute_start_fields L.s (get_pcb (k + 1)) command (split_command command fr.args).2 fr
  rw [← hs'] at f1 f4 f5 f6 f12 f14 f15 f18
  have hpid : (L.s.pcbs (get_pcb (k + 1))).pid = k + 1 := by
    rw [l3, Function.update_same]
  rw [hpid] at f4 f6 f14 f15
  rw [l11] at f5 f14 f15 f18
  rw [l4] at f6
  rw [l5] at f12
  rw [l7] at f14
  rw [l8] at f15
  have hk1 : k + 1 - 1 = k := by omega
  refine ⟨k + 1, by omega, by push_cast at k6; omega, by rw [hk1]; exact kfree, ?_, f1, f4, ?_, ?_,
    f5, ?_, f18, ?_, ?_, ?_, ?_⟩
  · intro q hq1 hq2
    exact kall (q - 1) (by omega) (by omega)
  · rw [f12, hk1, Function.update_same]
  · intro q hq
    rw [f12, Function.update_noteq (by rw [hk1] at hq; exact hq)]
  · rw [f6]
    rcases hcur with h0 | ⟨c1, c6, hc, hopen⟩
    · rw [if_pos h0, if_pos h0]
    · have hne : s.current_pcb ≠ 0 := by rw [hc]; exact get_pcb_ne_zero _ c1 c6
      have hne2 : s.current_pcb ≠ get_pcb (k + 1) := by
        intro hh
        rw [hc] at hh
        have := get_pcb_inj _ _ c1 c6 (by omega) (by push_cast at k6; omega) hh
        rw [this, hk1] at hopen
        exact kfree hopen
      rw [if_neg hne, if_neg hne, if_neg hne2, l3, Function.update_noteq hne2]
      rfl
  · rw [f14, Function.update_same]
  · intro t ht
    rw [f14, Function.update_noteq ht]
  · rw [f15]
    by_cases h0 : s.open_terminals s.cur_terminal = 0
    · rw [if_pos h0, if_pos h0, Function.update_same]
    · rw [if_neg h0, if_neg h0]
  · intro t ht
    rw [f15]
    by_cases h0 : s.open_terminals s.cur_terminal = 0
    · rw [if_pos h0, Function.update_noteq ht]
    · rw [if_neg h0]

/-- Once the arguments have started, the loop copies `com` into `args`. -/
theorem split_loop_copy (m : Nat) : ∀ (i : Nat) (com args : Mem) (a : Nat), a ≠ 0 → a ≤ i →
    split_loop m i com args a =
      (com, (fun k => if i - a ≤ k ∧ k < i - a + m then com (k + a) else args k), a) := by
  induction m with
  | zero =>
    intro i com args a _ _
    unfold split_loop
    congr 2
    funext k
    rw [if_neg (by omega)]
  | succ m ih =>
    intro i com args a ha hai
    unfold split_loop
    rw [if_neg (by intro h; exact ha h.2), if_pos ha, ih (i + 1) com _ a ha (by omega)]
    congr 2
    funext k
    unfold wr8
    by_cases hk : k = i - a
    · rw [if_neg (by omega), if_pos hk, if_pos (by omega)]
      congr 1
      omega
    · by_cases hk2 : i + 1 - a ≤ k ∧ k < i + 1 - a + m
      · rw [if_pos hk2, if_pos (by omega)]
      · rw [if_neg hk2, if_neg hk, if_neg (by omega)]

/-- The loop over a command `l` without terminator that lies at index `i` of `com`. -/
theorem split_loop_scan (l : List Nat) : ∀ (i : Nat) (com args : Mem),
    (∀ j, j < l.length → com (i + j) = l.getD j 0) → com (i + l.length) = 0 →
    split_loop (l.length + 1) i com args 0 =
      if (l.takeWhile (fun c => c ≠ 32)).length < l.length then
        (wr8 com (i + (l.takeWhile (fun c => c ≠ 32)).length) 0,
          (fun k => if k < l.length - (l.takeWhile (fun c => c ≠ 32)).length then
              wr8 com (i + (l.takeWhile (fun c => c ≠ 32)).length) 0
                (k + (i + (l.takeWhile (fun c => c ≠ 32)).length + 1))
            else args k),
          i + (l.takeWhile (fun c => c ≠ 32)).length + 1)
      else (com, args, 0) := by
  induction l with
  | nil =>
    intro i com args _ h0
    simp only [List.length_nil, List.takeWhile_nil, lt_self_iff_false, if_false]
    unfold split_loop
    rw [if_neg (by simp at h0; rw [h0]; simp)]
    rw [if_neg (by simp)]
    rfl
  | cons c t ih =>
    intro i com args hl h0
    have hc : com i = c := by
      have := hl 0 (by simp)
      simpa using this
    unfold split_loop
    by_cases h32 : c = 32
    · rw [if_pos ⟨by rw [hc, h32], rfl⟩]
      rw [split_loop_copy _ _ _ _ _ (by omega) (le_refl _)]
      have htw : (c :: t).takeWhile (fun c => c ≠ 32) = [] := by
        simp [List.takeWhile, h32]
      rw [htw]
      simp only [List.length_nil, List.length_cons, add_zero, Nat.sub_zero]
      rw [if_pos (by omega)]
      congr 2
      funext k
      simp only [Nat.sub_self, zero_le, true_and, zero_add]
    · rw [if_neg (by rw [hc]; intro h; exact h32 h.1), if_neg (by simp)]
      have htw : (c :: t).takeWhile (fun c => c ≠ 32) = c :: t.takeWhile (fun c => c ≠ 32) := by
        simp [List.takeWhile, h32]
      rw [htw]
      have := ih (i + 1) com args
        (by
          intro j hj
          have := hl (j + 1) (by simp; omega)
          simpa [Nat.add_assoc, Nat.add_comm 1 j] using this)
        (by
          have : i + 1 + t.length = i + (c :: t).length := by simp; omega
          rw [this]; exact h0)
      simp only [List.length_cons]
      rw [this]
      by_cases hlt : (t.takeWhile (fun c => c ≠ 32)).length < t.length
      · rw [if_pos hlt, if_pos (by omega)]
        have e1 : i + 1 + (t.takeWhile (fun c => c ≠ 32)).length =
            i + ((t.takeWhile (fun c => c ≠ 32)).length + 1) := by omega
        have e2 : t.length - (t.takeWhile (fun c => c ≠ 32)).length =
            t.length + 1 - ((t.takeWhile (fun c => c ≠ 32)).length + 1) := by omega
        rw [e1, e2]
      · rw [if_neg hlt, if_neg (by omega)]


/-- The C string that `strcpy` reads from memory that holds the list `L` and a terminator. -/
theorem strcpy_bytes_of (L : List Nat) : ∀ (m : Mem) (fuel i : Nat),
    (∀ k, k < L.length → m (i + k) = L.getD k 0) → (∀ c ∈ L, c ≠ 0) →
    m (i + L.length) = 0 → L.length < fuel → strcpy_bytes m fuel i = L ++ [0] := by
  induction L with
  | nil =>
    intro m fuel i _ _ h0 hf
    obtain ⟨n, rfl⟩ : ∃ n, fuel = n + 1 := ⟨fuel - 1, by simp at hf; omega⟩
    unfold strcpy_bytes
    rw [if_pos (by simpa using h0)]
    rfl
  | cons c t ih =>
    intro m fuel i hl hnz h0 hf
    obtain ⟨n, rfl⟩ : ∃ n, fuel = n + 1 := ⟨fuel - 1, by simp at hf; omega⟩
    have hc : m i = c := by simpa using hl 0 (by simp)
    unfold strcpy_bytes
    rw [if_neg (by rw [hc]; exact hnz c (by simp)), hc]
    rw [ih m n (i + 1)
      (by
        intro k hk
        have := hl (k + 1) (by simp; omega)
        simpa [Nat.add_assoc, Nat.add_comm 1 k] using this)
      (fun x hx => hnz x (by simp [hx]))
      (by
        have : i + 1 + t.length = i + (c :: t).length := by simp; omega
        rw [this]; exact h0)
      (by simp at hf; omega)]
    rfl

/-- Reading a C string inside the list. -/
theorem cstr_lt (l : List Nat) (j : Nat) : cstr l j = l.getD j 0 := rfl

/-- Reading a C string past the list yields the terminator. -/
theorem cstr_ge (l : List Nat) (j : Nat) (h : l.length ≤ j) : cstr l j = 0 := by
  unfold cstr
  simp [List.getD, List.getElem?_eq_none h]

/-- Inside the prefix that `takeWhile` keeps, entries are those of the list. -/
theorem takeWhile_getD (P : Nat → Bool) (l : List Nat) (j : Nat)
    (h : j < (l.takeWhile P).length) : (l.takeWhile P).getD j 0 = l.getD j 0 := by
  induction l generalizing j with
  | nil => simp at h
  | cons c t ih =>
    by_cases hc : P c = true
    · rw [List.takeWhile_cons_of_pos hc] at h ⊢
      cases j with
      | zero => rfl
      | succ j =>
        simp only [List.getD_cons_succ]
        exact ih j (by simpa using h)
    · rw [List.takeWhile_cons_of_neg hc] at h
      simp at h

/-- The prefix that `takeWhile` keeps is no longer than the list. -/
theorem takeWhile_length_le (P : Nat → Bool) (l : List Nat) : (l.takeWhile P).length ≤ l.length := by
  induction l with
  | nil => simp
  | cons c t ih =>
    by_cases hc : P c = true
    · rw [List.takeWhile_cons_of_pos hc]; simp; exact ih
    · rw [List.takeWhile_cons_of_neg hc]; simp

/-- Entry `k` of a list without its first `n` entries. -/
theorem drop_getD (l : List Nat) (n k : Nat) : (l.drop n).getD k 0 = l.getD (n + k) 0 := by
  simp [List.getD, List.getElem?_drop]

/-- The two halves of a command, read as C strings. -/
theorem split_command_spec (command : List Nat) (args0 : Mem) :
    strcpy_bytes (split_command command args0).1 (strlen command + 1) 0 =
      (command.takeWhile (fun c => c ≠ 0)).takeWhile (fun c => c ≠ 32) ++ [0] ∧
    strcpy_bytes (split_command command args0).2 (strlen command + 1) 0 =
      (command.takeWhile (fun c => c ≠ 0)).drop
        (((command.takeWhile (fun c => c ≠ 0)).takeWhile (fun c => c ≠ 32)).length + 1) ++ [0] := by
  obtain ⟨cmd, hcmd⟩ : ∃ cmd, cmd = command.takeWhile (fun c => c ≠ 0) := ⟨_, rfl⟩
  have hnz : ∀ c ∈ cmd, c ≠ 0 := by
    intro c hc
    rw [hcmd] at hc
    have := List.mem_takeWhile_imp hc
    simpa using this
  have hlen : strlen command = cmd.length := by rw [hcmd]; rfl
  have hsub : ∀ c ∈ cmd.takeWhile (fun c => c ≠ 32), c ≠ 0 :=
    fun c hc => hnz c (List.takeWhile_subset _ hc)
  have hple := takeWhile_length_le (fun c => c ≠ 32) cmd
  have hscan := split_loop_scan cmd 0 (cstr cmd) args0
    (fun j _ => by rw [Nat.zero_add]; rfl) (by rw [Nat.zero_add]; exact cstr_ge _ _ (le_refl _))
  unfold split_command
  dsimp only
  rw [hlen, ← hcmd, hscan]
  simp only [Nat.zero_add]
  by_cases hp : (cmd.takeWhile (fun c => c ≠ 32)).length < cmd.length
  · rw [if_pos hp]
    dsimp only
    rw [if_neg (by omega)]
    dsimp only
    constructor
    · apply strcpy_bytes_of _ _ _ _ _ hsub
      · rw [Nat.zero_add]
        unfold wr8
        rw [if_pos rfl]
      · omega
      · intro k hk
        rw [Nat.zero_add]
        unfold wr8
        rw [if_neg (by omega), takeWhile_getD _ _ _ hk]
        rfl
    · apply strcpy_bytes_of
      · intro k hk
        rw [List.length_drop] at hk
        rw [Nat.zero_add, if_pos (by omega)]
        unfold wr8
        rw [if_neg (by omega), drop_getD]
        rw [cstr_lt]
        congr 1
        omega
      · intro c hc
        exact hnz c (List.mem_of_mem_drop hc)
      · rw [List.length_drop, Nat.zero_add, if_pos (by omega)]
        unfold wr8
        rw [if_neg (by omega)]
        exact cstr_ge _ _ (by omega)
      · rw [List.length_drop]
        omega
  · rw [if_neg hp]
    dsimp only
    rw [if_pos rfl]
    dsimp only
    have hpe : (cmd.takeWhile (fun c => c ≠ 32)).length = cmd.length := by omega
    constructor
    · apply strcpy_bytes_of _ _ _ _ _ hsub
      · rw [Nat.zero_add, hpe]
        exact cstr_ge _ _ (le_refl _)
      · omega
      · intro k hk
        rw [Nat.zero_add, takeWhile_getD _ _ _ hk]
        rfl
    · rw [List.drop_eq_nil_of_le (by omega)]
      unfold strcpy_bytes wr8
      rw [if_pos (by simp)]
      rfl

/-- A name without directory entry: `is_valid_cmd` returns -1, and `execute`, when fewer
than six processes are live, returns -1 and leaves the state as it was. -/
theorem execute_unknown_name (s : State) (command : List Nat) (fr : Frame)
    (hn : s.num_process ≤ 6)
    (h : (read_dentry_by_name s.fs (some (split_command command fr.args).1)
      (some blank_dentry)).1 = -1) :
    (is_valid_cmd s.fs blank_dentry (some (split_command command fr.args).1) fr.buf).1 = -1 ∧
    execute s command fr = ExecResult.returned (-1) s := by
  have hv : (is_valid_cmd s.fs blank_dentry (some (split_command command fr.args).1)
      fr.buf).1 = -1 := by
    unfold is_valid_cmd
    generalize read_dentry_by_name s.fs (some (split_command command fr.args).1)
      (some blank_dentry) = r at h
    obtain ⟨r1, r2⟩ := r
    dsimp only at h ⊢
    rw [if_pos h]
  refine ⟨hv, ?_⟩
  unfold execute
  rw [if_neg (by omega)]
  dsimp only
  rw [if_pos hv]

/-- Once `length` bytes have been read, the inner loop of `read_data` copies nothing. -/
theorem read_data_copy_done (fs : Mem) (cdp i offset length num_bytes fuel j num_read : Nat)
    (buf : Mem) (h : length ≤ num_read) :
    read_data_copy fs cdp i offset length num_bytes fuel j num_read buf =
      ⟨false, j, num_read, buf⟩ := by
  cases fuel with
  | zero => rfl
  | succ n =>
    unfold read_data_copy
    rw [if_neg (by omega)]

/-- Once `length` bytes have been read, the rest of `read_data` leaves the buffer alone. -/
theorem read_data_loop_done (fs : Mem) (ia da ndb offset length num_bytes : Nat) (fuel : Nat) :
    ∀ (i d num_read : Nat) (buf : Mem), length ≤ num_read →
      (read_data_loop fs ia da ndb offset length num_bytes fuel i d num_read buf).2 = buf := by
  induction fuel with
  | zero => intro i d num_read buf _; rfl
  | succ n ih =>
    intro i d num_read buf h
    unfold read_data_loop
    dsimp only
    by_cases h1 : rd32 fs d > ndb
    · rw [if_pos h1]
    · rw [if_neg h1]
      by_cases h2 : offset / 4096 > i
      · rw [if_pos h2]
        exact ih _ _ _ _ h
      · rw [if_neg h2, read_data_copy_done _ _ _ _ _ _ _ _ _ _ h]
        dsimp only
        rw [if_neg (by simp)]
        exact ih _ _ _ _ h

/-- The four bytes that `read_data(inode, 0, buf, 4)` leaves in `buf` for a file of at least
four bytes whose first block pointer is accepted: the first four bytes of the file. -/
theorem read_data_first_four (fs : Mem) (inode : Nat) (buf : Mem) (hi : inode ≤ 63)
    (hs : 4 ≤ file_size fs inode) (hb : block_pointer fs inode 0 ≤ rd32 fs 8) :
    rd32 (read_data fs inode 0 buf 4).2 0 =
      rd32 fs ((rd32 fs 4 + 1) * 4096 + block_pointer fs inode 0 * 4096) := by
  have hb' : ¬ rd32 fs ((inode + 1) * 4096 + 4) > rd32 fs 8 := by
    simpa [block_pointer] using hb
  have hp : block_pointer fs inode 0 = rd32 fs ((inode + 1) * 4096 + 4) := by
    simp [block_pointer]
  rw [hp]
  unfold file_size at hs
  unfold read_data
  rw [if_neg (by omega)]
  dsimp only
  unfold read_data_loop
  dsimp only
  rw [if_neg hb', if_neg (by simp)]
  generalize (rd32 fs 4 + 1) * 4096 + rd32 fs ((inode + 1) * 4096 + 4) * 4096 = cdp
  generalize rd32 fs ((inode + 1) * 4096) = S at hs ⊢
  have e4 : read_data_copy fs cdp 0 0 4 S 4096 0 0 buf =
      ⟨decide (S = 4), 4, 4,
        wr8 (wr8 (wr8 (wr8 buf 0 (rd8 fs cdp)) 1 (rd8 fs (cdp + 1))) 2 (rd8 fs (cdp + 2))) 3
          (rd8 fs (cdp + 3))⟩ := by
    rw [show (4096 : Nat) = 4091 + 1 + 1 + 1 + 1 + 1 from rfl]
    unfold read_data_copy
    rw [if_pos (by omega)]
    dsimp only
    rw [if_neg (by unfold u32; omega)]
    unfold read_data_copy
    rw [if_pos (by omega)]
    dsimp only
    rw [if_neg (by unfold u32; omega)]
    unfold read_data_copy
    rw [if_pos (by omega)]
    dsimp only
    rw [if_neg (by unfold u32; omega)]
    unfold read_data_copy
    rw [if_pos (by omega)]
    dsimp only
    by_cases h4 : S = 4
    · rw [if_pos (by unfold u32; omega)]
      simp [h4, u32]
    · rw [if_neg (by unfold u32; omega)]
      unfold read_data_copy
      rw [if_neg (by omega)]
      simp [h4, u32]
  simp only [Nat.zero_div, Nat.zero_mod, if_true] at *
  rw [e4]
  dsimp only
  have hw : rd32 (wr8 (wr8 (wr8 (wr8 buf 0 (rd8 fs cdp)) 1 (rd8 fs (cdp + 1))) 2
      (rd8 fs (cdp + 2))) 3 (rd8 fs (cdp + 3))) 0 = rd32 fs cdp := by
    simp [rd32, rd8, wr8]
  by_cases h4 : S = 4
  · rw [if_pos (by simp [h4])]
    exact hw
  · rw [if_neg (by simp [h4]), read_data_loop_done _ _ _ _ _ _ _ _ _ _ _ _ (le_refl _)]
    exact hw

/-- For a name whose directory entry names a file of at least four bytes with an accepted
first block pointer, `is_valid_cmd` returns 1 when the first four bytes of the file are
`0x7F 'E' 'L' 'F'` and -1 otherwise, whatever its local buffer held. -/
theorem is_valid_cmd_four_bytes (fs : Mem) (name : Option Mem) (buf : Mem) (e : dentry_t)
    (hfound : read_dentry_by_name fs name (some blank_dentry) = (0, some e))
    (hi : e.inode_num ≤ 63) (hs : 4 ≤ file_size fs e.inode_num)
    (hb : block_pointer fs e.inode_num 0 ≤ rd32 fs 8) :
    (is_valid_cmd fs blank_dentry name buf).1 =
      if (List.range 4).map (file_byte fs e.inode_num) = [0x7F, 0x45, 0x4C, 0x46] then 1
      else -1 := by
  have h4 := read_data_first_four fs e.inode_num buf hi hs hb
  have hbytes : (List.range 4).map (file_byte fs e.inode_num) = [0x7F, 0x45, 0x4C, 0x46] ↔
      rd32 fs ((rd32 fs 4 + 1) * 4096 + block_pointer fs e.inode_num 0 * 4096) = 0x464C457F := by
    simp only [List.range, List.range.loop, List.map, file_byte, rd32, rd8, Nat.zero_div,
      Nat.zero_mod, Nat.add_zero, List.cons.injEq, and_true]
    norm_num
    omega
  unfold is_valid_cmd
  rw [hfound]
  dsimp only
  rw [if_neg (by norm_num)]
  simp only [Option.getD_some]
  rw [h4]
  by_cases hm : rd32 fs ((rd32 fs 4 + 1) * 4096 + block_pointer fs e.inode_num 0 * 4096) =
      0x464C457F
  · rw [if_neg (by simpa using hm), if_pos (hbytes.mpr hm)]
  · rw [if_pos (by simpa using hm), if_neg (fun h => hm (hbytes.mp h))]

/-- When the program name names a file of at least four bytes (with an accepted first
block pointer) whose first four bytes are not `0x7F 'E' 'L' 'F'`, and fewer than six
processes are live, `execute` returns -1 and leaves the state as it was. -/
theorem execute_not_elf (s : State) (command : List Nat) (fr : Frame) (e : dentry_t)
    (hn : s.num_process ≤ 6)
    (hfound : read_dentry_by_name s.fs (some (split_command command fr.args).1)
      (some blank_dentry) = (0, some e))
    (hi : e.inode_num ≤ 63) (hs : 4 ≤ file_size s.fs e.inode_num)
    (hb : block_pointer s.fs e.inode_num 0 ≤ rd32 s.fs 8)
    (hne : (List.range 4).map (file_byte s.fs e.inode_num) ≠ [0x7F, 0x45, 0x4C, 0x46]) :
    execute s command fr = ExecResult.returned (-1) s := by
  have hv := is_valid_cmd_four_bytes s.fs _ fr.buf e hfound hi hs hb
  rw [if_neg hne] at hv
  unfold execute
  rw [if_neg (by omega)]
  dsimp only
  rw [if_pos hv]

/-- The standard descriptors of the PCB that `execute_start` has set up. -/
theorem execute_start_stdio (s : State) (pcb : Nat) (command : List Nat) (args : Mem)
    (fr : Frame) : stdio_bound (execute_start s pcb command args fr) := by
  refine ⟨?_, ?_, ?_, ?_, ?_, ?_⟩
  all_goals
    simp only [execute_start, execute_tss, update_pointers, execute_save, State.modify_pcb,
      change_to_virtual_rtc, update_cur_pcb, execute_parent, execute_tables,
      Function.update_same, execute_files, State.cur, Function.update_apply]
  all_goals simp

/-- The value `open` returns is -1 or a descriptor from 2 to 7. -/
theorem sys_open_retval (s : State) (filename : Option Mem) :
    (sys_open s filename).1 = -1 ∨ (2 ≤ (sys_open s filename).1 ∧ (sys_open s filename).1 ≤ 7) := by
  by_cases hr : (read_dentry_by_name s.fs filename (some blank_dentry)).1 = -1
  · left
    rw [sys_open_fail s filename (Or.inl hr)]
  · by_cases hfd : open_scan (s.pcbs s.used_desc).used_desc 6 2 = 0
    · left
      rw [sys_open_fail s filename (Or.inr hfd)]
    · right
      rw [sys_open_ok s filename hr hfd]
      rcases open_scan_cases (s.pcbs s.used_desc).used_desc 6 2 (by norm_num) with ⟨h0, -⟩ | ⟨h1, h2, -, -⟩
      · exact absurd h0 hfd
      · exact ⟨h1, by push_cast at h2; omega⟩

/-- An `open` keeps the standard descriptors of the running process. -/
theorem sys_open_stdio (s : State) (filename : Option Mem) (h : stdio_bound s) :
    stdio_bound (sys_open s filename).2 ∧ (sys_open s filename).2.current_pcb = s.current_pcb := by
  obtain ⟨hfa, hud, h0, h1, u0, u1⟩ := h
  have hcur : s.pcbs s.used_desc = s.cur := by rw [hud]; rfl
  by_cases hr : (read_dentry_by_name s.fs filename (some blank_dentry)).1 = -1
  · rw [sys_open_fail s filename (Or.inl hr)]
    exact ⟨⟨hfa, hud, h0, h1, u0, u1⟩, rfl⟩
  · by_cases hfd : open_scan (s.pcbs s.used_desc).used_desc 6 2 = 0
    · rw [sys_open_fail s filename (Or.inr hfd)]
      exact ⟨⟨hfa, hud, h0, h1, u0, u1⟩, rfl⟩
    · rw [hcur] at hfd
      obtain ⟨-, e2, e3, e4, e5⟩ := sys_open_ok_cur s filename hfa hud hr hfd
      have hrange : 2 ≤ open_scan s.cur.used_desc 6 2 := by
        rcases open_scan_cases s.cur.used_desc 6 2 (by norm_num) with ⟨h0, -⟩ | ⟨h1, -, -, -⟩
        · exact absurd h0 hfd
        · exact h1
      have hcp : (sys_open s filename).2.current_pcb = s.current_pcb := by
        have hfd2 : open_scan (s.pcbs s.used_desc).used_desc 6 2 ≠ 0 := by rwa [hcur]
        rw [sys_open_ok s filename hr hfd2]
        show (open_driver _ _).current_pcb = _
        rw [(open_driver_keeps _ _).2.1]
        rfl
      refine ⟨⟨by rw [e4, hcp], by rw [e5, hcp], ?_, ?_, ?_, ?_⟩, hcp⟩
      · rw [e3, Function.update_noteq (by omega)]
        exact h0
      · rw [e3, Function.update_noteq (by omega)]
        exact h1
      · rw [e2, Function.update_noteq (by omega)]
        exact u0
      · rw [e2, Function.update_noteq (by omega)]
        exact u1

/-- A `close` of a descriptor outside 2..7 returns -1 and the state it was given. -/
theorem close_bad_fd (s : State) (fd : Int) (h : fd ≤ 1 ∨ fd > 7) : close s fd = (-1, s) := by
  unfold close
  rw [if_pos h]

/-- A `close` keeps the standard descriptors of the running process. -/
theorem close_stdio (s : State) (fd : Int) (h : stdio_bound s) :
    stdio_bound (close s fd).2 ∧ (close s fd).2.current_pcb = s.current_pcb := by
  by_cases hb : fd ≤ 1 ∨ fd > 7
  · rw [close_bad_fd s fd hb]
    exact ⟨h, rfl⟩
  · obtain ⟨hfa, hud, h0, h1, u0, u1⟩ := h
    obtain ⟨s1, hs1⟩ : ∃ s1, s1 = (if ((s.pcbs s.file_array).file_array fd).f_dentry.file_type = 0
        then (rtc_close s fd).2 else s) := ⟨_, rfl⟩
    have hk : s1.pcbs = s.pcbs ∧ s1.current_pcb = s.current_pcb ∧
        s1.file_array = s.file_array ∧ s1.used_desc = s.used_desc := by
      rw [hs1]
      split_ifs
      · exact rtc_close_keeps s fd
      · exact ⟨rfl, rfl, rfl, rfl⟩
    have e : close s fd = (0, set_used s1 fd 0) := by
      unfold close
      rw [if_neg hb, hs1]
    obtain ⟨k1, k2, k3, k4⟩ := hk
    have hud1 : s1.used_desc = s1.current_pcb := by rw [k4, k2]; exact hud
    have hc1 : s1.cur = s.cur := by
      unfold State.cur
      rw [k1, k2]
    have hc := cur_set_used s1 fd 0 hud1
    rw [hc1] at hc
    rw [e]
    dsimp only
    refine ⟨⟨?_, ?_, ?_, ?_, ?_, ?_⟩, ?_⟩
    · show s1.file_array = s1.current_pcb
      rw [k3, k2]; exact hfa
    · show s1.used_desc = s1.current_pcb
      exact hud1
    · rw [hc]; exact h0
    · rw [hc]; exact h1
    · rw [hc]
      show Function.update s.cur.used_desc fd 0 0 = 1
      rw [Function.update_noteq (by omega)]
      exact u0
    · rw [hc]
      show Function.update s.cur.used_desc fd 0 1 = 1
      rw [Function.update_noteq (by omega)]
      exact u1
    · show s1.current_pcb = _
      exact k2

/-- A sequence of `open` and `close` calls keeps the standard descriptors of the running
process. -/
theorem fd_calls_stdio (calls : List FdCall) : ∀ s : State, stdio_bound s →
    stdio_bound (fd_calls s calls) ∧ (fd_calls s calls).current_pcb = s.current_pcb := by
  induction calls with
  | nil =>
    intro s h
    exact ⟨h, rfl⟩
  | cons c cs ih =>
    intro s h
    have hstep : stdio_bound (fd_call s c) ∧ (fd_call s c).current_pcb = s.current_pcb := by
      cases c with
      | open_call filename => exact sys_open_stdio s filename h
      | close_call fd => exact close_stdio s fd h
    obtain ⟨a, b⟩ := ih (fd_call s c) hstep.1
    exact ⟨a, b.trans hstep.2⟩

/-- The word at the start of `word_buf v`. -/
theorem rd32_word_buf (v : Nat) (h : v < 4294967296) : rd32 (word_buf v) 0 = v := by
  simp only [rd32, word_buf, wr32, wr8, rd8]
  norm_num
  omega

/-- `rtc_write` returns -1 and changes nothing for a null buffer, for a frequency above
1024 or below 1, and for an odd frequency other than 1. -/
theorem rtc_write_rejects (s : State) (buf : Option Mem) (n : Int)
    (h : ∀ b, buf = some b → rd32 b 0 > 1024 ∨ rd32 b 0 < 1 ∨ (rd32 b 0 ≠ 1 ∧ rd32 b 0 % 2 ≠ 0)) :
    rtc_write s buf n = (-1, s) := by
  cases buf with
  | none => rfl
  | some b =>
    unfold rtc_write
    dsimp only
    rcases h b rfl with h1 | h1 | h1
    · rw [if_pos (Or.inl h1)]
    · rw [if_pos (Or.inr h1)]
    · by_cases h2 : rd32 b 0 > 1024 ∨ rd32 b 0 < 1
      · rw [if_pos h2]
      · rw [if_neg h2, if_pos h1]

/-- `rtc_write` of 1 or of an even frequency up to 1024 returns 4 after
`change_RTC_freq` and the store of the frequency in the caller's virtual RTC. -/
theorem rtc_write_accepts (s : State) (b : Mem) (n : Int)
    (h1 : 1 ≤ rd32 b 0) (h2 : rd32 b 0 ≤ 1024) (h3 : rd32 b 0 = 1 ∨ rd32 b 0 % 2 = 0) :
    rtc_write s (some b) n =
      (4, { change_RTC_freq s (rd32 b 0) with
        virtual_rtc := Function.update (change_RTC_freq s (rd32 b 0)).virtual_rtc
          (change_RTC_freq s (rd32 b 0)).current_rtc
          { ((change_RTC_freq s (rd32 b 0)).virtual_rtc
              (change_RTC_freq s (rd32 b 0)).current_rtc) with freq := rd32 b 0 } }) := by
  unfold rtc_write
  dsimp only
  rw [if_neg (by omega), if_neg (by omega)]

/-- `change_RTC_freq` keeps `current_rtc` and the virtual RTCs. -/
theorem change_RTC_freq_rtc (s : State) (freq : Nat) :
    (change_RTC_freq s freq).current_rtc = s.current_rtc ∧
    (change_RTC_freq s freq).virtual_rtc = s.virtual_rtc := by
  unfold change_RTC_freq
  by_cases h : freq ≤ s.running_freq ∧ freq ≠ 0
  · rw [if_pos h]
    exact ⟨rfl, rfl⟩
  · rw [if_neg h]
    cases rtc_rate freq with
    | some r => exact ⟨rfl, rfl⟩
    | none =>
      dsimp only
      split_ifs <;> exact ⟨rfl, rfl⟩

/-- `rtc_write` of a power of two from 1 to 1024 returns 4 and leaves that frequency in
the caller's virtual RTC. -/
theorem rtc_write_pow2 (s : State) (b : Mem) (n : Int) (h : rd32 b 0 ∈ pow2_freqs) :
    (rtc_write s (some b) n).1 = 4 ∧
    ((rtc_write s (some b) n).2.virtual_rtc s.current_rtc).freq = rd32 b 0 ∧
    (rtc_write s (some b) n).2.current_rtc = s.current_rtc := by
  have hb : 1 ≤ rd32 b 0 ∧ rd32 b 0 ≤ 1024 ∧ (rd32 b 0 = 1 ∨ rd32 b 0 % 2 = 0) := by
    simp only [pow2_freqs, List.mem_cons, List.mem_singleton, List.not_mem_nil, or_false] at h
    omega
  rw [rtc_write_accepts s b n hb.1 hb.2.1 hb.2.2]
  dsimp only
  rw [(change_RTC_freq_rtc s _).1, Function.update_same]
  exact ⟨rfl, rfl, rfl⟩

/-- The test of `rtc_open` and `change_RTC_freq` for an open virtual RTC. -/
theorem any_active_iff (a : Int → Int) :
    (List.range 6).any (fun i => decide (a (i : Int) = 1)) = true ↔
      ∃ i : Int, 0 ≤ i ∧ i < 6 ∧ a i = 1 := by
  simp only [List.any_eq_true, List.mem_range, decide_eq_true_eq]
  constructor
  · rintro ⟨i, hi, h⟩
    exact ⟨i, by omega, by omega, h⟩
  · rintro ⟨i, h0, h6, h⟩
    refine ⟨i.toNat, by omega, ?_⟩
    rw [Int.toNat_of_nonneg h0]
    exact h

/-- The frequencies that have a rate are those of the table. -/
theorem rtc_rate_some_iff (f : Nat) : (∃ r, rtc_rate f = some r) ↔ f ∈ rate_freqs := by
  unfold rtc_rate rate_freqs
  simp only [List.mem_cons, List.mem_singleton, List.not_mem_nil, or_false]
  constructor
  · rintro ⟨r, h⟩
    split_ifs at h <;> simp_all
  · intro h
    rcases h with h | h | h | h | h | h | h | h | h | h <;> subst h <;> exact ⟨_, rfl⟩

/-- A frequency outside the table has no rate. -/
theorem rtc_rate_none (f : Nat) (h : f ∉ rate_freqs) : rtc_rate f = none := by
  cases hr : rtc_rate f with
  | none => rfl
  | some r => exact absurd ((rtc_rate_some_iff f).mp ⟨r, hr⟩) h

/-- `change_RTC_freq` for a frequency of the table above the running one. -/
theorem change_RTC_freq_up (s : State) (f : Nat) (hf : f ∈ rate_freqs) (h : s.running_freq < f) :
    (change_RTC_freq s f).running_freq = f ∧ (change_RTC_freq s f).active_rtc = s.active_rtc := by
  obtain ⟨r, hr⟩ := (rtc_rate_some_iff f).mpr hf
  unfold change_RTC_freq
  rw [if_neg (by omega), hr]
  exact ⟨rfl, rfl⟩

/-- `change_RTC_freq` for a frequency that is not above the running one, and not 0. -/
theorem change_RTC_freq_keep (s : State) (f : Nat) (h : f ≤ s.running_freq) (h0 : f ≠ 0) :
    change_RTC_freq s f = s := by
  unfold change_RTC_freq
  rw [if_pos ⟨h, h0⟩]

/-- `change_RTC_freq` for a frequency outside the table that passes the first test: the
caller's virtual RTC is closed, and the running frequency changes only when no other
one is open. -/
theorem change_RTC_freq_default (s : State) (f : Nat) (hf : f ∉ rate_freqs)
    (h : ¬ (f ≤ s.running_freq ∧ f ≠ 0)) :
    (change_RTC_freq s f).active_rtc = Function.update s.active_rtc s.current_rtc 0 ∧
    ((∃ i : Int, 0 ≤ i ∧ i < 6 ∧ Function.update s.active_rtc s.current_rtc 0 i = 1) →
      (change_RTC_freq s f).running_freq = s.running_freq) ∧
    ((¬ ∃ i : Int, 0 ≤ i ∧ i < 6 ∧ Function.update s.active_rtc s.current_rtc 0 i = 1) →
      (change_RTC_freq s f).running_freq = f) := by
  unfold change_RTC_freq
  rw [if_neg h, rtc_rate_none f hf]
  dsimp only
  by_cases ha : (List.range 6).any
      (fun i => decide (Function.update s.active_rtc s.current_rtc 0 (i : Int) = 1)) = true
  · rw [if_pos ha]
    exact ⟨rfl, fun _ => rfl, fun hn => absurd ((any_active_iff _).mp ha) hn⟩
  · rw [if_neg ha]
    exact ⟨rfl, fun hs => absurd ((any_active_iff _).mpr hs) ha, fun _ => rfl⟩

/-- `rtc_open` keeps the invariant of the RTC calls. -/
theorem rtc_open_inv (s : State) (h : rtc_inv s) : rtc_inv (rtc_open s).2 := by
  obtain ⟨hg, hi⟩ := h
  unfold rtc_open
  by_cases ha : (List.range 6).any (fun i => decide (s.active_rtc (i : Int) = 1)) = true
  · rw [if_pos ha]
    obtain ⟨h1, h2⟩ := hi ((any_active_iff _).mp ha)
    exact ⟨hg, fun _ => ⟨h1, h2⟩⟩
  · rw [if_neg ha]
    dsimp only
    obtain ⟨s2, hs2⟩ : ∃ s2, s2 = { rtc_init s with rtc_reg_b := (rtc_init s).rtc_reg_b ||| 0x40 } :=
      ⟨_, rfl⟩
    rw [← hs2]
    have hrun2 : s2.running_freq = s.running_freq := by rw [hs2]; rfl
    have hv2 : ∀ i : Int, 0 ≤ i → i < 6 → (s2.virtual_rtc i).freq = 0 := by
      intro i h0 h6
      rw [hs2]
      show ((rtc_init s).virtual_rtc i).freq = 0
      unfold rtc_init
      dsimp only
      rw [if_pos ⟨h0, h6⟩]
    have hv3 : (change_RTC_freq s2 2).virtual_rtc = s2.virtual_rtc := (change_RTC_freq_rtc s2 2).2
    have hrun3 : (change_RTC_freq s2 2).running_freq ∈ rate_freqs := by
      by_cases h2 : 2 ≤ s2.running_freq
      · rw [change_RTC_freq_keep s2 2 h2 (by decide), hrun2]
        rw [hrun2] at h2
        rcases hg with h | h | h
        · omega
        · omega
        · exact h
      · rw [(change_RTC_freq_up s2 2 (by decide) (by omega)).1]
        decide
    refine ⟨Or.inr (Or.inr hrun3), fun _ => ⟨hrun3, ?_⟩⟩
    intro i h0 h6
    show ((change_RTC_freq s2 2).virtual_rtc i).freq ≤ _
    rw [hv3, hv2 i h0 h6]
    exact Nat.zero_le _

/-- `rtc_close` keeps the invariant of the RTC calls. -/
theorem rtc_close_inv (s : State) (fd : Int) (h : rtc_inv s) : rtc_inv (rtc_close s fd).2 := by
  obtain ⟨hg, hi⟩ := h
  show rtc_inv (change_RTC_freq s 0)
  obtain ⟨ha, hr1, hr2⟩ := change_RTC_freq_default s 0 (by decide) (by omega)
  obtain ⟨-, hv⟩ := change_RTC_freq_rtc s 0
  by_cases hany : ∃ i : Int, 0 ≤ i ∧ i < 6 ∧ Function.update s.active_rtc s.current_rtc 0 i = 1
  · have hr := hr1 hany
    have hopen : some_rtc_open s := by
      obtain ⟨i, h0, h6, h1⟩ := hany
      refine ⟨i, h0, h6, ?_⟩
      by_cases hic : i = s.current_rtc
      · rw [hic, Function.update_same] at h1
        exact absurd h1 (by decide)
      · rwa [Function.update_noteq hic] at h1
    obtain ⟨h1, h2⟩ := hi hopen
    refine ⟨by rw [hr]; exact hg, fun _ => ⟨by rw [hr]; exact h1, ?_⟩⟩
    intro i h0 h6
    rw [hr, hv]
    exact h2 i h0 h6
  · have hr := hr2 hany
    refine ⟨Or.inl hr, fun hopen => ?_⟩
    exfalso
    apply hany
    obtain ⟨i, h0, h6, h1⟩ := hopen
    rw [ha] at h1
    exact ⟨i, h0, h6, h1⟩

/-- `rtc_write` of a power of two from 1 to 1024 keeps the invariant of the RTC calls. -/
theorem rtc_write_inv (s : State) (f : Nat) (hf : f ∈ pow2_freqs) (h : rtc_inv s) :
    rtc_inv (rtc_write s (some (word_buf f)) 4).2 := by
  obtain ⟨hg, hi⟩ := h
  have hfb : f = 1 ∨ f ∈ rate_freqs := by
    simp only [pow2_freqs, rate_freqs, List.mem_cons, List.mem_singleton, List.not_mem_nil,
      or_false] at hf ⊢
    exact hf
  have hf1 : 1 ≤ f ∧ f ≤ 1024 ∧ (f = 1 ∨ f % 2 = 0) := by
    simp only [pow2_freqs, List.mem_cons, List.mem_singleton, List.not_mem_nil, or_false] at hf
    omega
  have hw : rd32 (word_buf f) 0 = f := rd32_word_buf f (by omega)
  have hb : rd32 (word_buf f) 0 ∈ pow2_freqs := by rw [hw]; exact hf
  rw [rtc_write_accepts s (word_buf f) 4 (by omega) (by omega) (by rw [hw]; exact hf1.2.2), hw]
  dsimp only
  obtain ⟨hcr, hv⟩ := change_RTC_freq_rtc s f
  rw [hcr, hv]
  have hvle : ∀ (R : Nat), f ≤ R → (∀ i : Int, 0 ≤ i → i < 6 → (s.virtual_rtc i).freq ≤ R) →
      ∀ i : Int, 0 ≤ i → i < 6 →
        (Function.update s.virtual_rtc s.current_rtc
          { (s.virtual_rtc s.current_rtc) with freq := f } i).freq ≤ R := by
    intro R hR hall i h0 h6
    by_cases hic : i = s.current_rtc
    · rw [hic, Function.update_same]
      exact hR
    · rw [Function.update_noteq hic]
      exact hall i h0 h6
  by_cases hle : f ≤ s.running_freq
  · have e := change_RTC_freq_keep s f hle (by omega)
    refine ⟨by rw [e]; exact hg, fun hopen => ?_⟩
    have hopen' : some_rtc_open s := by
      obtain ⟨i, h0, h6, h1⟩ := hopen
      refine ⟨i, h0, h6, ?_⟩
      have : (change_RTC_freq s f).active_rtc i = 1 := h1
      rwa [e] at this
    obtain ⟨h1, h2⟩ := hi hopen'
    refine ⟨by rw [e]; exact h1, ?_⟩
    show ∀ i : Int, 0 ≤ i → i < 6 → _ ≤ (change_RTC_freq s f).running_freq
    rw [e]
    exact hvle _ hle h2
  · rcases hfb with h1 | hrate
    · -- the frequency 1 above a running frequency of 0
      have hrun0 : s.running_freq = 0 := by omega
      have hnone : ¬ some_rtc_open s := by
        intro hopen
        have := (hi hopen).1
        rw [hrun0] at this
        exact absurd this (by decide)
      obtain ⟨ha, -, hr2⟩ := change_RTC_freq_default s f (by rw [h1]; decide) (by omega)
      have hnone' : ¬ ∃ i : Int, 0 ≤ i ∧ i < 6 ∧ Function.update s.active_rtc s.current_rtc 0 i = 1 := by
        rintro ⟨i, h0, h6, hh⟩
        apply hnone
        refine ⟨i, h0, h6, ?_⟩
        by_cases hic : i = s.current_rtc
        · rw [hic, Function.update_same] at hh
          exact absurd hh (by decide)
        · rwa [Function.update_noteq hic] at hh
      have hr := hr2 hnone'
      refine ⟨Or.inr (Or.inl (by show (change_RTC_freq s f).running_freq = 1; rw [hr, h1])),
        fun hopen => ?_⟩
      exfalso
      apply hnone'
      obtain ⟨i, h0, h6, hh⟩ := hopen
      have hh' : (change_RTC_freq s f).active_rtc i = 1 := hh
      rw [ha] at hh'
      exact ⟨i, h0, h6, hh'⟩
    · obtain ⟨hr, ha⟩ := change_RTC_freq_up s f hrate (by omega)
      have hrun : (change_RTC_freq s f).running_freq ∈ rate_freqs := by rw [hr]; exact hrate
      refine ⟨Or.inr (Or.inr hrun), fun hopen => ⟨hrun, ?_⟩⟩
      have hopen' : some_rtc_open s := by
        obtain ⟨i, h0, h6, hh⟩ := hopen
        have hh' : (change_RTC_freq s f).active_rtc i = 1 := hh
        rw [ha] at hh'
        exact ⟨i, h0, h6, hh'⟩
      show ∀ i : Int, 0 ≤ i → i < 6 → _ ≤ (change_RTC_freq s f).running_freq
      rw [hr]
      exact hvle f (le_refl _) (fun i h0 h6 => le_trans ((hi hopen').2 i h0 h6) (by omega))

/-- One RTC call keeps the invariant of the RTC calls. -/
theorem rtc_call_inv (s : State) (c : Int × RtcCall)
    (hw : ∀ freq, c.2 = RtcCall.write_call freq → freq ∈ pow2_freqs) (h : rtc_inv s) :
    rtc_inv (rtc_call s c) := by
  have h' : rtc_inv (change_to_virtual_rtc s c.1) := h
  obtain ⟨pid, op⟩ := c
  cases op with
  | open_call => exact rtc_open_inv _ h'
  | write_call freq =>
    exact rtc_write_inv _ freq (hw freq rfl) h'
  | close_call => exact rtc_close_inv _ 2 h'

/-- A sequence of RTC calls keeps the invariant of the RTC calls. -/
theorem rtc_calls_inv (calls : List (Int × RtcCall)) : ∀ s : State, pow2_calls calls →
    rtc_inv s → rtc_inv (rtc_calls s calls) := by
  induction calls with
  | nil =>
    intro s _ h
    exact h
  | cons c cs ih =>
    intro s hc h
    obtain ⟨-, -, hw⟩ := hc c (List.mem_cons_self _ _)
    exact ih (rtc_call s c) (fun d hd => hc d (List.mem_cons_of_mem _ hd))
      (rtc_call_inv s c hw h)

/-- A bound on every requested frequency bounds the largest one. -/
theorem foldl_max_le (l : List Nat) (R : Nat) : ∀ m : Nat, m ≤ R → (∀ x ∈ l, x ≤ R) →
    l.foldl max m ≤ R := by
  induction l with
  | nil =>
    intro m hm _
    exact hm
  | cons a t ih =>
    intro m hm hall
    exact ih (max m a) (max_le hm (hall a (List.mem_cons_self _ _)))
      (fun x hx => hall x (List.mem_cons_of_mem _ hx))

/-- `rtc_read` returns 0 at once when the caller's frequency is 0. -/
theorem rtc_read_freq_zero (s : State) (h : (s.virtual_rtc s.current_rtc).freq = 0) :
    rtc_read s = RtcRead.returned 0 s := by
  unfold rtc_read
  rw [if_pos h]

/-- `rtc_close` marks the caller's virtual RTC as closed and keeps its frequency. -/
theorem rtc_close_spec (s : State) (fd : Int) :
    (rtc_close s fd).1 = 0 ∧ (rtc_close s fd).2.active_rtc s.current_rtc = 0 ∧
    (rtc_close s fd).2.virtual_rtc = s.virtual_rtc := by
  refine ⟨rfl, ?_, (change_RTC_freq_rtc s 0).2⟩
  show (change_RTC_freq s 0).active_rtc s.current_rtc = 0
  rw [(change_RTC_freq_default s 0 (by decide) (by omega)).1, Function.update_same]

/-- `vidmap` returns -1 and stores nothing for a pointer below `0x08000000` or above
`0x08400000`. -/
theorem vidmap_rejects (vm : Mem) (pp : Nat) (h : pp < 0x08000000 ∨ pp > 0x08400000) :
    vidmap vm pp = (-1, vm) := by
  unfold vidmap
  rw [if_pos h]

/-- `vidmap` returns 0 and stores `0x10000000` for a pointer from `0x08000000` to
`0x08400000`, both included. -/
theorem vidmap_accepts (vm : Mem) (pp : Nat) (h1 : 0x08000000 ≤ pp) (h2 : pp ≤ 0x08400000) :
    (vidmap vm pp).1 = 0 ∧ rd32 (vidmap vm pp).2 pp = 0x10000000 := by
  unfold vidmap
  rw [if_neg (by omega)]
  refine ⟨rfl, ?_⟩
  simp only [rd32, wr32, wr8, rd8]
  norm_num

/-- `getargs` returns -1 and stores nothing when `nbytes < 32`. -/
theorem getargs_small (s : State) (buf : Mem) (n : Int) (h : n < 32) :
    getargs s buf n = (-1, buf) := by
  unfold getargs
  rw [if_pos h]

/-- `getargs` returns 0 and copies the saved string when `nbytes >= 32`. -/
theorem getargs_copies (s : State) (buf : Mem) (n : Int) (h : 32 ≤ n) :
    getargs s buf n = (0, strcpy_to buf s.cur.args) := by
  unfold getargs
  rw [if_neg (by omega)]

/-- The word at offset 24 of the image that `load_image` has copied is the one it stores
in `*eip`, and the page directory is as it was. -/
theorem load_image_eip (s : State) (e : dentry_t) (pid : Int) :
    (load_image s e pid).eip = rd32 (user_image (load_image s e pid).s) 24 := by
  have hb : user_base (load_image s e pid).s = user_base s := rfl
  have h : ∀ k : Nat, k < 0x400000 - EXE_OFFSET →
      user_image (load_image s e pid).s k =
        (read_data s.fs e.inode_num 0
          (fun k => if k < 0x400000 - EXE_OFFSET then 0
            else s.phys (user_base s + EXE_OFFSET + k))
          (file_size s.fs e.inode_num)).2 k := by
    intro k hk
    unfold user_image
    rw [hb]
    have e2 : (load_image s e pid).s.phys (user_base s + EXE_OFFSET + k) =
        (if user_base s + EXE_OFFSET ≤ user_base s + EXE_OFFSET + k ∧
            user_base s + EXE_OFFSET + k < user_base s + EXE_OFFSET + (0x400000 - EXE_OFFSET)
         then (read_data s.fs e.inode_num 0
          (fun k => if k < 0x400000 - EXE_OFFSET then 0
            else s.phys (user_base s + EXE_OFFSET + k))
          (file_size s.fs e.inode_num)).2 (user_base s + EXE_OFFSET + k - (user_base s + EXE_OFFSET))
         else s.phys (user_base s + EXE_OFFSET + k)) := rfl
    rw [e2, if_pos ⟨Nat.le_add_right _ _, Nat.add_lt_add_left hk _⟩, Nat.add_sub_cancel_left]
  have e1 : (load_image s e pid).eip =
      rd32 (read_data s.fs e.inode_num 0
          (fun k => if k < 0x400000 - EXE_OFFSET then 0
            else s.phys (user_base s + EXE_OFFSET + k))
          (file_size s.fs e.inode_num)).2 24 := rfl
  rw [e1]
  unfold rd32 rd8
  rw [h 24 (by decide), h (24 + 1) (by decide), h (24 + 2) (by decide), h (24 + 3) (by decide)]

/-- The page-directory entry of a pid from 1 to 6, as a number. -/
theorem user_page_entry_val (pid : Int) (h1 : 1 ≤ pid) (h6 : pid ≤ 6) :
    user_page_entry pid = (0x800000 + 0x400000 * (pid - 1).toNat) ||| 0x87 := by
  interval_cases pid <;> decide

/-- The top of the kernel slab of a pid from 1 to 6 is a 32-bit address. -/
theorem slab_top_val (pid : Int) (h1 : 1 ≤ pid) (h6 : pid ≤ 6) :
    u32 (get_pcb pid + 8192) = get_pcb pid + 8192 := by
  have h := get_pcb_val pid h1 h6
  unfold u32
  omega

/-- What `jump_prepare` leaves: the page, the current PCB, and the saved code segment of
the target as it was. -/
theorem jump_prepare_spec (s : State) (pid : Int) :
    (jump_prepare s pid).page_dir32 = user_page_entry pid ∧
    (jump_prepare s pid).current_pcb = get_pcb pid ∧
    (jump_prepare s pid).current_rtc = pid - 1 ∧
    ((jump_prepare s pid).pcbs (get_pcb pid)).ret_cs = (s.pcbs (get_pcb pid)).ret_cs := by
  refine ⟨?_, ?_, ?_, ?_⟩
  all_goals
    simp only [jump_prepare, update_pointers, update_cur_pcb, State.modify_pcb,
      change_to_virtual_rtc, terminal_enter_off, Function.update_apply]
  split_ifs with h
  · rw [h]
  · rfl

/-- A `jump_to_process` to a PCB whose saved code segment is the kernel or the user one
sets the TSS of the target. -/
theorem jump_to_process_state (s : State) (pid : Int)
    (hcs : (s.pcbs (get_pcb pid)).ret_cs = KERNEL_CS ∨ (s.pcbs (get_pcb pid)).ret_cs = USER_CS) :
    (jump_to_process s pid).state = jump_tss (jump_prepare s pid) (get_pcb pid) := by
  have h := (jump_prepare_spec s pid).2.2.2
  unfold jump_to_process
  dsimp only
  rw [h]
  rcases hcs with hk | hu
  · rw [if_pos hk]
    rfl
  · by_cases hk : (s.pcbs (get_pcb pid)).ret_cs = KERNEL_CS
    · rw [if_pos hk]
      rfl
    · rw [if_neg hk, if_pos hu]
      rfl

/-- `terminal_clear` keeps `reading_inv`. -/
theorem terminal_clear_reading (q : pcb_t) (h : reading_inv q) : reading_inv (terminal_clear q) := by
  obtain ⟨h1, h2, h3⟩ := h
  refine ⟨h1, h2, ?_⟩
  intro i hi
  show (if q.clear_was_pressed = 1 ∧ i < 1024 then 0 else q.terminal_buffer i) % 256 ≠ 10
  split_ifs
  · decide
  · exact h3 i hi

/-- A typed character other than a newline keeps `reading_inv`. -/
theorem key_char_reading (q : pcb_t) (c : Nat) (hc : c % 256 ≠ 10) (h : reading_inv q) :
    reading_inv (key_step q (key_event.char c)) := by
  obtain ⟨h1, h2, h3⟩ := terminal_clear_reading q h
  show reading_inv (terminal_write_loop (fun _ => c) (1 : Int).toNat 0 (terminal_clear q)).2
  have e : (1 : Int).toNat = 0 + 1 := rfl
  rw [e]
  unfold terminal_write_loop
  dsimp only
  by_cases hz : c % 256 = 0
  · rw [if_pos hz]
    exact ⟨h1, h2, h3⟩
  · rw [if_neg hz, if_pos h2]
    by_cases hp : (terminal_clear q).terminal_pos ≥ 1024
    · rw [if_pos hp]
      exact ⟨h1, h2, h3⟩
    · rw [if_neg hp]
      unfold terminal_write_loop
      refine ⟨h1, h2, ?_⟩
      intro i hi
      show (wr8 (terminal_clear q).terminal_buffer (terminal_clear q).terminal_pos.toNat
        (c % 256) i) % 256 ≠ 10
      unfold wr8
      split_ifs
      · rw [Nat.mod_mod]
        exact hc
      · exact h3 i hi

/-- While characters other than a newline are typed and then Enter, the wait of
`terminal_read` ends, with no newline in the read buffer. -/
theorem terminal_wait_typed (cs : List Nat) (hcs : ∀ c ∈ cs, c % 256 ≠ 10) :
    ∀ q : pcb_t, reading_inv q →
      ∃ q', terminal_wait (cs.map key_event.char ++ [key_event.enter]) q = some q' ∧
        ∀ i : Nat, i < 1024 → q'.terminal_buffer i % 256 ≠ 10 := by
  induction cs with
  | nil =>
    intro q h
    obtain ⟨h1, h2, h3⟩ := terminal_clear_reading q h
    refine ⟨key_step (terminal_clear q) key_event.enter, ?_, h3⟩
    show terminal_wait [key_event.enter] q = _
    unfold terminal_wait
    rw [if_neg (not_not.mpr h.1)]
    unfold terminal_wait
    rw [if_pos (show (key_step (terminal_clear q) key_event.enter).enter_pressed ≠ 0 from
      one_ne_zero)]
  | cons c cs ih =>
    intro q h
    have hq := key_char_reading (terminal_clear q) c (hcs c (List.mem_cons_self _ _))
      (terminal_clear_reading q h)
    obtain ⟨q', e, hq'⟩ := ih (fun d hd => hcs d (List.mem_cons_of_mem _ hd)) _ hq
    refine ⟨q', ?_, hq'⟩
    show terminal_wait (key_event.char c :: (cs.map key_event.char ++ [key_event.enter])) q = _
    unfold terminal_wait
    rw [if_neg (not_not.mpr h.1)]
    exact e

/-- Without a newline in the read buffer the copy loop of `terminal_read` runs to
`nbytes`. -/
theorem terminal_read_copy_full (tb : Mem) (n : Int) (fuel : Nat) : ∀ (i : Nat) (buf : Mem),
    i + fuel = n.toNat → 0 ≤ n → (∀ k : Nat, i ≤ k → k < n.toNat → tb k % 256 ≠ 10) →
    (terminal_read_copy tb n fuel i buf).1 = n.toNat := by
  induction fuel with
  | zero =>
    intro i buf h _ _
    unfold terminal_read_copy
    omega
  | succ m ih =>
    intro i buf h h0 hall
    unfold terminal_read_copy
    rw [if_pos (by omega), if_neg (hall i (le_refl _) (by omega))]
    exact ih (i + 1) _ (by omega) h0 (fun k hk1 hk2 => hall k (by omega) hk2)

/-- The loop that clears the read buffer at the end of `terminal_read` leaves its index
at 1024. -/
theorem terminal_read_clear_index (fuel : Nat) : ∀ (i : Nat) (tb : Mem), i + fuel = 1024 →
    (terminal_read_clear fuel i tb).1 = 1024 := by
  induction fuel with
  | zero =>
    intro i tb h
    unfold terminal_read_clear
    omega
  | succ m ih =>
    intro i tb h
    unfold terminal_read_clear
    rw [if_pos (by omega)]
    exact ih (i + 1) _ (by omega)

/-- The loop that clears the read buffer at the end of `terminal_read` stores zeros in
its 1024 bytes from `i` on and leaves the others alone. -/
theorem terminal_read_clear_buffer (fuel : Nat) : ∀ (i : Nat) (tb : Mem), i + fuel = 1024 →
    ∀ k, (terminal_read_clear fuel i tb).2 k = if i ≤ k ∧ k < 1024 then 0 else tb k := by
  induction fuel with
  | zero =>
    intro i tb h k
    unfold terminal_read_clear
    rw [if_neg (by omega)]
  | succ m ih =>
    intro i tb h k
    unfold terminal_read_clear
    rw [if_pos (by omega), ih (i + 1) _ (by omega) k]
    unfold wr8
    by_cases hk : k = i
    · rw [if_neg (by omega), if_pos hk, if_pos (by omega)]
    · rw [if_neg hk]
      by_cases hk2 : i + 1 ≤ k ∧ k < 1024
      · rw [if_pos hk2, if_pos (by omega)]
      · rw [if_neg hk2, if_neg (by omega)]

/-- Whenever `terminal_read` returns, it returns 1025, whatever was typed and whatever
`nbytes` is, and the read buffer of the terminal is cleared. -/
theorem terminal_read_retval (p : pcb_t) (keys : List key_event) (buf : Mem) (n : Int)
    (r : TermRead) (h : terminal_read p keys buf n = some r) :
    r.retval = 1025 ∧ ∀ k, k < 1024 → r.pcb.terminal_buffer k = 0 := by
  unfold terminal_read at h
  cases hw : terminal_wait keys (terminal_read_begin p) with
  | none =>
    rw [hw] at h
    exact absurd h (by simp)
  | some q =>
    rw [hw] at h
    injection h with h1
    rw [← h1]
    unfold terminal_read_finish
    dsimp only
    refine ⟨?_, ?_⟩
    · rw [terminal_read_clear_index 1024 0 q.terminal_buffer (by omega)]
      decide
    · intro k hk
      rw [terminal_read_clear_buffer 1024 0 q.terminal_buffer (by omega) k, if_pos (by omega)]

/-- Whatever characters other than a newline are typed before Enter, `terminal_read(buf,
n)` with `0 <= n <= 1024` returns, with the value 1025, and has stored the terminator
at `buf[n]`, one byte past the `n` bytes asked for. -/
theorem terminal_read_typed (p : pcb_t) (cs : List Nat) (hcs : ∀ c ∈ cs, c % 256 ≠ 10)
    (buf : Mem) (n : Int) (h0 : 0 ≤ n) (h1 : n ≤ 1024) :
    ∃ r, terminal_read p (cs.map key_event.char ++ [key_event.enter]) buf n = some r ∧
      r.retval = 1025 ∧ r.buf n.toNat = 0 := by
  have hb : reading_inv (terminal_read_begin p) := by
    refine ⟨rfl, rfl, ?_⟩
    intro i hi
    show (if i < 1024 then 0 else p.terminal_buffer i) % 256 ≠ 10
    rw [if_pos hi]
    decide
  obtain ⟨q', e, hq'⟩ := terminal_wait_typed cs hcs _ hb
  have hr : terminal_read p (cs.map key_event.char ++ [key_event.enter]) buf n =
      some (terminal_read_finish q' buf n) := by
    unfold terminal_read
    rw [e]
  refine ⟨terminal_read_finish q' buf n, hr, (terminal_read_retval _ _ _ _ _ hr).1, ?_⟩
  show wr8 (terminal_read_copy q'.terminal_buffer n n.toNat 0 buf).2
    (terminal_read_copy q'.terminal_buffer n n.toNat 0 buf).1 0 n.toNat = 0
  rw [terminal_read_copy_full q'.terminal_buffer n n.toNat 0 buf (by omega) h0
    (fun k _ hk => hq' k (by omega))]
  unfold wr8
  rw [if_pos rfl]

/-- The scheduler tick after `execute_start`: the test of line 243 sees `num_process`
after its increment. -/
theorem execute_start_pit (s : State) (pcb : Nat) (command : List Nat) (args : Mem)
    (fr : Frame) :
    (execute_start s pcb command args fr).pit_started =
      (if s.cur_terminal = 1 ∧ s.num_process + 1 = 2 ∧ s.sched_on = 0 then true
       else s.pit_started) ∧
    (execute_start s pcb command args fr).sched_on =
      (if s.cur_terminal = 1 ∧ s.num_process + 1 = 2 ∧ s.sched_on = 0 then 1 else s.sched_on) := by
  refine ⟨?_, ?_⟩
  all_goals
    simp only [execute_start, execute_tss, update_pointers, execute_save, State.modify_pcb,
      change_to_virtual_rtc, update_cur_pcb, execute_parent, execute_tables]

/-- `load_image` leaves the scheduler flags alone. -/
theorem load_image_sched (s : State) (e : dentry_t) (pid : Int) :
    (load_image s e pid).s.pit_started = s.pit_started ∧
    (load_image s e pid).s.sched_on = s.sched_on := ⟨rfl, rfl⟩

/-- An `execute` that returns at once leaves the scheduler flags and `num_process` as
they were. -/
theorem execute_returned_sched (s : State) (command : List Nat) (fr : Frame) (r : Int)
    (s' : State) (h : execute s command fr = ExecResult.returned r s') :
    s'.pit_started = s.pit_started ∧ s'.sched_on = s.sched_on ∧
    s'.num_process = s.num_process := by
  unfold execute at h
  dsimp only at h
  by_cases h1 : s.num_process > 6
  · rw [if_pos h1] at h
    injection h with _ h2
    rw [← h2]
    exact ⟨rfl, rfl, rfl⟩
  · rw [if_neg h1] at h
    by_cases h2 : (is_valid_cmd s.fs blank_dentry (some (split_command command fr.args).1) fr.buf).1 = -1
    · rw [if_pos h2] at h
      injection h with _ h3
      rw [← h3]
      exact ⟨rfl, rfl, rfl⟩
    · rw [if_neg h2] at h
      cases hk : pid_scan s.open_pid 6 0 with
      | none => rw [hk] at h; exact absurd h (by simp)
      | some k =>
        rw [hk] at h
        dsimp only at h
        unfold execute_load at h
        dsimp only at h
        by_cases h3 : (load_program
            { s with
              open_pid := Function.update s.open_pid k 1
              page_dir32 := if s.current_pcb ≠ 0 then user_page_entry (k + 1) else s.page_dir32 }
            (some (split_command command fr.args).1) fr.esp_local fr.eip_local (k + 1)
            fr.buf_load).pcb = 0
        · rw [if_pos h3] at h
          injection h with _ h4
          rw [← h4]
          unfold load_program at h3 ⊢
          dsimp only at h3 ⊢
          by_cases hv : (is_valid_cmd s.fs blank_dentry (some (split_command command fr.args).1)
              fr.buf_load).1 = -1
          · rw [if_pos hv]
            exact ⟨rfl, rfl, rfl⟩
          · rw [if_neg hv] at h3 ⊢
            exact ⟨rfl, rfl, rfl⟩
        · rw [if_neg h3] at h
          exact absurd h (by simp)

/-- The keys of `key_layout`, checked one by one against the tables: with and without
Shift, with Caps Lock off and on. -/
theorem key_layout_check :
    key_layout.all (fun e => [false, true].all (fun sh => [0, 1].all (fun c =>
      decide ((scancode_access sh c e.1).value = some (layout_char sh c e))))) = true := by
  decide!

/-- The character that the tables give for a key of `key_layout`. -/
theorem scancode_access_layout (e : Nat × Nat × Nat) (he : e ∈ key_layout) (sh : Bool)
    (c : Nat) (hc : c = 0 ∨ c = 1) :
    (scancode_access sh c e.1).value = some (layout_char sh c e) := by
  have h := key_layout_check
  rw [List.all_eq_true] at h
  have h1 := h e he
  rw [List.all_eq_true] at h1
  have h2 := h1 sh (by cases sh <;> simp)
  rw [List.all_eq_true] at h2
  have h3 := h2 c (by rcases hc with rfl | rfl <;> simp)
  exact of_decide_eq_true h3

/-- Without Ctrl, `print_scancode` forwards the make-code of every printable key to
`print_scancode_to_terminal` and leaves the variables of the keyboard alone. -/
theorem print_scancode_forwards (k : kbd_t) (hctl : k.ctl_ON = 0) (sc : Nat)
    (h : sc ∈ printable_codes) : print_scancode k sc = (k, key_action.to_terminal sc) := by
  simp only [printable_codes, List.mem_append, List.mem_range'_1, List.mem_singleton] at h
  have shift_make : ¬ (sc = 0x2A ∨ sc = 0x36) := by omega
  have shift_break : ¬ (sc = 0xAA ∨ sc = 0xB6) := by omega
  have alt_make : sc ≠ 0x38 := by omega
  have alt_break : sc ≠ 0xB8 := by omega
  have caps : sc ≠ 0x3A := by omega
  have ctl_make : sc ≠ 0x1D := by omega
  have ctl_break : sc ≠ 0x9D := by omega
  have enter : sc ≠ 0x1C := by omega
  have backspace : sc ≠ 0x0E := by omega
  have f1 : sc ≠ 0x3B := by omega
  have f2 : sc ≠ 0x3C := by omega
  have f3 : sc ≠ 0x3D := by omega
  have printable : sc ≤ 0x35 ∨ sc = 0x39 := by omega
  unfold print_scancode
  rw [if_neg shift_make, if_neg shift_break, if_neg alt_make, if_neg alt_break, if_neg caps,
    if_neg ctl_make, if_neg ctl_break, if_neg enter, if_neg backspace]
  by_cases h26 : sc = 0x26
  · rw [if_pos h26, if_neg (not_not.mpr hctl)]
  · rw [if_neg h26]
    by_cases h2e : sc = 0x2E
    · rw [if_pos h2e, if_neg (not_not.mpr hctl)]
    · rw [if_neg h2e, if_neg f1, if_neg f2, if_neg f3, if_pos printable]

/-- `read_data` returns -1 and leaves the buffer alone for an inode index above 63. -/
theorem read_data_bad_inode (fs : Mem) (inode offset : Nat) (buf : Mem) (length : Nat)
    (h : inode > 63) : read_data fs inode offset buf length = (-1, buf) := by
  unfold read_data
  rw [if_pos h]

/-- `read_data` returns -1 and leaves the buffer alone when the first block pointer of
the inode is above the number of data blocks. -/
theorem read_data_bad_first_block (fs : Mem) (inode offset : Nat) (buf : Mem) (length : Nat)
    (hi : inode ≤ 63) (h : block_pointer fs inode 0 > rd32 fs 8) :
    read_data fs inode offset buf length = (-1, buf) := by
  unfold read_data
  rw [if_neg (by omega)]
  dsimp only
  unfold read_data_loop
  dsimp only
  have e : rd32 fs ((inode + 1) * 4096 + 4) = block_pointer fs inode 0 := by
    unfold block_pointer
    rfl
  rw [e, if_pos h]

/-- The scan of `read_dentry_by_name` over `n` entries from entry `a` on finds the first
entry whose name compares equal. -/
theorem read_dentry_by_name_loop_find (fs : Mem) (fname : Mem) : ∀ (n a : Nat),
    read_dentry_by_name_loop fs fname n (64 + 64 * a) =
      ((List.range' a n).find?
        (fun i => decide (strncmp fname (fun j => rd8 fs (64 + 64 * i + j)) 32 = 0))).map
        (fun i => fill_dentry fs (64 + 64 * i)) := by
  intro n
  induction n with
  | zero =>
    intro a
    rfl
  | succ m ih =>
    intro a
    unfold read_dentry_by_name_loop
    rw [List.range'_succ, List.find?_cons]
    by_cases h : strncmp fname (fun j => rd8 fs (64 + 64 * a + j)) 32 = 0
    · rw [if_pos h]
      simp only [h, decide_True, Option.map_some']
    · rw [if_neg h]
      simp only [h, decide_False]
      have e : 64 + 64 * a + 64 = 64 + 64 * (a + 1) := by ring
      rw [e]
      exact ih (a + 1)


/-- The loop of `get_next_process` stops at once on a terminal with a scheduled
process. -/
theorem next_process_scan_stop (a : Int → Int) (fuel : Nat) (c : Int) (h : a c ≠ 0) :
    next_process_scan a fuel c = some c := by
  cases fuel with
  | zero =>
    unfold next_process_scan
    rw [if_neg h]
  | succ n =>
    unfold next_process_scan
    rw [if_neg h]

/-- With the cursor in 1..3 and a scheduled process on some terminal in 1..3, the loop
of `get_next_process` ends within two increments after the first, on the first terminal
after the cursor, in the cyclic order, that has a scheduled process. -/
theorem next_process_scan_spec (a : Int → Int) (fuel : Nat) (c : Int) (hc1 : 1 ≤ c)
    (hc3 : c ≤ 3) (h : ∃ t, 1 ≤ t ∧ t ≤ 3 ∧ a t ≠ 0) :
    next_process_scan a (fuel + 2) (increment_cur_process c) =
      (cyclic_after c).find? (fun t => decide (a t ≠ 0)) := by
  obtain ⟨t, ht1, ht3, hat⟩ := h
  have hc : c = 1 ∨ c = 2 ∨ c = 3 := by omega
  have ht : t = 1 ∨ t = 2 ∨ t = 3 := by omega
  by_cases h1 : a 1 = 0 <;> by_cases h2 : a 2 = 0 <;> by_cases h3 : a 3 = 0 <;>
    rcases hc with rfl | rfl | rfl <;>
    first
    | (exfalso; rcases ht with rfl | rfl | rfl <;> contradiction)
    | simp [next_process_scan, next_process_scan_stop, increment_cur_process, cyclic_after, h1, h2,
        h3]

/-- The first terminal with a scheduled process after the cursor is one of 1, 2, 3 and
has a scheduled process. -/
theorem first_scheduled_spec (s : State) (t : Int) (h : first_scheduled s = some t) :
    1 ≤ t ∧ t ≤ 3 ∧ s.active_process t ≠ 0 := by
  unfold first_scheduled at h
  have hm := List.mem_of_find?_eq_some h
  have hp := List.find?_some h
  refine ⟨?_, ?_, of_decide_eq_true hp⟩
  · unfold cyclic_after at hm
    split_ifs at hm <;> simp at hm <;> omega
  · unfold cyclic_after at hm
    split_ifs at hm <;> simp at hm <;> omega

/-- One call of `get_next_process` with a live process, the cursor in 1..3 and a
scheduled process on some terminal: it returns, having moved the cursor and the current
terminal to the first terminal with a scheduled process after the cursor. -/
theorem get_next_process_spec (s : State) (fuel : Nat) (hn : s.num_process ≠ 1)
    (hc1 : 1 ≤ s.cur_process) (hc3 : s.cur_process ≤ 3)
    (h : ∃ t, 1 ≤ t ∧ t ≤ 3 ∧ s.active_process t ≠ 0) :
    ∃ t s', first_scheduled s = some t ∧
      get_next_process (fuel + 2) s = some (s.active_process t, s') ∧
      s'.cur_process = t ∧ s'.cur_terminal = t ∧ s'.active_process = s.active_process ∧
      s'.num_process = s.num_process := by
  have hs := next_process_scan_spec s.active_process fuel s.cur_process hc1 hc3 h
  have hex : ∃ t, first_scheduled s = some t := by
    obtain ⟨t, ht1, ht3, hat⟩ := h
    have hc : s.cur_process = 1 ∨ s.cur_process = 2 ∨ s.cur_process = 3 := by omega
    have ht : t = 1 ∨ t = 2 ∨ t = 3 := by omega
    unfold first_scheduled
    by_cases h1 : s.active_process 1 = 0 <;> by_cases h2 : s.active_process 2 = 0 <;>
      by_cases h3 : s.active_process 3 = 0 <;>
      rcases hc with e | e | e <;>
      first
      | (exfalso; rcases ht with rfl | rfl | rfl <;> contradiction)
      | simp [cyclic_after, e, h1, h2, h3]
  obtain ⟨t, ht⟩ := hex
  have hs2 : next_process_scan s.active_process (fuel + 2)
      (increment_cur_process s.cur_process) = some t := by
    rw [hs]
    exact ht
  refine ⟨t, schedule_terminal s t, ht, ?_, rfl, rfl, rfl, rfl⟩
  unfold get_next_process
  rw [if_neg hn, hs2]
  rfl

/-- With a scheduled process on each of the three terminals, the first one after the
cursor is the next in the cyclic order. -/
theorem first_scheduled_all (s : State) (hc1 : 1 ≤ s.cur_process) (hc3 : s.cur_process ≤ 3)
    (h : ∀ t, 1 ≤ t → t ≤ 3 → s.active_process t ≠ 0) :
    first_scheduled s = some (increment_cur_process s.cur_process) := by
  have hc : s.cur_process = 1 ∨ s.cur_process = 2 ∨ s.cur_process = 3 := by omega
  have h1 := h 1 (by decide) (by decide)
  have h2 := h 2 (by decide) (by decide)
  have h3 := h 3 (by decide) (by decide)
  unfold first_scheduled
  rcases hc with e | e | e <;> simp [cyclic_after, increment_cur_process, e, h1, h2, h3]

/-- A 32-bit word read from memory is below `2^32`. -/
theorem rd32_lt (m : Mem) (a : Nat) : rd32 m a < 4294967296 := by
  unfold rd32 rd8
  omega

/-- The inner loop of `read_data(inode, 0, buf, S)` on a block that the file fills:
it copies the block from position `j` on and goes on to the next block. -/
theorem read_data_copy_block (fs : Mem) (cdp i S : Nat) (hS : S < 4294967296)
    (hfull : (i + 1) * 4096 < S) : ∀ (fuel j nr : Nat) (buf : Mem), j + fuel = 4096 →
    nr = i * 4096 + j →
    (read_data_copy fs cdp i 0 S S fuel j nr buf).eof = false ∧
    (read_data_copy fs cdp i 0 S S fuel j nr buf).num_read = (i + 1) * 4096 ∧
    ∀ k, (read_data_copy fs cdp i 0 S S fuel j nr buf).buf k =
      if nr ≤ k ∧ k < (i + 1) * 4096 then rd8 fs (cdp + (k - i * 4096)) else buf k := by
  intro fuel
  induction fuel with
  | zero =>
    intro j nr buf hj hnr
    unfold read_data_copy
    refine ⟨rfl, ?_, ?_⟩
    · show nr = (i + 1) * 4096
      omega
    · intro k
      rw [if_neg (by omega)]
  | succ n ih =>
    intro j nr buf hj hnr
    unfold read_data_copy
    rw [if_pos ⟨by omega, by omega⟩]
    dsimp only
    rw [if_neg (by unfold u32; omega)]
    have hu : u32 (i * 4096 + j + (4294967296 - 0)) = nr := by
      unfold u32
      omega
    rw [hu]
    obtain ⟨h1, h2, h3⟩ := ih (j + 1) (nr + 1) (wr8 buf nr (rd8 fs (cdp + j))) (by omega)
      (by omega)
    refine ⟨h1, h2, ?_⟩
    intro k
    rw [h3 k]
    unfold wr8
    have ej : nr - i * 4096 = j := by omega
    by_cases hk : k = nr
    · rw [if_neg (by omega), if_pos hk, if_pos (by omega), hk, ej]
    · rw [if_neg hk]
      by_cases hk2 : nr + 1 ≤ k ∧ k < (i + 1) * 4096
      · rw [if_pos hk2, if_pos (by omega)]
      · rw [if_neg hk2, if_neg (by omega)]

/-- The inner loop of `read_data(inode, 0, buf, S)` on the block in which the file ends:
it copies the bytes up to the end of the file and leaves through `return 0`. -/
theorem read_data_copy_last (fs : Mem) (cdp i S : Nat) (hS : S < 4294967296)
    (hlast : S ≤ (i + 1) * 4096) : ∀ (fuel j nr : Nat) (buf : Mem), nr = i * 4096 + j →
    nr < S → S - nr ≤ fuel →
    (read_data_copy fs cdp i 0 S S fuel j nr buf).eof = true ∧
    ∀ k, (read_data_copy fs cdp i 0 S S fuel j nr buf).buf k =
      if nr ≤ k ∧ k < S then rd8 fs (cdp + (k - i * 4096)) else buf k := by
  intro fuel
  induction fuel with
  | zero =>
    intro j nr buf hnr hj hf
    omega
  | succ n ih =>
    intro j nr buf hnr hj hf
    unfold read_data_copy
    rw [if_pos ⟨by omega, by omega⟩]
    dsimp only
    have hu : u32 (i * 4096 + j + (4294967296 - 0)) = nr := by
      unfold u32
      omega
    rw [hu]
    have ej : nr - i * 4096 = j := by omega
    by_cases heof : nr + 1 = S
    · rw [if_pos (by unfold u32; omega)]
      refine ⟨rfl, ?_⟩
      intro k
      show wr8 buf nr (rd8 fs (cdp + j)) k = _
      unfold wr8
      by_cases hk : k = nr
      · rw [if_pos hk, if_pos (by omega), hk, ej]
      · rw [if_neg hk, if_neg (by omega)]
    · rw [if_neg (by unfold u32; omega)]
      obtain ⟨h1, h3⟩ := ih (j + 1) (nr + 1) (wr8 buf nr (rd8 fs (cdp + j))) (by omega)
        (by omega) (by omega)
      refine ⟨h1, ?_⟩
      intro k
      rw [h3 k]
      unfold wr8
      by_cases hk : k = nr
      · rw [if_neg (by omega), if_pos hk, if_pos (by omega), hk, ej]
      · rw [if_neg hk]
        by_cases hk2 : nr + 1 ≤ k ∧ k < S
        · rw [if_pos hk2, if_pos (by omega)]
        · rw [if_neg hk2, if_neg (by omega)]

/-- The outer loop of `read_data(inode, 0, buf, S)` for a file of `S > 0` bytes whose
block pointers pass the test of the loop: from block `i` on it copies the rest of the
file, block after block. -/
theorem read_data_loop_whole (fs : Mem) (ia da ndb S : Nat) (hS : S < 4294967296)
    (hblk : ∀ n, n * 4096 < S → rd32 fs (ia + 4 + n * 4) ≤ ndb) :
    ∀ (fuel i : Nat) (buf : Mem), i + fuel = S / 4096 + 1 → i * 4096 < S →
    ∀ k, (read_data_loop fs ia da ndb 0 S S fuel i (ia + 4 + i * 4) (i * 4096) buf).2 k =
      if i * 4096 ≤ k ∧ k < S then
        rd8 fs (da + rd32 fs (ia + 4 + k / 4096 * 4) * 4096 + k % 4096)
      else buf k := by
  intro fuel
  induction fuel with
  | zero =>
    intro i buf hi hlt
    omega
  | succ n ih =>
    intro i buf hi hlt k
    unfold read_data_loop
    dsimp only
    have hb := hblk i hlt
    rw [if_neg (by omega), if_neg (by simp)]
    have hj : (if 0 / 4096 = i then 0 % 4096 else 0) = 0 := by
      split_ifs <;> rfl
    rw [hj]
    by_cases hfull : (i + 1) * 4096 < S
    · have h := read_data_copy_block fs (da + rd32 fs (ia + 4 + i * 4) * 4096) i S
        hS hfull 4096 0 (i * 4096) buf (by omega) (by omega)
      have h1 : (read_data_copy fs (da + rd32 fs (ia + 4 + i * 4) * 4096) i 0 S S 4096 0
          (i * 4096) buf).eof = false := h.1
      have h2 : (read_data_copy fs (da + rd32 fs (ia + 4 + i * 4) * 4096) i 0 S S 4096 0
          (i * 4096) buf).num_read = (i + 1) * 4096 := h.2.1
      have h3 : ∀ k, (read_data_copy fs (da + rd32 fs (ia + 4 + i * 4) * 4096) i 0 S S 4096 0
          (i * 4096) buf).buf k =
          if i * 4096 ≤ k ∧ k < (i + 1) * 4096 then
            rd8 fs (da + rd32 fs (ia + 4 + i * 4) * 4096 + (k - i * 4096))
          else buf k := h.2.2
      rw [h1, h2]
      simp only [Bool.false_eq_true, if_false]
      rw [ih (i + 1) _ (by omega) hfull k, h3 k]
      by_cases hk1 : (i + 1) * 4096 ≤ k ∧ k < S
      · rw [if_pos hk1, if_pos (by omega)]
      · rw [if_neg hk1]
        by_cases hk2 : i * 4096 ≤ k ∧ k < (i + 1) * 4096
        · rw [if_pos hk2, if_pos (by omega)]
          have e1 : k / 4096 = i := by omega
          have e2 : k - i * 4096 = k % 4096 := by omega
          rw [e1, e2]
        · rw [if_neg hk2, if_neg (by omega)]
    · have h := read_data_copy_last fs (da + rd32 fs (ia + 4 + i * 4) * 4096) i S
        hS (by omega) 4096 0 (i * 4096) buf (by omega) hlt (by omega)
      have h1 : (read_data_copy fs (da + rd32 fs (ia + 4 + i * 4) * 4096) i 0 S S 4096 0
          (i * 4096) buf).eof = true := h.1
      have h3 : ∀ k, (read_data_copy fs (da + rd32 fs (ia + 4 + i * 4) * 4096) i 0 S S 4096 0
          (i * 4096) buf).buf k =
          if i * 4096 ≤ k ∧ k < S then
            rd8 fs (da + rd32 fs (ia + 4 + i * 4) * 4096 + (k - i * 4096))
          else buf k := h.2
      rw [h1]
      simp only [if_true]
      rw [h3 k]
      by_cases hk2 : i * 4096 ≤ k ∧ k < S
      · rw [if_pos hk2, if_pos hk2]
        have e1 : k / 4096 = i := by omega
        have e2 : k - i * 4096 = k % 4096 := by omega
        rw [e1, e2]
      · rw [if_neg hk2, if_neg hk2]

/-- For an inode that `read_data` accepts and block pointers that pass its test,
`read_data(inode, 0, buf, file_size(inode))` stores the bytes of the file, in file
order, in `buf[0 .. size-1]` and leaves the rest of `buf` alone. -/
theorem read_data_whole_file (fs : Mem) (inode : Nat) (buf : Mem) (hi : inode ≤ 63)
    (hb : ∀ n, n * 4096 < file_size fs inode → block_pointer fs inode n ≤ rd32 fs 8) (k : Nat) :
    (read_data fs inode 0 buf (file_size fs inode)).2 k =
      if k < file_size fs inode then file_byte fs inode k else buf k := by
  unfold read_data
  rw [if_neg (by omega)]
  dsimp only
  unfold file_size at hb ⊢
  by_cases h0 : rd32 fs ((inode + 1) * 4096) = 0
  · rw [h0, if_neg (by omega)]
    exact congrFun (read_data_loop_done _ _ _ _ _ _ _ _ _ _ _ _ (le_refl 0)) k
  · have h := read_data_loop_whole fs ((inode + 1) * 4096) ((rd32 fs 4 + 1) * 4096) (rd32 fs 8)
      (rd32 fs ((inode + 1) * 4096)) (rd32_lt _ _)
      (fun n hn => by
        have := hb n hn
        unfold block_pointer at this
        rw [Nat.mul_comm 4 n] at this
        exact this)
      (rd32 fs ((inode + 1) * 4096) / 4096 + 1) 0 buf (by omega) (by omega) k
    rw [Nat.zero_mul, Nat.add_zero] at h
    rw [h]
    by_cases hk : k < rd32 fs ((inode + 1) * 4096)
    · rw [if_pos ⟨Nat.zero_le _, hk⟩, if_pos hk]
      unfold file_byte block_pointer
      rw [Nat.mul_comm 4 (k / 4096)]
    · rw [if_neg (fun h => hk h.2), if_neg hk]

/-- The bytes of the user image after `load_image` are those that `read_data` has left
in the zeroed image. -/
theorem user_image_load_image (s : State) (e : dentry_t) (pid : Int) (k : Nat)
    (hk : k < 0x400000 - EXE_OFFSET) :
    user_image (load_image s e pid).s k =
      (read_data s.fs e.inode_num 0
        (fun k => if k < 0x400000 - EXE_OFFSET then 0
          else s.phys (user_base s + EXE_OFFSET + k))
        (file_size s.fs e.inode_num)).2 k := by
  have hb : user_base (load_image s e pid).s = user_base s := rfl
  unfold user_image
  rw [hb]
  have e2 : (load_image s e pid).s.phys (user_base s + EXE_OFFSET + k) =
      (if user_base s + EXE_OFFSET ≤ user_base s + EXE_OFFSET + k ∧
          user_base s + EXE_OFFSET + k < user_base s + EXE_OFFSET + (0x400000 - EXE_OFFSET)
       then (read_data s.fs e.inode_num 0
        (fun k => if k < 0x400000 - EXE_OFFSET then 0
          else s.phys (user_base s + EXE_OFFSET + k))
        (file_size s.fs e.inode_num)).2 (user_base s + EXE_OFFSET + k - (user_base s + EXE_OFFSET))
       else s.phys (user_base s + EXE_OFFSET + k)) := rfl
  rw [e2, if_pos ⟨Nat.le_add_right _ _, Nat.add_lt_add_left hk _⟩, Nat.add_sub_cancel_left]

/-- The directory entry that a successful `is_valid_cmd` has filled is the one that
`read_dentry_by_name` has found. -/
theorem is_valid_cmd_entry (fs : Mem) (name : Option Mem) (buf : Mem) (e : dentry_t)
    (h : read_dentry_by_name fs name (some blank_dentry) = (0, some e)) :
    (is_valid_cmd fs blank_dentry name buf).2 = e := by
  unfold is_valid_cmd
  rw [h]
  dsimp only
  rw [if_neg (by decide)]
  split_ifs <;> rfl

/-- The one block pointer of `shell` in `demo_fs` names data block 0 of 4. -/
theorem demo_shell_blocks (n : Nat) (h : n * 4096 < file_size demo_boot.fs 1) :
    block_pointer demo_boot.fs 1 n < rd32 demo_boot.fs 8 := by
  have hs : file_size demo_boot.fs 1 = 28 := by decide!
  rw [hs] at h
  have hn : n = 0 := by omega
  rw [hn]
  decide!

/-- The fields that an `execute` which returns at once leaves alone; of `open_pid` it
has at most reset the entry where its scan stopped. -/
theorem execute_returned_fields (s : State) (command : List Nat) (fr : Frame) (r : Int)
    (s' : State) (h : execute s command fr = ExecResult.returned r s') :
    s'.pcbs = s.pcbs ∧ s'.current_pcb = s.current_pcb ∧ s'.cur_terminal = s.cur_terminal ∧
    s'.open_terminals = s.open_terminals ∧ s'.active_terminals = s.active_terminals ∧
    s'.active_process = s.active_process ∧
    (s'.open_pid = s.open_pid ∨
      ∃ k, pid_scan s.open_pid 6 0 = some k ∧ s'.open_pid = Function.update s.open_pid k 0) := by
  unfold execute at h
  dsimp only at h
  by_cases h1 : s.num_process > 6
  · rw [if_pos h1] at h
    injection h with _ h2
    rw [← h2]
    exact ⟨rfl, rfl, rfl, rfl, rfl, rfl, Or.inl rfl⟩
  · rw [if_neg h1] at h
    by_cases h2 : (is_valid_cmd s.fs blank_dentry (some (split_command command fr.args).1) fr.buf).1 = -1
    · rw [if_pos h2] at h
      injection h with _ h3
      rw [← h3]
      exact ⟨rfl, rfl, rfl, rfl, rfl, rfl, Or.inl rfl⟩
    · rw [if_neg h2] at h
      cases hk : pid_scan s.open_pid 6 0 with
      | none => rw [hk] at h; exact absurd h (by simp)
      | some k =>
        rw [hk] at h
        dsimp only at h
        unfold execute_load at h
        dsimp only at h
        obtain ⟨hk0, hk6, _, _⟩ := pid_scan_some _ _ _ _ hk
        by_cases h3 : (load_program
            { s with
              open_pid := Function.update s.open_pid k 1
              page_dir32 := if s.current_pcb ≠ 0 then user_page_entry (k + 1) else s.page_dir32 }
            (some (split_command command fr.args).1) fr.esp_local fr.eip_local (k + 1)
            fr.buf_load).pcb = 0
        · rw [if_pos h3] at h
          injection h with _ h4
          rw [← h4]
          unfold load_program at h3 ⊢
          dsimp only at h3 ⊢
          by_cases hv : (is_valid_cmd s.fs blank_dentry (some (split_command command fr.args).1)
              fr.buf_load).1 = -1
          · rw [if_pos hv]
            refine ⟨rfl, rfl, rfl, rfl, rfl, rfl, Or.inr ⟨k, rfl, ?_⟩⟩
            show Function.update (Function.update s.open_pid k 1) (k + 1 - 1) 0 = _
            rw [Int.add_sub_cancel, Function.update_idem]
          · rw [if_neg hv] at h3
            rw [(load_image_spec _ _ _).1] at h3
            exact absurd h3 (get_pcb_ne_zero (k + 1) (by omega) (by omega))
        · rw [if_neg h3] at h
          exact absurd h (by simp)

/-- An `execute` that enters the new program leaves `active_terminals` alone and makes
a PCB other than the null pointer the current one. -/
theorem execute_entered_foreground (s : State) (command : List Nat) (fr : Frame) (s' : State)
    (f : iret_t) (h : execute s command fr = ExecResult.entered s' f) :
    s'.active_terminals = s.active_terminals ∧ s'.current_pcb ≠ 0 := by
  obtain ⟨k, e, hk, hs⟩ := execute_entered s command fr s' f h
  obtain ⟨hk0, hk6, _, _⟩ := pid_scan_some _ _ _ _ hk
  have e1 : ∀ (t : State) (pcb : Nat) (args : Mem),
      (execute_start t pcb command args fr).active_terminals = t.active_terminals := by
    intro t pcb args
    simp only [execute_start, execute_tss, update_pointers, execute_save, State.modify_pcb,
      change_to_virtual_rtc, update_cur_pcb, execute_parent, execute_tables]
  have e2 : ∀ (t : State) (d : dentry_t) (pid : Int),
      (load_image t d pid).s.active_terminals = t.active_terminals := fun _ _ _ => rfl
  rw [hs]
  refine ⟨?_, ?_⟩
  · rw [e1, e2]
  · rw [(execute_start_fields _ _ _ _ _).1]
    exact get_pcb_ne_zero (k + 1) (by omega) (by omega)

/-- Whatever an `execute` does, `active_terminals` stays, and `current_pcb` is null
afterwards only if it was so before. -/
theorem execute_foreground (s : State) (command : List Nat) (fr : Frame) :
    (execute s command fr).state.active_terminals = s.active_terminals ∧
    (s.current_pcb ≠ 0 → (execute s command fr).state.current_pcb ≠ 0) := by
  cases h : execute s command fr with
  | returned r s' =>
    obtain ⟨_, h2, _, _, h5, _, _⟩ := execute_returned_fields s command fr r s' h
    exact ⟨h5, fun hc => by rw [show (ExecResult.returned r s').state = s' from rfl, h2]; exact hc⟩
  | entered s' f =>
    obtain ⟨h1, h2⟩ := execute_entered_foreground s command fr s' f h
    exact ⟨h1, fun _ => h2⟩
  | off_table s' =>
    unfold execute at h
    dsimp only at h
    by_cases h1 : s.num_process > 6
    · rw [if_pos h1] at h
      exact absurd h (by simp)
    · rw [if_neg h1] at h
      by_cases h2 : (is_valid_cmd s.fs blank_dentry (some (split_command command fr.args).1) fr.buf).1 = -1
      · rw [if_pos h2] at h
        exact absurd h (by simp)
      · rw [if_neg h2] at h
        cases hk : pid_scan s.open_pid 6 0 with
        | none =>
          rw [hk] at h
          injection h with h3
          rw [← h3]
          exact ⟨rfl, fun hc => hc⟩
        | some k =>
          rw [hk] at h
          dsimp only at h
          unfold execute_load at h
          dsimp only at h
          split_ifs at h

/-- `jump_to_process` leaves `active_terminals` alone and makes `get_pcb(pid)` the
current PCB. -/
theorem jump_to_process_foreground (s : State) (pid : Int) :
    (jump_to_process s pid).state.active_terminals = s.active_terminals ∧
    (jump_to_process s pid).state.current_pcb = get_pcb pid := by
  unfold jump_to_process
  dsimp only
  by_cases h1 : ((jump_prepare s pid).pcbs (get_pcb pid)).ret_cs = KERNEL_CS
  · rw [if_pos h1]
    exact ⟨rfl, rfl⟩
  · rw [if_neg h1]
    by_cases h2 : ((jump_prepare s pid).pcbs (get_pcb pid)).ret_cs = USER_CS
    · rw [if_pos h2]
      exact ⟨rfl, rfl⟩
    · rw [if_neg h2]
      exact ⟨rfl, rfl⟩

/-- Lines 625-642 of `switch_terminal(num)` for a terminal from 1 to 3, called with a
current PCB or with no foreground bit set: afterwards exactly the bit of `num` is set,
and `current_pcb` is as before. -/
theorem switch_terminal_begin_foreground (s : State) (n : Int) (h1 : 1 ≤ n) (h3 : n ≤ 3)
    (h : s.current_pcb ≠ 0 ∨ ∀ t, s.active_terminals t = 0) :
    only_foreground (switch_terminal_begin s n) n ∧
    (switch_terminal_begin s n).active_terminals n = 1 ∧
    (switch_terminal_begin s n).current_pcb = s.current_pcb := by
  unfold switch_terminal_begin
  rw [if_neg (by omega)]
  dsimp only
  by_cases hc : s.current_pcb ≠ 0
  · rw [if_pos hc]
    refine ⟨?_, ?_, rfl⟩
    · intro t ht1 ht3
      show (if 1 ≤ t ∧ t < 4 ∧ t ≠ n then 0 else Function.update s.active_terminals n 1 t) ≠ 0 ↔ _
      by_cases htn : t = n
      · rw [if_neg (by omega), htn, Function.update_same]
        simp
      · rw [if_pos ⟨ht1, by omega, htn⟩]
        simp [htn]
    · show (if 1 ≤ n ∧ n < 4 ∧ n ≠ n then 0 else Function.update s.active_terminals n 1 n) = 1
      rw [if_neg (by simp), Function.update_same]
  · rw [if_neg hc]
    have hz : ∀ t, s.active_terminals t = 0 := by
      rcases h with h | h
      · exact absurd h hc
      · exact h
    refine ⟨?_, ?_, rfl⟩
    · intro t ht1 ht3
      show Function.update s.active_terminals n 1 t ≠ 0 ↔ _
      by_cases htn : t = n
      · rw [htn, Function.update_same]
        simp
      · rw [Function.update_noteq htn, hz t]
        simp [htn]
    · show Function.update s.active_terminals n 1 n = 1
      rw [Function.update_same]

/-- Whatever way `switch_terminal(num)` ends for a terminal from 1 to 3, called with a
current PCB or with no foreground bit set: exactly the bit of `num` is set afterwards. -/
theorem switch_terminal_foreground (s : State) (n : Int) (fr : Frame) (h1 : 1 ≤ n) (h3 : n ≤ 3)
    (h : s.current_pcb ≠ 0 ∨ ∀ t, s.active_terminals t = 0) :
    only_foreground (switch_terminal s n fr).state n ∧
    (switch_terminal s n fr).state.active_terminals n = 1 := by
  obtain ⟨hb1, hb2, _⟩ := switch_terminal_begin_foreground s n h1 h3 h
  have key : (switch_terminal s n fr).state.active_terminals =
      (switch_terminal_begin s n).active_terminals := by
    unfold switch_terminal
    rw [if_neg (by omega)]
    by_cases ho : (switch_terminal_begin s n).open_terminals n = 0
    · rw [if_pos ho]
      have he := execute_foreground (switch_terminal_begin s n) str_shell fr
      cases hx : execute (switch_terminal_begin s n) str_shell fr with
      | returned r s2 =>
        rw [hx] at he
        exact ((jump_to_process_foreground _ _).1).trans he.1
      | entered s2 f =>
        rw [hx] at he
        exact he.1
      | off_table s2 =>
        rw [hx] at he
        exact he.1
    · rw [if_neg ho]
      exact (jump_to_process_foreground _ _).1
  unfold only_foreground
  rw [key]
  exact ⟨hb1, hb2⟩

/-- A state with exactly one foreground bit has at most one. -/
theorem only_foreground_at_most (s : State) (n : Int) (h : only_foreground s n) :
    at_most_one_foreground s := by
  intro a b ha1 ha3 hb1 hb3 ha hb
  rw [(h a ha1 ha3).mp ha, (h b hb1 hb3).mp hb]

/-- What `halt` does to `active_terminals` and `current_pcb`: the jump to `finishHalt`
leaves the foreground bits alone, and the `halt` of a root shell clears at most one bit
and leaves `current_pcb` alone. -/
theorem halt_foreground (s : State) (status : Nat) :
    (∀ r esp ebp s', halt s status = HaltResult.finishHalt r esp ebp s' →
      s'.active_terminals = s.active_terminals) ∧
    (∀ s1 next, halt s status = HaltResult.root s1 next →
      s1.active_terminals = Function.update s.active_terminals s.cur.terminal_id 0 ∧
      s1.current_pcb = s.current_pcb) := by
  by_cases hroot : s.cur.pid = s.open_terminals s.cur.terminal_id
  · have e : halt s status = HaltResult.root (halt_root s)
        (([1, 2, 3] : List Int).find? (fun pos => decide ((halt_root s).open_terminals pos ≠ 0))) := by
      unfold halt
      dsimp only
      rw [if_pos hroot]
    rw [e]
    refine ⟨fun r esp ebp s' h => absurd h (by simp), ?_⟩
    intro s1 next h
    injection h with h1 _
    rw [← h1]
    exact ⟨rfl, rfl⟩
  · rw [halt_not_root_eq s status hroot]
    refine ⟨?_, fun s1 next h => absurd h (by simp)⟩
    intro r esp ebp s' h
    injection h with _ _ _ h4
    rw [← h4]
    simp only [update_pointers, update_cur_pcb, halt_tables, clear_pcb, State.modify_pcb,
      update_parent_video, update_screen_x_y]

/-- Clearing a foreground bit keeps the property that at most one is set. -/
theorem at_most_one_clear (s s1 : State) (t : Int) (h : at_most_one_foreground s)
    (e : s1.active_terminals = Function.update s.active_terminals t 0) :
    at_most_one_foreground s1 := by
  intro a b ha1 ha3 hb1 hb3 ha hb
  rw [e] at ha hb
  have ha' : s.active_terminals a ≠ 0 := by
    by_cases hat : a = t
    · rw [hat, Function.update_same] at ha
      exact absurd rfl ha
    · rwa [Function.update_noteq hat] at ha
  have hb' : s.active_terminals b ≠ 0 := by
    by_cases hbt : b = t
    · rw [hbt, Function.update_same] at hb
      exact absurd rfl hb
    · rwa [Function.update_noteq hbt] at hb
  exact h a b ha1 ha3 hb1 hb3 ha' hb'

/-- In every reachable state at most one foreground bit is set and `current_pcb` is not
null. -/
theorem reachable_foreground (s : State) (b : Bool) (h : Reachable s b) :
    at_most_one_foreground s ∧ s.current_pcb ≠ 0 := by
  induction h with
  | boot fs pcbs phys fr _ hc =>
    exact ⟨only_foreground_at_most _ 1
      (switch_terminal_foreground _ 1 fr (by decide) (by decide) (Or.inr (fun _ => rfl))).1, hc⟩
  | switch s n fr _ _ hc ih =>
    refine ⟨?_, hc⟩
    by_cases hn : 1 ≤ n ∧ n ≤ 3
    · exact only_foreground_at_most _ n
        (switch_terminal_foreground s n fr hn.1 hn.2 (Or.inl ih.2)).1
    · have e : switch_terminal s n fr = SwitchResult.returned s := by
        unfold switch_terminal
        rw [if_pos (by omega)]
      rw [e]
      exact ih.1
  | exec s command fr _ _ ih =>
    obtain ⟨h1, h2⟩ := execute_foreground s command fr
    refine ⟨?_, h2 ih.2⟩
    unfold at_most_one_foreground
    rw [h1]
    exact ih.1
  | halt_finish s status r esp ebp s' _ hh hc ih =>
    refine ⟨?_, hc⟩
    unfold at_most_one_foreground
    rw [(halt_foreground s status).1 r esp ebp s' hh]
    exact ih.1
  | halt_spin s status s1 _ hh ih =>
    obtain ⟨h1, h2⟩ := (halt_foreground s status).2 s1 none hh
    exact ⟨at_most_one_clear s s1 _ ih.1 h1, by rw [h2]; exact ih.2⟩
  | halt_switch s status s1 n fr _ hh _ hc ih =>
    obtain ⟨h1, h2⟩ := (halt_foreground s status).2 s1 (some n) hh
    refine ⟨?_, hc⟩
    by_cases hn : 1 ≤ n ∧ n ≤ 3
    · exact only_foreground_at_most _ n
        (switch_terminal_foreground s1 n fr hn.1 hn.2 (Or.inl (by rw [h2]; exact ih.2))).1
    · have e : switch_terminal s1 n fr = SwitchResult.returned s1 := by
        unfold switch_terminal
        rw [if_pos (by omega)]
      rw [e]
      exact at_most_one_clear s s1 _ ih.1 h1

/-- The PCBs other than the new one are left alone by lines 179-250 of `execute`. -/
theorem execute_start_pcbs_other (s : State) (pcb : Nat) (command : List Nat) (args : Mem)
    (fr : Frame) (a : Nat) (h : a ≠ pcb) :
    (execute_start s pcb command args fr).pcbs a = s.pcbs a := by
  simp only [execute_start, execute_tss, update_pointers, execute_save, State.modify_pcb,
    change_to_virtual_rtc, update_cur_pcb, execute_parent, execute_tables,
    Function.update_apply, if_neg h]

/-- What an `execute` that enters the new program has done to the tables and the PCBs:
`k` is the index at which the scan of `open_pid` has stopped, `k + 1` the new pid. -/
theorem execute_entered_fields (s : State) (command : List Nat) (fr : Frame) (s' : State)
    (f : iret_t) (h : execute s command fr = ExecResult.entered s' f) :
    ∃ k : Int, pid_scan s.open_pid 6 0 = some k ∧
      s'.current_pcb = get_pcb (k + 1) ∧
      (s'.pcbs (get_pcb (k + 1))).pid = k + 1 ∧
      (s'.pcbs (get_pcb (k + 1))).terminal_id = s.cur_terminal ∧
      (s'.pcbs (get_pcb (k + 1))).parent_pcb = s.current_pcb ∧
      (∀ a, a ≠ get_pcb (k + 1) → s'.pcbs a = s.pcbs a) ∧
      s'.open_pid = Function.update s.open_pid k 1 ∧
      s'.num_process = s.num_process + 1 ∧
      s'.cur_terminal = s.cur_terminal ∧
      s'.open_terminals =
        (if s.open_terminals s.cur_terminal = 0 then
          Function.update s.open_terminals s.cur_terminal (k + 1)
         else s.open_terminals) := by
  obtain ⟨k, e, hk, hs⟩ := execute_entered s command fr s' f h
  refine ⟨k, hk, ?_⟩
  obtain ⟨f1, _, _, f4, f5, _, f7, _, _, _, _, f12, f13, _, f15, _, _, f18⟩ :=
    execute_start_fields
      (load_image
        { s with
          open_pid := Function.update s.open_pid k 1
          page_dir32 := if s.current_pcb ≠ 0 then user_page_entry (k + 1) else s.page_dir32 }
        e (k + 1)).s
      (get_pcb (k + 1)) command (split_command command fr.args).2 fr
  obtain ⟨_, _, l3, l4, l5, l6, _, l8, _, _, l11⟩ :=
    load_image_spec
      { s with
        open_pid := Function.update s.open_pid k 1
        page_dir32 := if s.current_pcb ≠ 0 then user_page_entry (k + 1) else s.page_dir32 }
      e (k + 1)
  have hpid : ((load_image
        { s with
          open_pid := Function.update s.open_pid k 1
          page_dir32 := if s.current_pcb ≠ 0 then user_page_entry (k + 1) else s.page_dir32 }
        e (k + 1)).s.pcbs (get_pcb (k + 1))).pid = k + 1 := by
    rw [l3, Function.update_same]
  have hcur : s'.cur = s'.pcbs (get_pcb (k + 1)) := by
    unfold State.cur
    rw [hs, f1]
  rw [← hcur]
  rw [hs]
  refine ⟨f1, ?_, ?_, ?_, ?_, ?_, ?_, ?_, ?_⟩
  · rw [f4, hpid]
  · rw [f5, l11]
  · rw [f7, l4]
  · intro a ha
    rw [execute_start_pcbs_other _ _ _ _ _ a ha, l3, Function.update_noteq ha]
  · rw [f12, l5]
  · rw [f13, l6]
  · rw [f18, l11]
  · rw [f15, l8, l11, hpid]

/-- The tables after the `halt` of a root shell. -/
theorem halt_root_fields (s : State) :
    (halt_root s).open_pid = Function.update s.open_pid (s.cur.pid - 1) 0 ∧
    (halt_root s).num_process = s.num_process - 1 ∧
    (halt_root s).open_terminals = Function.update s.open_terminals s.cur.terminal_id 0 ∧
    (halt_root s).cur_terminal = s.cur_terminal :=
  ⟨rfl, rfl, rfl, rfl⟩

/-- The table `open_pid` after lines 81-86 of `halt`. -/
theorem halt_tables_open_pid (s : State) :
    (halt_tables s).open_pid = Function.update s.open_pid (s.cur.pid - 1) 0 := by
  have hpid : (update_parent_video
      (update_screen_x_y { s with num_process := s.num_process - 1 } s.current_pcb)
      s.current_pcb).cur.pid = s.cur.pid :=
    screen_sync_cur (fun q => q.pid) _ _ (fun _ _ _ => rfl)
  show Function.update s.open_pid ((update_parent_video
      (update_screen_x_y { s with num_process := s.num_process - 1 } s.current_pcb)
      s.current_pcb).cur.pid - 1) 0 = _
  rw [hpid]

/-- A store into a PCB that keeps a field keeps it in every PCB. -/
theorem modify_pcb_field {α : Type} (g : pcb_t → α) (s : State) (p : Nat)
    (f : pcb_t → pcb_t) (h : ∀ q, g (f q) = g q) (a : Nat) :
    g ((s.modify_pcb p f).pcbs a) = g (s.pcbs a) := by
  unfold State.modify_pcb
  dsimp only
  by_cases hp : a = p
  · rw [hp, Function.update_same, h]
  · rw [Function.update_noteq hp]

/-- Saving the cursor in a PCB and in its parent keeps every other field of every PCB. -/
theorem screen_sync_pcbs {α : Type} (g : pcb_t → α) (s : State) (cp a : Nat)
    (h : ∀ q x y, g { q with screen_x := x, screen_y := y } = g q) :
    g ((update_parent_video (update_screen_x_y s cp) cp).pcbs a) = g (s.pcbs a) := by
  unfold update_parent_video
  dsimp only
  rw [modify_pcb_field g _ _ _ (fun q => h q _ _)]
  unfold update_screen_x_y
  rw [modify_pcb_field g _ _ _ (fun q => h q _ _)]

/-- The PCBs other than that of the caller keep their pid, terminal and parent through
lines 81-86 of `halt`. -/
theorem halt_tables_pcbs_other (s : State) (a : Nat) (h2 : a ≠ get_pcb s.cur.pid) :
    ((halt_tables s).pcbs a).pid = (s.pcbs a).pid ∧
    ((halt_tables s).pcbs a).terminal_id = (s.pcbs a).terminal_id ∧
    ((halt_tables s).pcbs a).parent_pcb = (s.pcbs a).parent_pcb := by
  have hpid : (update_parent_video
      (update_screen_x_y { s with num_process := s.num_process - 1 } s.current_pcb)
      s.current_pcb).cur.pid = s.cur.pid :=
    screen_sync_cur (fun q => q.pid) _ _ (fun _ _ _ => rfl)
  have e : (halt_tables s).pcbs a =
      Function.update (update_parent_video
        (update_screen_x_y { s with num_process := s.num_process - 1 } s.current_pcb)
        s.current_pcb).pcbs
        (get_pcb (update_parent_video
          (update_screen_x_y { s with num_process := s.num_process - 1 } s.current_pcb)
          s.current_pcb).cur.pid)
        { ((update_parent_video
          (update_screen_x_y { s with num_process := s.num_process - 1 } s.current_pcb)
          s.current_pcb).pcbs (get_pcb (update_parent_video
          (update_screen_x_y { s with num_process := s.num_process - 1 } s.current_pcb)
          s.current_pcb).cur.pid)) with pid := 0 } a := rfl
  rw [e, hpid, Function.update_noteq h2]
  exact ⟨screen_sync_pcbs (fun q => q.pid) _ _ a (fun _ _ _ => rfl),
    screen_sync_pcbs (fun q => q.terminal_id) _ _ a (fun _ _ _ => rfl),
    screen_sync_pcbs (fun q => q.parent_pcb) _ _ a (fun _ _ _ => rfl)⟩

/-- The state to which a `halt` that is not that of a root shell jumps. -/
theorem halt_finish_fields (s : State) (status : Nat)
    (hroot : s.cur.pid ≠ s.open_terminals s.cur.terminal_id) :
    (halt s status).is_root = false ∧
    (halt s status).state.current_pcb = s.cur.parent_pcb ∧
    (halt s status).state.open_pid = Function.update s.open_pid (s.cur.pid - 1) 0 ∧
    (halt s status).state.num_process = s.num_process - 1 ∧
    (halt s status).state.cur_terminal = s.cur_terminal ∧
    (halt s status).state.open_terminals = s.open_terminals ∧
    (∀ a, a ≠ get_pcb s.cur.pid →
      ((halt s status).state.pcbs a).pid = (s.pcbs a).pid ∧
      ((halt s status).state.pcbs a).terminal_id = (s.pcbs a).terminal_id ∧
      ((halt s status).state.pcbs a).parent_pcb = (s.pcbs a).parent_pcb) := by
  obtain ⟨s', hs', _, h2, _, _, _, _, h7⟩ := halt_not_root_spec s status hroot
  have e := halt_not_root_eq s status hroot
  rw [e]
  refine ⟨rfl, ?_, ?_, ?_, rfl, rfl, ?_⟩
  · rw [hs'] at e
    injection e with _ _ _ e4
    show (update_pointers _ _ 1).current_pcb = _
    rw [← e4]
    exact h7
  · show (halt_tables { s with page_dir32 := user_page_entry s.cur.parent_pid
                               tss_esp0 := s.cur.parent_esp }).open_pid = _
    exact halt_tables_open_pid _
  · rw [hs'] at e
    injection e with _ _ _ e4
    show (update_pointers _ _ 1).num_process = _
    rw [← e4]
    exact h2
  · intro a h2
    exact halt_tables_pcbs_other { s with page_dir32 := user_page_entry s.cur.parent_pid
                                          tss_esp0 := s.cur.parent_esp } a h2

/-- A parent chain stays one when the PCBs of the list keep their parents. -/
theorem parent_chain_congr (s s' : State) : ∀ (l : List Int),
    (∀ r ∈ l, (s'.pcbs (get_pcb r)).parent_pcb = (s.pcbs (get_pcb r)).parent_pcb) →
    parent_chain s l → parent_chain s' l := by
  intro l
  induction l with
  | nil => intro _ _; trivial
  | cons p t ih =>
    cases t with
    | nil => intro _ _; trivial
    | cons q rest =>
      intro h hc
      exact ⟨by rw [h p (List.mem_cons_self _ _)]; exact hc.1,
        ih (fun r hr => h r (List.mem_cons_of_mem _ hr)) hc.2⟩

/-- The tail of a parent chain is one. -/
theorem parent_chain_tail (s : State) (p : Int) (l : List Int) (h : parent_chain s (p :: l)) :
    parent_chain s l := by
  cases l with
  | nil => trivial
  | cons q rest => exact h.2

/-- The last element of a list that is not empty belongs to it. -/
theorem getLast_getD_mem (q : Int) (l : List Int) : (q :: l).getLast?.getD 0 ∈ q :: l := by
  rw [List.getLast?_eq_getLast _ (List.cons_ne_nil q l)]
  exact List.getLast_mem _

/-- At boot no process is live. -/
theorem process_stack_boot (fs : Mem) (pcbs : Nat → pcb_t) (phys : Mem) :
    process_stack (boot_state fs pcbs phys) [] ∧ (boot_state fs pcbs phys).current_pcb = 0 := by
  have b1 : (boot_state fs pcbs phys).current_pcb = 0 := by
    simp [boot_state, switch_terminal_begin, init_state]
  have b2 : (boot_state fs pcbs phys).open_pid = fun _ => 0 := by
    simp [boot_state, switch_terminal_begin, init_state]
  have b3 : (boot_state fs pcbs phys).cur_terminal = 1 := by
    simp [boot_state, switch_terminal_begin, init_state]
  have b4 : (boot_state fs pcbs phys).open_terminals = fun _ => 0 := by
    simp [boot_state, switch_terminal_begin, init_state]
  have b5 : (boot_state fs pcbs phys).num_process = 1 := by
    simp [boot_state, switch_terminal_begin, init_state]
  refine ⟨⟨List.nodup_nil, fun p hp => absurd hp (List.not_mem_nil p), ?_, ?_, b3, ?_, ?_, trivial⟩,
    b1⟩
  · intro k _ _
    rw [b2]
    simp
  · rw [b5]
    rfl
  · rw [b4]
    rfl
  · rw [b4]
    exact ⟨rfl, rfl⟩

/-- An `execute` that returns at once leaves the live processes as they were. -/
theorem process_stack_returned (s : State) (command : List Nat) (fr : Frame) (r : Int)
    (s' : State) (h : execute s command fr = ExecResult.returned r s') (stack : List Int)
    (ps : process_stack s stack) : process_stack s' stack ∧ s'.current_pcb = s.current_pcb := by
  obtain ⟨h1, h2, h3, h4, _, _, h7⟩ := execute_returned_fields s command fr r s' h
  obtain ⟨_, _, h8⟩ := execute_returned_sched s command fr r s' h
  refine ⟨⟨ps.nodup, ?_, ?_, by rw [h8]; exact ps.num, by rw [h3]; exact ps.term,
    by rw [h4]; exact ps.root, by rw [h4]; exact ps.others, ?_⟩, h2⟩
  · intro p hp
    rw [h1]
    exact ps.live p hp
  · intro k hk0 hk5
    rcases h7 with e | ⟨j, hj, e⟩
    · rw [e]
      exact ps.table k hk0 hk5
    · obtain ⟨_, _, hne, _⟩ := pid_scan_some _ _ _ _ hj
      rw [e]
      by_cases hkj : k = j
      · rw [hkj, Function.update_same]
        have := ps.table j (by omega) (by omega)
        constructor
        · intro h0
          exact absurd h0 (by decide)
        · intro hm
          exact absurd (this.mpr hm) hne
      · rw [Function.update_noteq hkj]
        exact ps.table k hk0 hk5
  · exact parent_chain_congr s s' stack (fun r _ => by rw [h1]) ps.chain

/-- An `execute` that enters the new program puts its pid on top of the live
processes. -/
theorem process_stack_entered (s : State) (command : List Nat) (fr : Frame) (s' : State)
    (f : iret_t) (h : execute s command fr = ExecResult.entered s' f) (stack : List Int)
    (ps : process_stack s stack) (hcur : s.current_pcb = (stack.head?.map get_pcb).getD 0) :
    ∃ p, process_stack s' (p :: stack) ∧ s'.current_pcb = get_pcb p := by
  obtain ⟨k, hk, e1, e2, e3, e4, e5, e6, e7, e8, e9⟩ := execute_entered_fields s command fr s' f h
  obtain ⟨hk0, hk6, hne, _⟩ := pid_scan_some _ _ _ _ hk
  have hk5 : k ≤ 5 := by omega
  have hnotin : k + 1 ∉ stack := fun hm => hne ((ps.table k hk0 hk5).mpr hm)
  have hother : ∀ q ∈ stack, s'.pcbs (get_pcb q) = s.pcbs (get_pcb q) := by
    intro q hq
    obtain ⟨q1, q6, _, _⟩ := ps.live q hq
    apply e5
    intro heq
    have := get_pcb_inj q (k + 1) q1 q6 (by omega) (by omega) heq
    rw [this] at hq
    exact hnotin hq
  refine ⟨k + 1, ⟨List.nodup_cons.mpr ⟨hnotin, ps.nodup⟩, ?_, ?_, ?_, by rw [e8]; exact ps.term,
    ?_, ?_, ?_⟩, e1⟩
  · intro q hq
    rcases List.mem_cons.mp hq with hq | hq
    · rw [hq]
      exact ⟨by omega, by omega, e2, by rw [e3]; exact ps.term⟩
    · rw [hother q hq]
      exact ps.live q hq
  · intro j hj0 hj5
    rw [e6]
    by_cases hjk : j = k
    · rw [hjk, Function.update_same]
      simp
    · rw [Function.update_noteq hjk, ps.table j hj0 hj5, List.mem_cons]
      constructor
      · intro hm
        exact Or.inr hm
      · intro hm
        rcases hm with hm | hm
        · exact absurd (by omega) hjk
        · exact hm
  · rw [e7, ps.num, List.length_cons]
    push_cast
    ring
  · rw [e9, ps.term]
    cases stack with
    | nil =>
      have hr := ps.root
      rw [show ([] : List Int).getLast?.getD 0 = 0 from rfl] at hr
      rw [if_pos hr, Function.update_same]
      rfl
    | cons q rest =>
      have hm := getLast_getD_mem q rest
      rw [← ps.root] at hm
      obtain ⟨m1, _, _, _⟩ := ps.live _ hm
      rw [if_neg (by omega), List.getLast?_cons_cons]
      exact ps.root
  · rw [e9, ps.term]
    by_cases hz : s.open_terminals 1 = 0
    · rw [if_pos hz, Function.update_noteq (by decide), Function.update_noteq (by decide)]
      exact ps.others
    · rw [if_neg hz]
      exact ps.others
  · cases stack with
    | nil => trivial
    | cons q rest =>
      refine ⟨?_, parent_chain_congr s s' (q :: rest) (fun r hr => by rw [hother r hr]) ps.chain⟩
      rw [e4, hcur]
      rfl

/-- A `halt` called by the running process takes it off the live processes; the `halt`
of the last one, the root shell, finds no terminal open. -/
theorem process_stack_halt (s : State) (status : Nat) (stack : List Int)
    (ps : process_stack s stack) (hcur : s.current_pcb = (stack.head?.map get_pcb).getD 0)
    (hc : s.current_pcb ≠ 0) :
    ∃ rest, process_stack (halt s status).state rest ∧
      ((halt s status).is_root = true → rest = [] ∧
        ∀ s1 next, halt s status = HaltResult.root s1 next → next = none) ∧
      ((halt s status).is_root = false →
        (halt s status).state.current_pcb = (rest.head?.map get_pcb).getD 0) := by
  cases stack with
  | nil => exact absurd hcur hc
  | cons p rest =>
    have hcp : s.current_pcb = get_pcb p := hcur
    obtain ⟨p1, p6, ppid, ptid⟩ := ps.live p (List.mem_cons_self _ _)
    have hcurpid : s.cur.pid = p := by
      unfold State.cur
      rw [hcp]
      exact ppid
    have hcurtid : s.cur.terminal_id = 1 := by
      unfold State.cur
      rw [hcp]
      exact ptid
    have hnotin : p ∉ rest := (List.nodup_cons.mp ps.nodup).1
    by_cases hroot : s.cur.pid = s.open_terminals s.cur.terminal_id
    · have hrest : rest = [] := by
        cases rest with
        | nil => rfl
        | cons q r2 =>
          exfalso
          have hm := getLast_getD_mem q r2
          have hr := ps.root
          rw [List.getLast?_cons_cons] at hr
          rw [← hr, ← hcurtid, ← hroot, hcurpid] at hm
          exact hnotin hm
      have e : halt s status = HaltResult.root (halt_root s)
          (([1, 2, 3] : List Int).find?
            (fun pos => decide ((halt_root s).open_terminals pos ≠ 0))) := by
        unfold halt
        dsimp only
        rw [if_pos hroot]
      obtain ⟨r1, r2, r3, r4⟩ := halt_root_fields s
      have hot1 : (halt_root s).open_terminals 1 = 0 := by
        rw [r3, hcurtid, Function.update_same]
      have hot2 : (halt_root s).open_terminals 2 = 0 := by
        rw [r3, hcurtid, Function.update_noteq (by decide)]
        exact ps.others.1
      have hot3 : (halt_root s).open_terminals 3 = 0 := by
        rw [r3, hcurtid, Function.update_noteq (by decide)]
        exact ps.others.2
      rw [e]
      refine ⟨[], ⟨List.nodup_nil, fun q hq => absurd hq (List.not_mem_nil q), ?_, ?_,
        by rw [show (HaltResult.root (halt_root s) _).state = halt_root s from rfl, r4]; exact ps.term,
        hot1, ⟨hot2, hot3⟩, trivial⟩, ?_, ?_⟩
      · intro k hk0 hk5
        show (halt_root s).open_pid k = 1 ↔ _
        rw [r1, hcurpid]
        by_cases hkp : k = p - 1
        · rw [hkp, Function.update_same]
          simp
        · rw [Function.update_noteq hkp, ps.table k hk0 hk5, hrest]
          simp only [List.mem_singleton, List.not_mem_nil, iff_false]
          omega
      · show (halt_root s).num_process = _
        rw [r2, ps.num, hrest]
        rfl
      · intro _
        refine ⟨rfl, ?_⟩
        intro s1 next h
        injection h with _ h2
        rw [← h2]
        simp [hot1, hot2, hot3]
      · intro h
        exact absurd (show true = false from h) (by decide)
    · obtain ⟨g1, g2, g3, g4, g5, g6, g7⟩ := halt_finish_fields s status hroot
      cases rest with
      | nil =>
        exfalso
        apply hroot
        rw [hcurpid, hcurtid, ps.root]
        rfl
      | cons q r2 =>
        have hother : ∀ x ∈ q :: r2,
            ((halt s status).state.pcbs (get_pcb x)).pid = (s.pcbs (get_pcb x)).pid ∧
            ((halt s status).state.pcbs (get_pcb x)).terminal_id =
              (s.pcbs (get_pcb x)).terminal_id ∧
            ((halt s status).state.pcbs (get_pcb x)).parent_pcb =
              (s.pcbs (get_pcb x)).parent_pcb := by
          intro x hx
          obtain ⟨x1, x6, _, _⟩ := ps.live x (List.mem_cons_of_mem _ hx)
          apply g7
          rw [hcurpid]
          intro heq
          have := get_pcb_inj x p x1 x6 p1 p6 heq
          rw [this] at hx
          exact hnotin hx
        refine ⟨q :: r2, ⟨(List.nodup_cons.mp ps.nodup).2, ?_, ?_, ?_, by rw [g5]; exact ps.term,
          ?_, by rw [g6]; exact ps.others, ?_⟩, ?_, ?_⟩
        · intro x hx
          obtain ⟨x1, x6, xp, xt⟩ := ps.live x (List.mem_cons_of_mem _ hx)
          obtain ⟨o1, o2, _⟩ := hother x hx
          exact ⟨x1, x6, by rw [o1]; exact xp, by rw [o2]; exact xt⟩
        · intro k hk0 hk5
          rw [g3, hcurpid]
          by_cases hkp : k = p - 1
          · rw [hkp, Function.update_same]
            constructor
            · intro h0
              exact absurd h0 (by decide)
            · intro hm
              rw [show p - 1 + 1 = p by omega] at hm
              exact absurd hm hnotin
          · rw [Function.update_noteq hkp, ps.table k hk0 hk5, List.mem_cons]
            constructor
            · intro hm
              rcases hm with hm | hm
              · exact absurd (by omega) hkp
              · exact hm
            · intro hm
              exact Or.inr hm
        · rw [g4, ps.num, List.length_cons]
          push_cast
          ring
        · rw [g6, ps.root, List.getLast?_cons_cons]
        · exact parent_chain_congr s _ (q :: r2) (fun x hx => (hother x hx).2.2)
            (parent_chain_tail s p _ ps.chain)
        · intro h
          rw [g1] at h
          exact absurd h (by decide)
        · intro _
          rw [g2]
          unfold State.cur
          rw [hcp]
          exact ps.chain.1

/-- Every state reachable through `execute` and `halt` has its stack of live processes,
which is empty once the root shell has halted; before that the running process is on
top, and there is no current PCB when the stack is empty. -/
theorem reachable_exec_stack (s : State) (b : Bool) (h : ReachableExec s b) :
    ∃ stack, process_stack s stack ∧ (b = true → stack = []) ∧
      (b = false → s.current_pcb = (stack.head?.map get_pcb).getD 0) := by
  induction h with
  | boot fs pcbs phys =>
    obtain ⟨h1, h2⟩ := process_stack_boot fs pcbs phys
    exact ⟨[], h1, fun _ => rfl, fun _ => h2⟩
  | exec s command fr _ ih =>
    obtain ⟨stack, ps, _, hcur⟩ := ih
    have hcur := hcur rfl
    cases hx : execute s command fr with
    | returned r s' =>
      obtain ⟨h1, h2⟩ := process_stack_returned s command fr r s' hx stack ps
      exact ⟨stack, h1, fun hb => absurd hb (by decide), fun _ => by
        rw [show (ExecResult.returned r s').state = s' from rfl, h2]; exact hcur⟩
    | entered s' f =>
      obtain ⟨p, h1, h2⟩ := process_stack_entered s command fr s' f hx stack ps hcur
      exact ⟨p :: stack, h1, fun hb => absurd hb (by decide), fun _ => h2⟩
    | off_table s' =>
      have e : s' = s := by
        unfold execute at hx
        dsimp only at hx
        by_cases h1 : s.num_process > 6
        · rw [if_pos h1] at hx
          exact absurd hx (by simp)
        · rw [if_neg h1] at hx
          by_cases h2 : (is_valid_cmd s.fs blank_dentry (some (split_command command fr.args).1)
              fr.buf).1 = -1
          · rw [if_pos h2] at hx
            exact absurd hx (by simp)
          · rw [if_neg h2] at hx
            cases hk : pid_scan s.open_pid 6 0 with
            | none =>
              rw [hk] at hx
              injection hx with h3
              exact h3.symm
            | some k =>
              rw [hk] at hx
              dsimp only at hx
              unfold execute_load at hx
              dsimp only at hx
              split_ifs at hx
      rw [show (ExecResult.off_table s').state = s' from rfl, e]
      exact ⟨stack, ps, fun hb => absurd hb (by decide), fun _ => hcur⟩
  | halt s status _ hc ih =>
    obtain ⟨stack, ps, _, hcur⟩ := ih
    obtain ⟨rest, h1, h2, h3⟩ := process_stack_halt s status stack ps (hcur rfl) hc
    exact ⟨rest, h1, fun hb => (h2 hb).1, h3⟩

/-- The entries of `open_pid[0..5]` that are 1 are as many as the live processes. -/
theorem process_stack_count (s : State) (stack : List Int) (ps : process_stack s stack) :
    live_processes s = stack.length := by
  unfold live_processes
  have hnd : (((List.range 6).filter (fun (k : Nat) => decide (s.open_pid (k : Int) = 1))).map
      (fun (k : Nat) => (k : Int) + 1)).Nodup := by
    apply List.Nodup.map
    · intro a b hab
      simp only at hab
      omega
    · exact (List.nodup_range 6).filter _
  have hperm : (((List.range 6).filter (fun (k : Nat) => decide (s.open_pid (k : Int) = 1))).map
      (fun (k : Nat) => (k : Int) + 1)).Perm stack := by
    rw [List.perm_ext_iff_of_nodup hnd ps.nodup]
    intro a
    simp only [List.mem_map, List.mem_filter, List.mem_range, decide_eq_true_eq]
    constructor
    · rintro ⟨k, ⟨hk6, hk1⟩, rfl⟩
      exact (ps.table k (by omega) (by omega)).mp hk1
    · intro ha
      obtain ⟨a1, a6, _, _⟩ := ps.live a ha
      refine ⟨(a - 1).toNat, ⟨by omega, ?_⟩, by omega⟩
      rw [show (((a - 1).toNat : Nat) : Int) = a - 1 by omega]
      exact (ps.table (a - 1) (by omega) (by omega)).mpr (by rw [show a - 1 + 1 = a by omega]; exact ha)
  rw [← hperm.length_eq, List.length_map]

/-- The scan of `open_pid` stops when one of the entries it looks at is not 1. -/
theorem pid_scan_finds (f : Int → Int) : ∀ (n : Nat) (i : Int),
    (∃ k : Nat, k < n ∧ f (i + k) ≠ 1) → ∃ k', pid_scan f n i = some k' := by
  intro n
  induction n with
  | zero =>
    rintro i ⟨k, hk, _⟩
    omega
  | succ m ih =>
    rintro i ⟨k, hk, hf⟩
    unfold pid_scan
    by_cases h1 : f i = 1
    · rw [if_pos h1]
      cases k with
      | zero =>
        rw [show i + ((0 : Nat) : Int) = i by simp] at hf
        exact absurd h1 hf
      | succ j =>
        apply ih (i + 1)
        refine ⟨j, by omega, ?_⟩
        rw [show i + 1 + (j : Int) = i + ((j + 1 : Nat) : Int) by push_cast; ring]
        exact hf
    · rw [if_neg h1]
      exact ⟨i, rfl⟩

/-- With at most five live processes the scan of `open_pid` stops inside the table. -/
theorem process_stack_scan (s : State) (stack : List Int) (ps : process_stack s stack)
    (h : ¬ s.num_process > 6) : ∃ k, pid_scan s.open_pid 6 0 = some k ∧ 0 ≤ k ∧ k ≤ 5 := by
  have hlen : stack.length ≤ 5 := by
    have := ps.num
    omega
  have hex : ∃ k : Nat, k < 6 ∧ s.open_pid (0 + (k : Int)) ≠ 1 := by
    by_contra hno
    push_neg at hno
    have hall : (List.range 6).filter (fun (k : Nat) => decide (s.open_pid (k : Int) = 1)) =
        List.range 6 := by
      rw [List.filter_eq_self]
      intro k hk
      have := hno k (List.mem_range.mp hk)
      rw [Int.zero_add] at this
      exact decide_eq_true this
    have hc := process_stack_count s stack ps
    unfold live_processes at hc
    rw [hall, List.length_range] at hc
    omega
  obtain ⟨k, hk⟩ := pid_scan_finds s.open_pid 6 0 hex
  obtain ⟨h0, h6, _, _⟩ := pid_scan_some _ _ _ _ hk
  exact ⟨k, hk, h0, by omega⟩

/-! ## The claims -/

/-- C1, evaluated where the code departs from it: in `two_block_fs` the file of inode 0 has
4100 bytes, its block pointers 0 and 1 name data blocks 0 and 1, and byte 4096 of the
file is 22 (the first byte of data block 1). `read_data(0, 4096, buf, 1)` returns 1 and
stores 11 in `buf[0]`, the first byte of data block 0: while it skips the blocks before
the offset it does not advance the block pointer it reads. -/
theorem read_data_offset_second_block :
    file_size two_block_fs 0 = 4100 ∧
    block_pointer two_block_fs 0 0 = 0 ∧ block_pointer two_block_fs 0 1 = 1 ∧
    file_byte two_block_fs 0 4096 = 22 ∧
    (read_data two_block_fs 0 4096 (fun _ => 0) 1).1 = 1 ∧
    (read_data two_block_fs 0 4096 (fun _ => 0) 1).2 0 = 11 := by
  decide!

/-- C2, evaluated where the code departs from it: `frame0.txt` of `demo_fs` has 16 bytes
and `open` gives it fd 2. The first `read(2, buf, 16)` returns 16, so the counts have
reached the size of the file; the read issued then returns 16 again, not 0, copies the
bytes that follow the file in its data block, and leaves the eof flag of the slot 0. -/
theorem read_chunk_equal_to_size :
    (sys_open demo_shell (some (cstr str_frame0))).1 = 2 ∧
    (demo_opened.cur.file_array 2).f_dentry.file_type = 2 ∧
    file_size demo_fs (demo_opened.cur.file_array 2).f_dentry.inode_num = 16 ∧
    (read demo_opened 2 (fun _ => 0) 16).retval = some 16 ∧
    (read (read demo_opened 2 (fun _ => 0) 16).state 2 (fun _ => 0) 16).retval = some 16 ∧
    bytes_of ((read (read demo_opened 2 (fun _ => 0) 16).state 2 (fun _ => 0) 16).buf
      (fun _ => 0)) 4 = [17, 18, 19, 20] ∧
    ((read (read demo_opened 2 (fun _ => 0) 16).state 2 (fun _ => 0) 16).state.cur.file_array
      2).eof = 0 := by
  decide!

/-- C3, evaluated where the code departs from it: the file of inode 3 of `demo_fs` has 16
bytes; `read_data(3, 16, buf, 4)`, a read at the end of the file, returns 4 and copies
into `buf` the four bytes 17, 18, 19, 20 that follow the file in its data block. -/
theorem read_data_at_end_of_file :
    file_size demo_fs 3 = 16 ∧
    (read_data demo_fs 3 16 (fun _ => 0) 4).1 = 4 ∧
    bytes_of (read_data demo_fs 3 16 (fun _ => 0) 4).2 4 = [17, 18, 19, 20] := by
  decide!

/-- C4: when `execute` enters the new program from a state whose current PCB, if any, is
the PCB of an allocated pid, the pid `p` of the child is the smallest in 1..6 whose
`open_pid` entry is not 1; afterwards `open_pid[p-1]` is 1 and no other entry has changed,
the child's `terminal_id` is the current terminal, its `parent_pid` is the pid of the
caller (0 when `current_pcb` was `NULL`), `active_process[cur_terminal]` is `p`, and
`open_terminals[cur_terminal]` is `p` if it was 0 and unchanged otherwise. In particular,
for every image, the first `execute` that succeeds from the boot state gives pid 1,
parent 0, terminal 1 and `open_pid = [1,0,0,0,0,0]`, and an `execute` that succeeds from
there gives pid 2, parent 1 and `active_process[1] = 2`. -/
theorem execute_allocates_lowest_pid :
    (∀ (s : State) (command : List Nat) (fr : Frame) (s' : State) (f : iret_t),
      (s.current_pcb = 0 ∨
        (1 ≤ s.cur.pid ∧ s.cur.pid ≤ 6 ∧ s.current_pcb = get_pcb s.cur.pid ∧
          s.open_pid (s.cur.pid - 1) = 1)) →
      execute s command fr = ExecResult.entered s' f →
      ∃ p : Int, 1 ≤ p ∧ p ≤ 6 ∧ s.open_pid (p - 1) ≠ 1 ∧
        (∀ q : Int, 1 ≤ q → q < p → s.open_pid (q - 1) = 1) ∧
        s'.current_pcb = get_pcb p ∧ s'.cur.pid = p ∧
        s'.open_pid (p - 1) = 1 ∧ (∀ q : Int, q ≠ p - 1 → s'.open_pid q = s.open_pid q) ∧
        s'.cur.terminal_id = s.cur_terminal ∧
        s'.cur.parent_pid = (if s.current_pcb = 0 then 0 else s.cur.pid) ∧
        s'.cur_terminal = s.cur_terminal ∧
        s'.active_process s.cur_terminal = p ∧
        (∀ t : Int, t ≠ s.cur_terminal → s'.active_process t = s.active_process t) ∧
        s'.open_terminals s.cur_terminal =
          (if s.open_terminals s.cur_terminal = 0 then p
           else s.open_terminals s.cur_terminal) ∧
        (∀ t : Int, t ≠ s.cur_terminal → s'.open_terminals t = s.open_terminals t)) ∧
    (∀ (fs : Mem) (pcbs : Nat → pcb_t) (phys : Mem) (command : List Nat) (fr : Frame)
        (s' : State) (f : iret_t),
      execute (boot_state fs pcbs phys) command fr = ExecResult.entered s' f →
      s'.cur.pid = 1 ∧ s'.cur.parent_pid = 0 ∧ s'.cur.terminal_id = 1 ∧
      (List.range 6).map (fun i => s'.open_pid (i : Int)) = [1, 0, 0, 0, 0, 0] ∧
      ∀ (command2 : List Nat) (fr2 : Frame) (s'' : State) (f2 : iret_t),
        execute s' command2 fr2 = ExecResult.entered s'' f2 →
        s''.cur.pid = 2 ∧ s''.cur.parent_pid = 1 ∧ s''.active_process 1 = 2) := by
  refine ⟨execute_entered_spec, ?_⟩
  intro fs pcbs phys command fr s' f h
  have b1 : (boot_state fs pcbs phys).current_pcb = 0 := by
    simp [boot_state, switch_terminal_begin, init_state]
  have b2 : (boot_state fs pcbs phys).open_pid = fun _ => 0 := by
    simp [boot_state, switch_terminal_begin, init_state]
  have b3 : (boot_state fs pcbs phys).cur_terminal = 1 := by
    simp [boot_state, switch_terminal_begin, init_state]
  obtain ⟨p, p1, p6, -, pall, c1, c2, c3, c4, c5, c6, c7, -, -, -, -⟩ :=
    execute_entered_spec _ command fr s' f (Or.inl b1) h
  have hp : p = 1 := by
    by_contra hne
    have := pall 1 (le_refl _) (by omega)
    rw [b2] at this
    simp at this
  subst hp
  rw [b3] at c5 c7
  rw [if_pos b1] at c6
  have z : ∀ q : Int, q ≠ 0 → s'.open_pid q = 0 := by
    intro q hq
    rw [c4 q (by simpa using hq), b2]
  have c3' : s'.open_pid 0 = 1 := by simpa using c3
  refine ⟨c2, c6, c5, ?_, ?_⟩
  · simp [List.range, List.range.loop, c3', z]
  · intro command2 fr2 s'' f2 h2
    obtain ⟨p2, q1, q6, qfree, qall, -, d2, -, -, -, d6, -, d8, -, -, -⟩ :=
      execute_entered_spec s' command2 fr2 s'' f2
        (Or.inr ⟨by rw [c2], by rw [c2]; norm_num, by rw [c2]; exact c1, by rw [c2]; simpa using c3⟩)
        h2
    have hp2 : p2 = 2 := by
      by_contra hne
      have hlt : 2 < p2 ∨ p2 = 1 := by omega
      rcases hlt with hlt | hlt
      · have := qall 2 (by norm_num) hlt
        rw [z _ (by norm_num)] at this
        simp at this
      · rw [hlt] at qfree
        exact qfree (by simpa using c3)
    subst hp2
    have hne : s'.current_pcb ≠ 0 := by rw [c1]; exact get_pcb_ne_zero 1 (by norm_num) (by norm_num)
    rw [if_neg hne, c2] at d6
    rw [c7] at d8
    exact ⟨d2, d6, d8⟩

/-- Witness of C4 on `demo_fs`: `execute("shell")` from the boot state enters the shell
with pid 1, parent 0, terminal 1 and `open_pid = [1,0,0,0,0,0]`, and `execute("ls")` from
there enters `ls` with pid 2, parent 1 and `active_process[1] = 2`. -/
theorem execute_allocates_lowest_pid_witness :
    execute demo_boot str_shell demo_frame =
      ExecResult.entered demo_shell ⟨USER_DS, 0x8400000, 0x202, USER_CS, 0x08048010, USER_DS⟩ ∧
    execute demo_shell str_ls demo_frame =
      ExecResult.entered demo_ls ⟨USER_DS, 0x8400000, 0x202, USER_CS, 0x08048020, USER_DS⟩ ∧
    demo_shell.cur.pid = 1 ∧ demo_shell.cur.parent_pid = 0 ∧ demo_shell.cur.terminal_id = 1 ∧
    (List.range 6).map (fun i => demo_shell.open_pid (i : Int)) = [1, 0, 0, 0, 0, 0] ∧
    demo_ls.cur.pid = 2 ∧ demo_ls.cur.parent_pid = 1 ∧ demo_ls.active_process 1 = 2 :=
  have h1 : execute demo_boot str_shell demo_frame =
      ExecResult.entered demo_shell ⟨USER_DS, 0x8400000, 0x202, USER_CS, 0x08048010, USER_DS⟩ :=
    entered_of_frame _ _ (by decide!)
  have h2 : execute demo_shell str_ls demo_frame =
      ExecResult.entered demo_ls ⟨USER_DS, 0x8400000, 0x202, USER_CS, 0x08048020, USER_DS⟩ :=
    entered_of_frame _ _ (by decide!)
  have w := execute_allocates_lowest_pid.2 demo_fs (fun _ => blank_pcb) (fun _ => 0) str_shell
    demo_frame demo_shell _ h1
  ⟨h1, h2, w.1, w.2.1, w.2.2.1, w.2.2.2.1, w.2.2.2.2 str_ls demo_frame demo_ls _ h2⟩

/-- C5: for every command string (the bytes of `command` before its terminator), with
`name` the text before the first space and `rest` everything after the first space,
`execute` leaves in `com` the C string `name`, which is the program name it looks up, and
in `args` the C string `rest` with its terminator (the empty string when there is no
space); when `execute` enters the new program, the `args` of the child's PCB hold `rest`
followed by the terminator. So `cat frame0.txt` saves `frame0.txt` and `ls` saves the
empty string. -/
theorem execute_splits_at_first_space (command : List Nat) :
    (∀ args0 : Mem,
      strcpy_bytes (split_command command args0).1 (strlen command + 1) 0 =
        (command.takeWhile (fun c => c ≠ 0)).takeWhile (fun c => c ≠ 32) ++ [0] ∧
      strcpy_bytes (split_command command args0).2 (strlen command + 1) 0 =
        (command.takeWhile (fun c => c ≠ 0)).drop
          (((command.takeWhile (fun c => c ≠ 0)).takeWhile (fun c => c ≠ 32)).length + 1)
          ++ [0]) ∧
    (∀ (s : State) (fr : Frame) (s' : State) (f : iret_t),
      execute s command fr = ExecResult.entered s' f →
      s'.cur.args =
        (command.takeWhile (fun c => c ≠ 0)).drop
          (((command.takeWhile (fun c => c ≠ 0)).takeWhile (fun c => c ≠ 32)).length + 1)
          ++ [0]) ∧
    (command = str_cat_frame0 →
      ∀ (s : State) (fr : Frame) (s' : State) (f : iret_t),
        execute s command fr = ExecResult.entered s' f → s'.cur.args = str_frame0 ++ [0]) ∧
    (command = str_ls →
      ∀ (s : State) (fr : Frame) (s' : State) (f : iret_t),
        execute s command fr = ExecResult.entered s' f → s'.cur.args = [0]) := by
  have key : ∀ (s : State) (fr : Frame) (s' : State) (f : iret_t),
      execute s command fr = ExecResult.entered s' f →
      s'.cur.args =
        (command.takeWhile (fun c => c ≠ 0)).drop
          (((command.takeWhile (fun c => c ≠ 0)).takeWhile (fun c => c ≠ 32)).length + 1)
          ++ [0] := by
    intro s fr s' f h
    obtain ⟨k, e, -, hs'⟩ := execute_entered s command fr s' f h
    rw [hs', (execute_start_fields _ _ _ _ _).2.2.2.2.2.2.2.2.2.2.1]
    exact (split_command_spec command fr.args).2
  refine ⟨fun args0 => split_command_spec command args0, key, ?_, ?_⟩
  · intro hc s fr s' f h
    rw [key s fr s' f h, hc]
    decide
  · intro hc s fr s' f h
    rw [key s fr s' f h, hc]
    decide

/-- Witness of C5 on `demo_fs`: `execute("cat frame0.txt")` from the shell enters `cat`,
and the `args` of its PCB are `frame0.txt` followed by the terminator. -/
theorem execute_splits_at_first_space_witness :
    execute demo_shell str_cat_frame0 demo_frame =
      ExecResult.entered (execute demo_shell str_cat_frame0 demo_frame).state
        ⟨USER_DS, 0x8400000, 0x202, USER_CS, 0x08048020, USER_DS⟩ ∧
    (execute demo_shell str_cat_frame0 demo_frame).state.cur.args = str_frame0 ++ [0] :=
  have h : execute demo_shell str_cat_frame0 demo_frame =
      ExecResult.entered (execute demo_shell str_cat_frame0 demo_frame).state
        ⟨USER_DS, 0x8400000, 0x202, USER_CS, 0x08048020, USER_DS⟩ :=
    entered_of_frame _ _ (by decide!)
  ⟨h, (execute_splits_at_first_space str_cat_frame0).2.2.1 rfl demo_shell demo_frame _ _ h⟩

/-- C6 as stated fails: in `demo_six`, reached from boot by six calls of `execute("shell")`,
six processes are live (`num_process` is 7 and every entry of `open_pid` is 1), and
`execute("ls")` returns 0, not -1. -/
theorem execute_six_live_returns_zero :
    demo_six.num_process = 7 ∧
    (List.range 6).map (fun i => demo_six.open_pid (i : Int)) = [1, 1, 1, 1, 1, 1] ∧
    (execute demo_six str_ls demo_frame).retval = some 0 ∧
    (execute demo_six str_ls demo_frame).retval ≠ some (-1) := by
  decide!

/-- C6, amended: when `num_process` is above 6 (it starts at 1 and counts the live
processes plus one, so this is six live processes), `execute` returns 0 for every
command and leaves the whole state as it was: no process is created. -/
theorem execute_full_returns_zero (s : State) (command : List Nat) (fr : Frame)
    (h : 6 < s.num_process) : execute s command fr = ExecResult.returned 0 s := by
  unfold execute
  rw [if_pos h]

/-- Witness of the amended C6 in `demo_six`. -/
theorem execute_full_returns_zero_witness :
    6 < demo_six.num_process ∧
    execute demo_six str_ls demo_frame = ExecResult.returned 0 demo_six :=
  ⟨by decide!, execute_full_returns_zero demo_six str_ls demo_frame (by decide!)⟩

/-- C7, evaluated where the code departs from it: in `demo_fs` the name `empty` has a
directory entry (a regular file on inode 0), and the file has 0 bytes, so its first four
bytes are not the ELF magic number. `is_valid_cmd` returns 1 all the same: `read_data`
copies the first four bytes of the data block that block pointer 0 names, past the end of
the file, and they are `0x7F 'E' 'L' 'F'`. `execute("empty")` from the shell does not
return -1: it enters the new program as pid 2 and `num_process` goes from 2 to 3. -/
theorem execute_empty_file_is_run :
    read_dentry_by_name demo_fs (some (cstr str_empty)) (some blank_dentry) =
      (0, some ⟨str_empty ++ List.replicate 27 0, 2, 0⟩) ∧
    file_size demo_fs 0 = 0 ∧
    (is_valid_cmd demo_fs blank_dentry (some (cstr str_empty)) (fun _ => 0)).1 = 1 ∧
    (execute demo_shell str_empty demo_frame).retval = none ∧
    (execute demo_shell str_empty demo_frame).frame =
      some ⟨USER_DS, 0x8400000, 0x202, USER_CS, 0, USER_DS⟩ ∧
    demo_shell.num_process = 2 ∧
    (execute demo_shell str_empty demo_frame).state.num_process = 3 ∧
    (execute demo_shell str_empty demo_frame).state.cur.pid = 2 := by
  decide!

/-- C8: when the caller of `halt(status)` is not the root shell of its terminal, `halt`
jumps to `finishHalt` on the kernel stack saved in the caller's PCB with the value
`status & 0xFF`, which the `execute` that started the caller then returns; the caller's
`open_pid` entry is 0, `num_process` is one less, `active_process` of the caller's
terminal is the parent's pid, `page_dir[32]` is the entry of the parent's pid (whose
physical window is `8 MiB + 4 MiB * (pid - 1)` for a pid in 1..6), `tss.esp0` is the
`parent_esp` of the caller's PCB and the current PCB is its `parent_pcb`. Those PCB
fields are what `execute` saved: the stack and base pointer at the call, `tss.esp0` at
that time and the PCB that was current. Hence an `execute` followed by the `halt` of the
child gives back the `tss.esp0`, current PCB and `num_process` from before the
`execute`. -/
theorem halt_returns_to_parent :
    (∀ (s : State) (status : Nat), s.cur.pid ≠ s.open_terminals s.cur.terminal_id →
      ∃ s', halt s status =
          HaltResult.finishHalt ((status &&& 0xFF : Nat) : Int) s.cur.k_esp s.cur.k_ebp s' ∧
        s'.open_pid (s.cur.pid - 1) = 0 ∧
        s'.num_process = s.num_process - 1 ∧
        s'.active_process s.cur.terminal_id = s.cur.parent_pid ∧
        s'.page_dir32 = user_page_entry s.cur.parent_pid ∧
        (1 ≤ s.cur.parent_pid → s.cur.parent_pid ≤ 6 →
          user_base s' = 0x800000 + 0x400000 * (s.cur.parent_pid - 1).toNat) ∧
        s'.tss_esp0 = s.cur.parent_esp ∧
        s'.current_pcb = s.cur.parent_pcb) ∧
    (∀ (s : State) (command : List Nat) (fr : Frame) (s' : State) (f : iret_t),
      execute s command fr = ExecResult.entered s' f →
      s'.cur.k_esp = fr.esp ∧ s'.cur.k_ebp = fr.ebp ∧
      s'.cur.parent_esp = s.tss_esp0 ∧ s'.cur.parent_pcb = s.current_pcb) ∧
    (∀ (s : State) (command : List Nat) (fr : Frame) (s' : State) (f : iret_t) (status : Nat),
      execute s command fr = ExecResult.entered s' f →
      s'.cur.pid ≠ s'.open_terminals s'.cur.terminal_id →
      ∃ s'', halt s' status =
          HaltResult.finishHalt ((status &&& 0xFF : Nat) : Int) fr.esp fr.ebp s'' ∧
        s''.tss_esp0 = s.tss_esp0 ∧ s''.current_pcb = s.current_pcb ∧
        s''.num_process = s.num_process) := by
  have hB : ∀ (s : State) (command : List Nat) (fr : Frame) (s' : State) (f : iret_t),
      execute s command fr = ExecResult.entered s' f →
      s'.cur.k_esp = fr.esp ∧ s'.cur.k_ebp = fr.ebp ∧
      s'.cur.parent_esp = s.tss_esp0 ∧ s'.cur.parent_pcb = s.current_pcb ∧
      s'.num_process = s.num_process + 1 := by
    intro s command fr s' f h
    obtain ⟨k, e, -, hs'⟩ := execute_entered s command fr s' f h
    obtain ⟨-, -, -, -, -, -, g7, g8, g9, g10, -, -, g13, -, -, -, -, -⟩ :=
      execute_start_fields
        (load_image
          { s with
            open_pid := Function.update s.open_pid k 1
            page_dir32 := if s.current_pcb ≠ 0 then user_page_entry (k + 1) else s.page_dir32 }
          e (k + 1)).s
        (get_pcb (k + 1)) command (split_command command fr.args).2 fr
    rw [← hs'] at g7 g8 g9 g10 g13
    obtain ⟨-, -, -, l4, -, l6, -, -, l9, -, -⟩ := load_image_spec
      { s with
        open_pid := Function.update s.open_pid k 1
        page_dir32 := if s.current_pcb ≠ 0 then user_page_entry (k + 1) else s.page_dir32 }
      e (k + 1)
    rw [l4] at g7
    rw [l9] at g8
    rw [l6] at g13
    exact ⟨g9, g10, g8, g7, g13⟩
  refine ⟨halt_not_root_spec, fun s command fr s' f h => ?_, ?_⟩
  · obtain ⟨a, b, c, d, -⟩ := hB s command fr s' f h
    exact ⟨a, b, c, d⟩
  · intro s command fr s' f status h hroot
    obtain ⟨a, b, c, d, e⟩ := hB s command fr s' f h
    obtain ⟨s'', h1, -, h3, -, -, -, h7, h8⟩ := halt_not_root_spec s' status hroot
    rw [a, b] at h1
    exact ⟨s'', h1, by rw [h7, c], by rw [h8, d], by rw [h3, e]; ring⟩

/-- Witness of C8 in `demo_ls`: `ls` (pid 2) is not the root shell of terminal 1, and its
`halt(259)` hands 3, the low byte of 259, to `finishHalt`. -/
theorem halt_returns_to_parent_witness :
    demo_ls.cur.pid ≠ demo_ls.open_terminals demo_ls.cur.terminal_id ∧
    (halt demo_ls 259).retval = some 3 ∧
    (halt demo_ls 259).state.current_pcb = get_pcb 1 :=
  have hroot : demo_ls.cur.pid ≠ demo_ls.open_terminals demo_ls.cur.terminal_id := by decide!
  ⟨hroot,
    (halt_returns_to_parent.1 demo_ls 259 hroot).elim (fun _ h => by rw [h.1]; rfl),
    by decide!⟩

/-- C9: for a process whose file table the globals `file_array` and `used_desc` point
to, `open(name)` returns the smallest fd in 2..7 whose used flag is not 1, sets the used
flag of that slot to 1, its position and eof flag to 0 and its directory entry to the one
`read_dentry_by_name` found for the name, and leaves the used flag and the file of every
other slot as they were; it returns -1 exactly when `read_dentry_by_name` returns -1 (the
name has no directory entry) or the used flags of slots 2..7 are all 1, and then it leaves
the whole state as it was. -/
theorem open_lowest_free_slot (s : State) (filename : Option Mem)
    (hfa : s.file_array = s.current_pcb) (hud : s.used_desc = s.current_pcb) :
    ((sys_open s filename).1 = -1 ↔
      ((read_dentry_by_name s.fs filename (some blank_dentry)).1 = -1 ∨
        ∀ pos : Int, 2 ≤ pos → pos ≤ 7 → s.cur.used_desc pos = 1)) ∧
    ((sys_open s filename).1 = -1 → (sys_open s filename).2 = s) ∧
    ((sys_open s filename).1 ≠ -1 →
      2 ≤ (sys_open s filename).1 ∧ (sys_open s filename).1 ≤ 7 ∧
      s.cur.used_desc (sys_open s filename).1 ≠ 1 ∧
      (∀ pos : Int, 2 ≤ pos → pos < (sys_open s filename).1 → s.cur.used_desc pos = 1) ∧
      (sys_open s filename).2.cur.used_desc (sys_open s filename).1 = 1 ∧
      ((sys_open s filename).2.cur.file_array (sys_open s filename).1).f_pos = 0 ∧
      ((sys_open s filename).2.cur.file_array (sys_open s filename).1).eof = 0 ∧
      ((sys_open s filename).2.cur.file_array (sys_open s filename).1).f_dentry =
        (read_dentry_by_name s.fs filename (some blank_dentry)).2.getD blank_dentry ∧
      ∀ k : Int, k ≠ (sys_open s filename).1 →
        (sys_open s filename).2.cur.used_desc k = s.cur.used_desc k ∧
        (sys_open s filename).2.cur.file_array k = s.cur.file_array k) := by
  have hcur : s.pcbs s.used_desc = s.cur := by rw [hud]; rfl
  by_cases hr : (read_dentry_by_name s.fs filename (some blank_dentry)).1 = -1
  · have h := sys_open_fail s filename (Or.inl hr)
    rw [h]
    exact ⟨⟨fun _ => Or.inl hr, fun _ => rfl⟩, fun _ => rfl, fun hne => absurd rfl hne⟩
  · rcases open_scan_cases s.cur.used_desc 6 2 (by norm_num) with ⟨h0, hall⟩ | ⟨h1, h2, h3, h4⟩
    · have h := sys_open_fail s filename (Or.inr (by rw [hcur]; exact h0))
      rw [h]
      refine ⟨⟨fun _ => Or.inr ?_, fun _ => rfl⟩, fun _ => rfl, fun hne => absurd rfl hne⟩
      intro pos hp1 hp2
      exact hall pos hp1 (by norm_num; omega)
    · have hfd : open_scan s.cur.used_desc 6 2 ≠ 0 := by omega
      obtain ⟨e1, e2, e3, -, -⟩ := sys_open_ok_cur s filename hfa hud hr hfd
      rw [e1, e2, e3]
      have hne : open_scan s.cur.used_desc 6 2 ≠ -1 := by omega
      refine ⟨⟨fun h => absurd h hne, ?_⟩, fun h => absurd h hne, fun _ => ?_⟩
      · rintro (h | h)
        · exact absurd h hr
        · exact absurd (h _ h1 (by norm_num at h2; omega)) h3
      · refine ⟨h1, by norm_num at h2; omega, h3, h4, ?_, ?_, ?_, ?_, ?_⟩
        · simp
        · simp [open_file]
        · simp [open_file]
        · simp [open_file]
        · intro k hk
          simp [Function.update_noteq hk]

/-- Witness of C9 in `demo_shell`: the globals point to the shell's file table,
`open("frame0.txt")` does not fail, and it returns an fd in 2..7. -/
theorem open_lowest_free_slot_witness :
    demo_shell.file_array = demo_shell.current_pcb ∧
    demo_shell.used_desc = demo_shell.current_pcb ∧
    (sys_open demo_shell (some (cstr str_frame0))).1 ≠ -1 ∧
    2 ≤ (sys_open demo_shell (some (cstr str_frame0))).1 ∧
    (sys_open demo_shell (some (cstr str_frame0))).1 ≤ 7 :=
  have h := (open_lowest_free_slot demo_shell (some (cstr str_frame0))
    (by decide!) (by decide!)).2.2 (by decide!)
  ⟨by decide!, by decide!, by decide!, h.1, h.2.1⟩

/-- C10: for a process whose used flags in slots 0..7 are all 0 or 1, and every name for
which `open` does not fail, `close` of the fd that `open` returned returns 0, and the used
mask after `open` followed by `close` is the used mask before the `open`. -/
theorem open_then_close_used_mask (s : State) (filename : Option Mem)
    (hfa : s.file_array = s.current_pcb) (hud : s.used_desc = s.current_pcb)
    (h01 : ∀ k : Int, 0 ≤ k → k ≤ 7 → s.cur.used_desc k = 0 ∨ s.cur.used_desc k = 1)
    (hok : (sys_open s filename).1 ≠ -1) :
    (close (sys_open s filename).2 (sys_open s filename).1).1 = 0 ∧
    (close (sys_open s filename).2 (sys_open s filename).1).2.cur.used_desc =
      s.cur.used_desc := by
  have hcur : s.pcbs s.used_desc = s.cur := by rw [hud]; rfl
  have hr : (read_dentry_by_name s.fs filename (some blank_dentry)).1 ≠ -1 := by
    intro h
    exact hok (by rw [sys_open_fail s filename (Or.inl h)])
  have hfd : open_scan s.cur.used_desc 6 2 ≠ 0 := by
    intro h
    exact hok (by rw [sys_open_fail s filename (Or.inr (by rw [hcur]; exact h))])
  obtain ⟨e1, e2, -, e4, e5⟩ := sys_open_ok_cur s filename hfa hud hr hfd
  have hslot : 2 ≤ open_scan s.cur.used_desc 6 2 ∧ open_scan s.cur.used_desc 6 2 ≤ 7 ∧
      s.cur.used_desc (open_scan s.cur.used_desc 6 2) ≠ 1 := by
    rcases open_scan_cases s.cur.used_desc 6 2 (by norm_num) with ⟨h0, -⟩ | ⟨h1, h2, h3, -⟩
    · exact absurd h0 hfd
    · exact ⟨h1, by norm_num at h2; omega, h3⟩
  rw [← e1] at hslot
  obtain ⟨h2, h7, hfree⟩ := hslot
  have hcp : (sys_open s filename).2.current_pcb = s.current_pcb := by
    have hfd2 : open_scan (s.pcbs s.used_desc).used_desc 6 2 ≠ 0 := by rwa [hcur]
    rw [sys_open_ok s filename hr hfd2]
    show (open_driver _ _).current_pcb = _
    rw [(open_driver_keeps _ _).2.1]
    rfl
  generalize sys_open s filename = r at *
  obtain ⟨fd, t⟩ := r
  dsimp only at *
  have hzero : s.cur.used_desc fd = 0 := (h01 fd (by omega) h7).resolve_right hfree
  unfold close
  rw [if_neg (by omega)]
  dsimp only
  refine ⟨rfl, ?_⟩
  have key : ∀ t1 : State, t1.pcbs = t.pcbs → t1.current_pcb = t.current_pcb →
      t1.used_desc = t.used_desc → (set_used t1 fd 0).cur.used_desc = s.cur.used_desc := by
    intro t1 hp hc hu
    rw [cur_set_used _ _ _ (by rw [hu, hc, e5, hcp])]
    have : t1.cur = t.cur := by simp [State.cur, hp, hc]
    rw [this]
    show Function.update t.cur.used_desc fd 0 = _
    rw [e2, ← e1]
    funext k
    by_cases hk : k = fd
    · rw [hk, Function.update_same, hzero]
    · rw [Function.update_noteq hk, Function.update_noteq hk]
  split_ifs
  · exact key _ (rtc_close_keeps t fd).1 (rtc_close_keeps t fd).2.1 (rtc_close_keeps t fd).2.2.2
  · exact key t rfl rfl rfl

/-- Witness of C10 in `demo_shell`, for `frame0.txt`. -/
theorem open_then_close_used_mask_witness :
    demo_shell.file_array = demo_shell.current_pcb ∧
    demo_shell.used_desc = demo_shell.current_pcb ∧
    (∀ k : Int, 0 ≤ k → k ≤ 7 →
      demo_shell.cur.used_desc k = 0 ∨ demo_shell.cur.used_desc k = 1) ∧
    (sys_open demo_shell (some (cstr str_frame0))).1 ≠ -1 ∧
    (close (sys_open demo_shell (some (cstr str_frame0))).2
      (sys_open demo_shell (some (cstr str_frame0))).1).1 = 0 :=
  have h01 : ∀ k : Int, 0 ≤ k → k ≤ 7 →
      demo_shell.cur.used_desc k = 0 ∨ demo_shell.cur.used_desc k = 1 := by
    intro k h0 h7
    interval_cases k <;> decide!
  ⟨by decide!, by decide!, h01, by decide!,
    (open_then_close_used_mask demo_shell (some (cstr str_frame0)) (by decide!) (by decide!)
      h01 (by decide!)).1⟩

/-- C11: From the state in which `execute` enters a new process, through every sequence
of `open` and `close` calls of that process, slot 0 stays bound to `terminal_read`,
slot 1 to `terminal_write`, both stay marked in use (and the process stays the current
one); `open` returns neither 0 nor 1; and `close(fd)` returns -1 and changes nothing for
every `fd <= 1` and every `fd > 7`. -/
theorem stdio_slots_stay_bound (s : State) (command : List Nat) (fr : Frame) (s' : State)
    (f : iret_t) (h : execute s command fr = ExecResult.entered s' f) (calls : List FdCall) :
    ((fd_calls s' calls).cur.file_array 0).f_ops.read_fn = fn_t.terminal_read ∧
    ((fd_calls s' calls).cur.file_array 1).f_ops.write_fn = fn_t.terminal_write ∧
    (fd_calls s' calls).cur.used_desc 0 = 1 ∧ (fd_calls s' calls).cur.used_desc 1 = 1 ∧
    (fd_calls s' calls).current_pcb = s'.current_pcb ∧
    (fd_calls s' calls).file_array = s'.current_pcb ∧
    (fd_calls s' calls).used_desc = s'.current_pcb ∧
    (∀ filename, (sys_open (fd_calls s' calls) filename).1 ≠ 0 ∧
      (sys_open (fd_calls s' calls) filename).1 ≠ 1) ∧
    (∀ fd, fd ≤ 1 ∨ fd > 7 → close (fd_calls s' calls) fd = (-1, fd_calls s' calls)) := by
  obtain ⟨k, e, -, hs'⟩ := execute_entered s command fr s' f h
  have h0 : stdio_bound s' := by
    rw [hs']
    exact execute_start_stdio _ _ _ _ _
  obtain ⟨⟨a1, a2, a3, a4, a5, a6⟩, b⟩ := fd_calls_stdio calls s' h0
  refine ⟨a3, a4, a5, a6, b, by rw [a1, b], by rw [a2, b], ?_, ?_⟩
  · intro filename
    rcases sys_open_retval (fd_calls s' calls) filename with h1 | ⟨h2, h7⟩
    · rw [h1]
      exact ⟨by decide, by decide⟩
    · exact ⟨by omega, by omega⟩
  · intro fd hfd
    exact close_bad_fd _ fd hfd

/-- C11 at a concrete input: the shell runs `ls`, which opens `frame0.txt` and `.`,
closes descriptor 2, tries to close descriptors 0 and 9, and opens `frame0.txt` again. -/
theorem stdio_slots_stay_bound_witness :
    execute demo_shell str_ls demo_frame =
      ExecResult.entered demo_ls ⟨0x23, 0x8400000, 0x202, 0x1B, 0x8048020, 0x23⟩ ∧
    ((fd_calls demo_ls [FdCall.open_call (some (cstr str_frame0)),
        FdCall.open_call (some (cstr [46])), FdCall.close_call 2, FdCall.close_call 0,
        FdCall.close_call 9, FdCall.open_call (some (cstr str_frame0))]).cur.file_array
      0).f_ops.read_fn = fn_t.terminal_read :=
  ⟨entered_of_frame _ _ (by decide!),
    (stdio_slots_stay_bound demo_shell str_ls demo_frame demo_ls
      ⟨0x23, 0x8400000, 0x202, 0x1B, 0x8048020, 0x23⟩ (entered_of_frame _ _ (by decide!))
      [FdCall.open_call (some (cstr str_frame0)),
        FdCall.open_call (some (cstr [46])), FdCall.close_call 2, FdCall.close_call 0,
        FdCall.close_call 9, FdCall.open_call (some (cstr str_frame0))]).1⟩

/-- C12, evaluated where the code departs from it: the keys `l`, `s` and Enter are typed while
`terminal_read(buf, 128)` waits. The call returns 1025, not 3: `return i+1` comes after
the loop that clears the read buffer, which runs `i` to 1024. The bytes stored are `l`,
`s` and zeros up to and including `buf[128]`, and no newline. -/
theorem terminal_read_returns_1025 :
    (terminal_read blank_pcb keys_ls (fun _ => 255) 128).map
      (fun r => (r.retval, bytes_of r.buf 4, r.buf 127, r.buf 128, r.buf 129)) =
      some (1025, [108, 115, 0, 0], 0, 0, 255) := by
  decide!

/-- C13, evaluated where the code departs from it: with the RTC open at 2 Hz, `rtc_write` of the
frequency 10 returns 4, stores 10 as the caller's frequency, makes 10 the running
frequency, marks the caller's virtual RTC as closed and writes the rate 0. -/
theorem rtc_write_accepts_ten :
    demo_rtc.running_freq = 2 ∧ demo_rtc.active_rtc 0 = 1 ∧
    (rtc_write demo_rtc (some (word_buf 10)) 4).1 = 4 ∧
    ((rtc_write demo_rtc (some (word_buf 10)) 4).2.virtual_rtc 0).freq = 10 ∧
    (rtc_write demo_rtc (some (word_buf 10)) 4).2.running_freq = 10 ∧
    (rtc_write demo_rtc (some (word_buf 10)) 4).2.active_rtc 0 = 0 ∧
    demo_rtc.rtc_reg_a % 16 = 15 ∧
    (rtc_write demo_rtc (some (word_buf 10)) 4).2.rtc_reg_a % 16 = 0 := by
  decide!

/-- C14 as stated fails: process 1 opens the RTC, writes the frequency 8 and then the
frequency 2. Its virtual RTC is open and asks for 2 Hz, the largest request among the
open ones, yet the running frequency is 8. -/
theorem running_freq_above_max_requested :
    (rtc_calls demo_boot calls_8_then_2).active_rtc 0 = 1 ∧
    max_requested (rtc_calls demo_boot calls_8_then_2) = 2 ∧
    (rtc_calls demo_boot calls_8_then_2).running_freq = 8 ∧
    (rtc_calls demo_boot calls_8_then_2).running_freq ≠
      max_requested (rtc_calls demo_boot calls_8_then_2) := by
  decide!

/-- C14, amended: from a state in which no virtual RTC is open and the running
frequency is 0, through every sequence of `rtc_open`, `rtc_close` and `rtc_write` of a
power of two from 1 to 1024 by any of the six processes: whenever some virtual RTC is
open, the running frequency is one of 2, 4, ..., 1024 and is at least the largest
requested frequency among the open virtual RTCs. -/
theorem running_freq_bounds_requests (s : State) (hrun : s.running_freq = 0)
    (hact : ∀ i : Int, s.active_rtc i = 0) (calls : List (Int × RtcCall))
    (hc : pow2_calls calls) (hopen : some_rtc_open (rtc_calls s calls)) :
    (rtc_calls s calls).running_freq ∈ rate_freqs ∧
    max_requested (rtc_calls s calls) ≤ (rtc_calls s calls).running_freq := by
  have h0 : rtc_inv s := by
    refine ⟨Or.inl hrun, fun ⟨i, _, _, h1⟩ => ?_⟩
    rw [hact i] at h1
    exact absurd h1 (by decide)
  obtain ⟨h1, h2⟩ := (rtc_calls_inv calls s hc h0).2 hopen
  refine ⟨h1, ?_⟩
  unfold max_requested
  apply foldl_max_le _ _ 0 (Nat.zero_le _)
  intro x hx
  simp only [List.mem_map, List.mem_filter, List.mem_range] at hx
  obtain ⟨i, ⟨hi, -⟩, rfl⟩ := hx
  have hi0 : (0 : Int) ≤ (i : Int) := Int.natCast_nonneg i
  have hi6 : ((i : Nat) : Int) < 6 := by exact_mod_cast hi
  exact h2 (i : Int) hi0 hi6

/-- C14, amended, at a concrete input: after process 1 has opened the RTC and written 8
and then 2, the running frequency 8 is in the table and not below the request. -/
theorem running_freq_bounds_requests_witness :
    (rtc_calls demo_boot calls_8_then_2).running_freq ∈ rate_freqs ∧
    max_requested (rtc_calls demo_boot calls_8_then_2) ≤
      (rtc_calls demo_boot calls_8_then_2).running_freq :=
  running_freq_bounds_requests demo_boot (by decide!) (fun _ => rfl) calls_8_then_2
    (by
      intro c hc
      simp only [calls_8_then_2, List.mem_cons, List.mem_singleton, List.not_mem_nil,
        or_false] at hc
      rcases hc with rfl | rfl | rfl
      · exact ⟨by decide, by decide, fun freq h => by cases h⟩
      · exact ⟨by decide, by decide, fun freq h => by cases h; decide⟩
      · exact ⟨by decide, by decide, fun freq h => by cases h; decide⟩)
    ⟨0, by decide, by decide, by decide!⟩

/-- C15, evaluated where the code departs from it: process 1 opens the RTC and asks for 8 Hz,
process 2 opens the RTC, process 1 closes it. The virtual RTC of process 1 is closed,
but its frequency is still 8, not 0; when process 1 opens the RTC again the frequency
is still 8 and `rtc_read` does not return at once. -/
theorem rtc_close_keeps_frequency :
    (rtc_calls demo_boot calls_close_1).active_rtc 0 = 0 ∧
    ((rtc_calls demo_boot calls_close_1).virtual_rtc 0).freq = 8 ∧
    (rtc_calls demo_boot calls_reopen_1).current_rtc = 0 ∧
    (rtc_calls demo_boot calls_reopen_1).active_rtc 0 = 1 ∧
    ((rtc_calls demo_boot calls_reopen_1).virtual_rtc 0).freq = 8 ∧
    (rtc_read (rtc_calls demo_boot calls_reopen_1)).returns = false := by
  decide!

/-- C16, evaluated where the code departs from it: `vidmap` with the pointer `0x08400000`, the first
address after the user page, returns 0 and stores `0x10000000` in the four bytes from
`0x08400000` on. -/
theorem vidmap_accepts_page_end :
    (vidmap (fun _ => 0) 0x08400000).1 = 0 ∧
    (List.range 4).map (fun (k : Nat) => (vidmap (fun _ => 0) 0x08400000).2 (0x08400000 + k)) =
      [0, 0, 0, 0x10] := by
  decide!

/-- C17, evaluated where the code departs from it: the shell executes `cat` with an argument of
forty letters. The string saved in the PCB has 41 bytes with its terminator, and
`getargs(buf, 32)` returns 0 and stores all 41 of them. -/
theorem getargs_copies_41_bytes :
    (execute demo_shell str_cat_long demo_frame).retval = none ∧
    demo_cat_long.cur.args.length = 41 ∧
    (getargs demo_cat_long (fun _ => 255) 32).1 = 0 ∧
    bytes_of (getargs demo_cat_long (fun _ => 255) 32).2 42 =
      List.replicate 40 97 ++ [0, 255] := by
  decide!

/-- C18 as stated fails: `load_program` of `shell` for pid 1 at boot succeeds and sets
`*esp` to `0x08400000`, which is not `0x08400000 - 1`. -/
theorem load_program_esp_is_page_end :
    (load_program demo_boot (some (cstr str_shell)) 0 0 1 (fun _ => 0)).pcb ≠ 0 ∧
    (load_program demo_boot (some (cstr str_shell)) 0 0 1 (fun _ => 0)).esp = 0x08400000 ∧
    (load_program demo_boot (some (cstr str_shell)) 0 0 1 (fun _ => 0)).esp ≠ 0x08400000 - 1 := by
  decide!

/-- C18, amended: whenever `load_program` returns a PCB, for every pid, it has set
`*eip` to the little-endian 32-bit word at byte offset 24 of the image loaded at
`0x08048000`, and `*esp` to `0x08400000`, the end of the user page. -/
theorem load_program_entry_and_stack (s : State) (name : Option Mem) (esp0 eip0 : Nat)
    (pid : Int) (buf : Mem) (h : (load_program s name esp0 eip0 pid buf).pcb ≠ 0) :
    (load_program s name esp0 eip0 pid buf).eip =
      rd32 (user_image (load_program s name esp0 eip0 pid buf).s) 24 ∧
    (load_program s name esp0 eip0 pid buf).esp = 0x08400000 := by
  rw [load_program_ok s name esp0 eip0 pid buf h]
  exact ⟨load_image_eip _ _ _, (load_image_spec _ _ _).2.1⟩

/-- C18, amended, at a concrete input: `shell` loaded for pid 1 at boot; the word at
offset 24 of its image is `0x08048010`. -/
theorem load_program_entry_and_stack_witness :
    (load_program demo_boot (some (cstr str_shell)) 0 0 1 (fun _ => 0)).pcb ≠ 0 ∧
    (load_program demo_boot (some (cstr str_shell)) 0 0 1 (fun _ => 0)).eip = 0x08048010 ∧
    (load_program demo_boot (some (cstr str_shell)) 0 0 1 (fun _ => 0)).eip =
      rd32 (user_image (load_program demo_boot (some (cstr str_shell)) 0 0 1
        (fun _ => 0)).s) 24 ∧
    (load_program demo_boot (some (cstr str_shell)) 0 0 1 (fun _ => 0)).esp = 0x08400000 :=
  ⟨by decide!, by decide!,
    load_program_entry_and_stack demo_boot (some (cstr str_shell)) 0 0 1 (fun _ => 0)
      (by decide!)⟩

/-- C19: for every pid from 1 to 6, `get_pcb(pid)` is `8 MiB - pid * 8 KiB`, whatever the
state; the PCB that `load_program` returns for that pid, in any state and for any
program, is at the same address; the 8 KiB slab that starts there lies inside the kernel
page `0x00400000..0x00800000`; and the slabs of two different pids do not overlap. -/
theorem pcb_address_of_pid (pid : Int) (h1 : 1 ≤ pid) (h6 : pid ≤ 6) :
    ((get_pcb pid : Nat) : Int) = 0x800000 - pid * 0x2000 ∧
    (∀ (s : State) (name : Option Mem) (esp0 eip0 : Nat) (buf : Mem),
      (load_program s name esp0 eip0 pid buf).pcb ≠ 0 →
        (((load_program s name esp0 eip0 pid buf).pcb : Nat) : Int) = 0x800000 - pid * 0x2000 ∧
        (load_program s name esp0 eip0 pid buf).pcb = get_pcb pid) ∧
    0x400000 ≤ get_pcb pid ∧ get_pcb pid + 0x2000 ≤ 0x800000 ∧
    (∀ q : Int, 1 ≤ q → q ≤ 6 → q ≠ pid →
      get_pcb pid + 0x2000 ≤ get_pcb q ∨ get_pcb q + 0x2000 ≤ get_pcb pid) := by
  have hv := get_pcb_val pid h1 h6
  refine ⟨by rw [hv], ?_, by omega, by omega, ?_⟩
  · intro s name esp0 eip0 buf h
    rw [load_program_ok s name esp0 eip0 pid buf h, (load_image_spec _ _ _).1]
    exact ⟨by rw [hv], rfl⟩
  · intro q hq1 hq6 hne
    have hq := get_pcb_val q hq1 hq6
    omega

/-- C19 at a concrete input: pid 3, whose PCB is at `0x7FA000`. -/
theorem pcb_address_of_pid_witness :
    ((get_pcb 3 : Nat) : Int) = 0x800000 - 3 * 0x2000 ∧ get_pcb 3 = 0x7FA000 ∧
    get_pcb 3 + 0x2000 ≤ get_pcb 2 :=
  ⟨(pcb_address_of_pid 3 (by decide) (by decide)).1, by decide,
    by decide⟩

/-- C20: after `jump_to_process(pid)` for a pid from 1 to 6 whose saved code segment is
the kernel or the user code segment, and after an `execute` that enters a new process
with some pid from 1 to 6, `tss.esp0` is `get_pcb(pid) + 8 KiB`, the page-directory
entry 32 is `(8 MiB + 4 MiB * (pid - 1)) | 0x87`, and the current PCB is `get_pcb(pid)`.
(`execute` leaves entry 32 alone when there is no current process, which the kernel
does only at boot, where the entry is `0x00800087` and pid 1 is free.) -/
theorem switch_sets_tss_and_page :
    (∀ (s : State) (pid : Int), 1 ≤ pid → pid ≤ 6 →
      ((s.pcbs (get_pcb pid)).ret_cs = KERNEL_CS ∨ (s.pcbs (get_pcb pid)).ret_cs = USER_CS) →
      (jump_to_process s pid).state.tss_esp0 = get_pcb pid + 8192 ∧
      (jump_to_process s pid).state.page_dir32 =
        (0x800000 + 0x400000 * (pid - 1).toNat) ||| 0x87 ∧
      (jump_to_process s pid).state.current_pcb = get_pcb pid) ∧
    (∀ (s : State) (command : List Nat) (fr : Frame) (s' : State) (f : iret_t),
      (s.current_pcb = 0 → s.page_dir32 = 0x00800087 ∧ s.open_pid 0 ≠ 1) →
      execute s command fr = ExecResult.entered s' f →
      ∃ pid : Int, 1 ≤ pid ∧ pid ≤ 6 ∧ s'.cur.pid = pid ∧
        s'.tss_esp0 = get_pcb pid + 8192 ∧
        s'.page_dir32 = (0x800000 + 0x400000 * (pid - 1).toNat) ||| 0x87 ∧
        s'.current_pcb = get_pcb pid) := by
  constructor
  · intro s pid h1 h6 hcs
    rw [jump_to_process_state s pid hcs]
    obtain ⟨a, b, -, -⟩ := jump_prepare_spec s pid
    refine ⟨slab_top_val pid h1 h6, ?_, b⟩
    show (jump_prepare s pid).page_dir32 = _
    rw [a, user_page_entry_val pid h1 h6]
  · intro s command fr s' f hboot h
    obtain ⟨k, e, hk, hs'⟩ := execute_entered s command fr s' f h
    obtain ⟨k0, k6, kfree, kall⟩ := pid_scan_some _ _ _ _ hk
    have hp1 : (1 : Int) ≤ k + 1 := by omega
    have hp6 : k + 1 ≤ 6 := by push_cast at k6; omega
    obtain ⟨-, -, l3, -, -, -, -, -, -, l10, -⟩ := load_image_spec
        { s with
          open_pid := Function.update s.open_pid k 1
          page_dir32 := if s.current_pcb ≠ 0 then user_page_entry (k + 1) else s.page_dir32 }
        e (k + 1)
    obtain ⟨f1, -, -, f4, -, -, -, -, -, -, -, -, -, -, -, f16, f17, -⟩ :=
      execute_start_fields
        (load_image
          { s with
            open_pid := Function.update s.open_pid k 1
            page_dir32 := if s.current_pcb ≠ 0 then user_page_entry (k + 1) else s.page_dir32 }
          e (k + 1)).s
        (get_pcb (k + 1)) command (split_command command fr.args).2 fr
    rw [← hs'] at f1 f4 f16 f17
    refine ⟨k + 1, hp1, hp6, ?_, ?_, ?_, f1⟩
    · rw [f4, l3, Function.update_same]
    · rw [f16, slab_top_val _ hp1 hp6]
    · rw [f17, l10]
      dsimp only
      by_cases hc : s.current_pcb = 0
      · obtain ⟨hpd, hfree⟩ := hboot hc
        have hk0 : k = 0 := by
          by_contra hne
          exact hfree (kall 0 (le_refl _) (by omega))
        rw [if_neg (not_not.mpr hc), hpd, hk0]
        decide
      · rw [if_pos hc, user_page_entry_val _ hp1 hp6]

/-- C20 at concrete inputs: the scheduler jumps to pid 2, preempted in user mode; the
shell executes `ls`, which gets pid 2; and the boot shell is executed with no current
process, entry 32 being `0x00800087`. -/
theorem switch_sets_tss_and_page_witness :
    (jump_to_process demo_preempted 2).state.tss_esp0 = 0x7FE000 ∧
    (jump_to_process demo_preempted 2).state.page_dir32 = 0x00C00087 ∧
    (jump_to_process demo_preempted 2).state.current_pcb = 0x7FC000 ∧
    (∃ pid : Int, 1 ≤ pid ∧ pid ≤ 6 ∧ demo_ls.cur.pid = pid ∧
        demo_ls.tss_esp0 = get_pcb pid + 8192 ∧
        demo_ls.page_dir32 = (0x800000 + 0x400000 * (pid - 1).toNat) ||| 0x87 ∧
        demo_ls.current_pcb = get_pcb pid) ∧
    (∃ pid : Int, 1 ≤ pid ∧ pid ≤ 6 ∧ demo_shell.cur.pid = pid ∧
        demo_shell.tss_esp0 = get_pcb pid + 8192 ∧
        demo_shell.page_dir32 = (0x800000 + 0x400000 * (pid - 1).toNat) ||| 0x87 ∧
        demo_shell.current_pcb = get_pcb pid) :=
  ⟨(switch_sets_tss_and_page.1 demo_preempted 2 (by decide) (by decide)
      (Or.inr (by decide!))).1,
    (switch_sets_tss_and_page.1 demo_preempted 2 (by decide) (by decide)
      (Or.inr (by decide!))).2.1,
    (switch_sets_tss_and_page.1 demo_preempted 2 (by decide) (by decide)
      (Or.inr (by decide!))).2.2,
    switch_sets_tss_and_page.2 demo_shell str_ls demo_frame demo_ls
      ⟨0x23, 0x8400000, 0x202, 0x1B, 0x8048020, 0x23⟩
      (fun h => absurd h (by decide!)) (entered_of_frame _ _ (by decide!)),
    switch_sets_tss_and_page.2 demo_boot str_shell demo_frame demo_shell
      ⟨0x23, 0x8400000, 0x202, 0x1B, 0x8048010, 0x23⟩
      (fun _ => ⟨by decide!, by decide!⟩) (entered_of_frame _ _ (by decide!))⟩

/-- C21 as stated fails: at boot on `demo_fs` no process is live, the tick is not armed
and `sched_on` is 0; the `execute` that starts the boot shell on terminal 1 leaves one
live process (`open_pid` is 1, 0, 0, 0, 0, 0 and `num_process` is 2), has called
`start_pit` and has set `sched_on` to 1. -/
theorem boot_shell_arms_tick :
    demo_boot.cur_terminal = 1 ∧ demo_boot.num_process = 1 ∧ demo_boot.sched_on = 0 ∧
    demo_boot.pit_started = false ∧
    (execute demo_boot str_shell demo_frame).retval = none ∧
    (List.range 6).map (fun (i : Nat) => demo_shell.open_pid (i : Int)) = [1, 0, 0, 0, 0, 0] ∧
    demo_shell.num_process = 2 ∧ demo_shell.pit_started = true ∧ demo_shell.sched_on = 1 := by
  decide!

/-- C21, amended: an `execute` arms the scheduler tick (calls `start_pit` and sets
`sched_on` to 1) exactly when it enters the new program on terminal 1 with `sched_on` 0
and `num_process` 1 before the call, that is when it starts a process while none is live
(`num_process` is one more than the number of live processes); so the `execute` that
starts the lone boot shell arms it. An `execute` that enters the new program otherwise,
and every `execute` that returns at once, leaves `start_pit` uncalled and `sched_on` as it
was. -/
theorem execute_arms_tick (s : State) (command : List Nat) (fr : Frame) :
    (∀ (s' : State) (f : iret_t), execute s command fr = ExecResult.entered s' f →
      s'.num_process = s.num_process + 1 ∧
      s'.pit_started =
        (if s.cur_terminal = 1 ∧ s.num_process = 1 ∧ s.sched_on = 0 then true
         else s.pit_started) ∧
      s'.sched_on =
        (if s.cur_terminal = 1 ∧ s.num_process = 1 ∧ s.sched_on = 0 then 1 else s.sched_on)) ∧
    (∀ (r : Int) (s' : State), execute s command fr = ExecResult.returned r s' →
      s'.num_process = s.num_process ∧ s'.pit_started = s.pit_started ∧
      s'.sched_on = s.sched_on) := by
  constructor
  · intro s' f h
    obtain ⟨k, e, -, hs'⟩ := execute_entered s command fr s' f h
    obtain ⟨p1, p2⟩ := execute_start_pit
      (load_image
        { s with
          open_pid := Function.update s.open_pid k 1
          page_dir32 := if s.current_pcb ≠ 0 then user_page_entry (k + 1) else s.page_dir32 }
        e (k + 1)).s
      (get_pcb (k + 1)) command (split_command command fr.args).2 fr
    have hn := (execute_start_fields
      (load_image
        { s with
          open_pid := Function.update s.open_pid k 1
          page_dir32 := if s.current_pcb ≠ 0 then user_page_entry (k + 1) else s.page_dir32 }
        e (k + 1)).s
      (get_pcb (k + 1)) command (split_command command fr.args).2 fr).2.2.2.2.2.2.2.2.2.2.2.2.1
    rw [← hs'] at p1 p2 hn
    have hc : ∀ x : Int, x + 1 = 2 ↔ x = 1 := fun x => by omega
    refine ⟨hn, ?_, ?_⟩
    · rw [p1]
      show (if s.cur_terminal = 1 ∧ s.num_process + 1 = 2 ∧ s.sched_on = 0 then true
        else s.pit_started) = _
      simp only [hc]
    · rw [p2]
      show (if s.cur_terminal = 1 ∧ s.num_process + 1 = 2 ∧ s.sched_on = 0 then 1
        else s.sched_on) = _
      simp only [hc]
  · intro r s' h
    obtain ⟨a, b, c⟩ := execute_returned_sched s command fr r s' h
    exact ⟨c, a, b⟩

/-- C21, amended, at concrete inputs: the boot shell, whose `execute` arms the tick, and
`ls` run by the shell, whose `execute` finds it armed. -/
theorem execute_arms_tick_witness :
    (demo_shell.num_process = demo_boot.num_process + 1 ∧
      demo_shell.pit_started =
        (if demo_boot.cur_terminal = 1 ∧ demo_boot.num_process = 1 ∧ demo_boot.sched_on = 0
         then true else demo_boot.pit_started) ∧
      demo_shell.sched_on =
        (if demo_boot.cur_terminal = 1 ∧ demo_boot.num_process = 1 ∧ demo_boot.sched_on = 0
         then 1 else demo_boot.sched_on)) ∧
    demo_ls.num_process = demo_shell.num_process + 1 :=
  ⟨(execute_arms_tick demo_boot str_shell demo_frame).1 demo_shell
      ⟨0x23, 0x8400000, 0x202, 0x1B, 0x8048010, 0x23⟩ (entered_of_frame _ _ (by decide!)),
    ((execute_arms_tick demo_shell str_ls demo_frame).1 demo_ls
      ⟨0x23, 0x8400000, 0x202, 0x1B, 0x8048020, 0x23⟩ (entered_of_frame _ _ (by decide!))).1⟩

/-- C22: in every state reachable from boot through `switch_terminal`, `execute` and
`halt` at most one of `active_terminals[1..3]` is set. Whatever way `switch_terminal(n)`
with `1 <= n <= 3` ends, called in a reachable state, on the initial globals at boot, or
by the `halt` of a root shell in a reachable state: of `active_terminals[1..3]` exactly
the entry `n` is set afterwards, and it is 1. With `n` outside 1..3 `switch_terminal`
returns with the state as it was. -/
theorem one_foreground_terminal :
    (∀ (s : State) (b : Bool), Reachable s b → at_most_one_foreground s) ∧
    (∀ (s : State) (n : Int) (fr : Frame), 1 ≤ n → n ≤ 3 →
      (Reachable s false ∨ (∃ fs pcbs phys, s = init_state fs pcbs phys) ∨
        (∃ s0 status next, Reachable s0 false ∧ halt s0 status = HaltResult.root s next)) →
      only_foreground (switch_terminal s n fr).state n ∧
      (switch_terminal s n fr).state.active_terminals n = 1) ∧
    (∀ (s : State) (n : Int) (fr : Frame), n < 1 ∨ n > 3 →
      switch_terminal s n fr = SwitchResult.returned s) := by
  refine ⟨fun s b h => (reachable_foreground s b h).1, ?_, ?_⟩
  · intro s n fr h1 h3 h
    apply switch_terminal_foreground s n fr h1 h3
    rcases h with h | ⟨fs, pcbs, phys, e⟩ | ⟨s0, status, next, hr, hh⟩
    · exact Or.inl (reachable_foreground s false h).2
    · rw [e]
      exact Or.inr (fun _ => rfl)
    · rw [((halt_foreground s0 status).2 s next hh).2]
      exact Or.inl (reachable_foreground s0 false hr).2
  · intro s n fr h
    unfold switch_terminal
    rw [if_pos h]

/-- C22 at a concrete input: boot on `demo_fs` leaves at most one foreground bit, and
after Alt+F2 in the boot shell exactly the bit of terminal 2 is set. -/
theorem one_foreground_terminal_witness :
    at_most_one_foreground
      (switch_terminal (init_state demo_fs (fun _ => blank_pcb) (fun _ => 0)) 1 demo_frame).state ∧
    only_foreground demo_second 2 ∧ demo_second.active_terminals 2 = 1 :=
  ⟨one_foreground_terminal.1 _ _
      (Reachable.boot demo_fs (fun _ => blank_pcb) (fun _ => 0) demo_frame (by decide!)
        (by decide!)),
    one_foreground_terminal.2.1
      (switch_terminal (init_state demo_fs (fun _ => blank_pcb) (fun _ => 0)) 1 demo_frame).state
      2 demo_frame (by decide) (by decide)
      (Or.inl (by
        have h := Reachable.boot demo_fs (fun _ => blank_pcb) (fun _ => 0) demo_frame
          (by decide!) (by decide!)
        have e : (switch_terminal (init_state demo_fs (fun _ => blank_pcb) (fun _ => 0)) 1
            demo_frame).stopped = false := by decide!
        rw [e] at h
        exact h))⟩

/-- C23, evaluated where the code departs from it: in `long_name_fs` the second
directory entry has a name of 32 letters and the file type 2. After `dir_open` the first
`dir_read` returns 1, the length of `.`; the second copies the 32 letters and returns
33, not 32: `strlen(entry.file_name)` finds no terminator in the name and counts the
low byte of `file_type` as well. -/
theorem dir_read_counts_past_the_name :
    (dir_read long_name_opened (fun _ => 0) 32 []).1 = 1 ∧
    bytes_of (dir_read (dir_read long_name_opened (fun _ => 0) 32 []).2.2
      (fun _ => 0) 32 []).2.1 32 = str_long_name ∧
    (dir_read (dir_read long_name_opened (fun _ => 0) 32 []).2.2 (fun _ => 0) 32 []).1 = 33 := by
  decide!

/-- C24, evaluated where the code departs from it: in `bad_block_fs` the boot block
records 1 data block and block pointer 0 of inode 0 is 1, which is not less than 1.
`read_data(0, 0, buf, 4)` does not return -1: it returns 4 and copies the four bytes 77,
78, 79, 80 that lie after the data region. -/
theorem read_data_accepts_block_count :
    rd32 bad_block_fs 8 = 1 ∧ block_pointer bad_block_fs 0 0 = 1 ∧
    (read_data bad_block_fs 0 0 (fun _ => 0) 4).1 = 4 ∧
    bytes_of (read_data bad_block_fs 0 0 (fun _ => 0) 4).2 4 = [77, 78, 79, 80] := by
  decide!

/-- C25: `read_dentry_by_name(fname, dentry)` with two non-null pointers returns 0 and
stores in `dentry` the 32 name bytes, the type and the inode number of the first
directory entry, among the first `num_dir_entries`, whose name compares equal to `fname`
under `strncmp` bounded to 32 bytes; when there is none it returns -1 and leaves
`dentry` as it was, and so it does when a pointer is null. -/
theorem read_dentry_by_name_first_match (fs : Mem) (fname : Option Mem)
    (dentry : Option dentry_t) :
    read_dentry_by_name fs fname dentry =
      (match fname, dentry with
      | some name, some d =>
        match first_match fs name with
        | some i =>
          (0, some ⟨(List.range 32).map (fun j => rd8 fs (64 + 64 * i + j)),
            rd32 fs (64 + 64 * i + 32), rd32 fs (64 + 64 * i + 36)⟩)
        | none => (-1, some d)
      | _, _ => (-1, dentry)) ∧
    ((read_dentry_by_name fs fname dentry).1 = 0 ∨
      read_dentry_by_name fs fname dentry = (-1, dentry)) ∧
    ((read_dentry_by_name fs fname dentry).1 = -1 ↔
      (fname = none ∨ dentry = none ∨ ∃ name, fname = some name ∧ first_match fs name = none)) := by
  have key : ∀ name d, read_dentry_by_name fs (some name) (some d) =
      (match first_match fs name with
        | some i =>
          (0, some ⟨(List.range 32).map (fun j => rd8 fs (64 + 64 * i + j)),
            rd32 fs (64 + 64 * i + 32), rd32 fs (64 + 64 * i + 36)⟩)
        | none => (-1, some d)) := by
    intro name d
    have h := read_dentry_by_name_loop_find fs name (rd32 fs 0) 0
    rw [← List.range_eq_range'] at h
    unfold read_dentry_by_name
    dsimp only
    rw [show (64 : Nat) = 64 + 64 * 0 from rfl, h]
    unfold first_match
    cases (List.range (rd32 fs 0)).find?
      (fun i => decide (strncmp name (fun j => rd8 fs (64 + 64 * i + j)) 32 = 0)) with
    | none => rfl
    | some i => rfl
  cases fname with
  | none =>
    refine ⟨?_, Or.inr ?_, ?_⟩
    · cases dentry <;> rfl
    · cases dentry <;> rfl
    · have e : read_dentry_by_name fs none dentry = (-1, dentry) := by cases dentry <;> rfl
      rw [e]
      simp
  | some name =>
    cases dentry with
    | none =>
      refine ⟨rfl, Or.inr rfl, ?_⟩
      have e : read_dentry_by_name fs (some name) none = (-1, none) := rfl
      rw [e]
      simp
    | some d =>
      have hk := key name d
      refine ⟨hk, ?_, ?_⟩
      · rw [hk]
        cases first_match fs name with
        | none => exact Or.inr rfl
        | some i => exact Or.inl rfl
      · rw [hk]
        cases hm : first_match fs name with
        | none => simp [hm]
        | some i => simp [hm]

/-- C25 at a concrete input: in `demo_fs` the name `ls` is that of directory entry 2, a
regular file on inode 2, and of no entry before it; `read_dentry_by_name` returns 0 and
stores that entry. -/
theorem read_dentry_by_name_first_match_witness :
    first_match demo_fs (cstr str_ls) = some 2 ∧
    (read_dentry_by_name demo_fs (some (cstr str_ls)) (some blank_dentry)).1 = 0 ∧
    read_dentry_by_name demo_fs (some (cstr str_ls)) (some blank_dentry) =
      (match some (cstr str_ls), some blank_dentry with
      | some name, some d =>
        match first_match demo_fs name with
        | some i =>
          (0, some ⟨(List.range 32).map (fun j => rd8 demo_fs (64 + 64 * i + j)),
            rd32 demo_fs (64 + 64 * i + 32), rd32 demo_fs (64 + 64 * i + 36)⟩)
        | none => (-1, some d)
      | _, _ => (-1, some blank_dentry)) :=
  ⟨by decide!, by decide!,
    (read_dentry_by_name_first_match demo_fs (some (cstr str_ls)) (some blank_dentry)).1⟩

/-- C26: when `load_program` returns a PCB for the program that `read_dentry_by_name`
finds in the directory entry `e`, on one of the 64 inodes that `read_data` accepts and
with every block pointer of the file below the number of data blocks, then for every
`k` below 4 MiB - 0x48000 byte `k` of the user image, the byte at virtual
`0x08048000 + k`, is byte `k` of the file when `k` is below the size `S` of the file
(the byte at position `k mod 4096` of the block named by block pointer `k div 4096`)
and 0 otherwise; so for `S` of at most 4 MiB - 0x48000 the image holds the `S` bytes of
the file in file order, followed by zeros up to the end of the 4 MiB user page. -/
theorem load_program_copies_whole_file (s : State) (name : Option Mem) (esp0 eip0 : Nat)
    (pid : Int) (buf : Mem) (e : dentry_t)
    (hload : (load_program s name esp0 eip0 pid buf).pcb ≠ 0)
    (hfind : read_dentry_by_name s.fs name (some blank_dentry) = (0, some e))
    (hi : e.inode_num ≤ 63)
    (hb : ∀ n, n * 4096 < file_size s.fs e.inode_num →
      block_pointer s.fs e.inode_num n < rd32 s.fs 8)
    (k : Nat) (hk : k < 0x400000 - 0x48000) :
    user_image (load_program s name esp0 eip0 pid buf).s k =
      if k < file_size s.fs e.inode_num then file_byte s.fs e.inode_num k else 0 := by
  rw [load_program_ok s name esp0 eip0 pid buf hload, is_valid_cmd_entry s.fs name buf e hfind,
    user_image_load_image s e pid k hk,
    read_data_whole_file s.fs e.inode_num _ hi (fun n hn => Nat.le_of_lt (hb n hn)) k]
  by_cases h : k < file_size s.fs e.inode_num
  · rw [if_pos h, if_pos h]
  · rw [if_neg h, if_neg h]
    exact if_pos hk

/-- C26 at a concrete input: `shell` of `demo_fs`, a file of 28 bytes on inode 1, loaded
for pid 1 at boot: the image starts with the magic number, holds the entry point
`0x08048010` at offset 24, and byte 28, the first after the file, is 0. -/
theorem load_program_copies_whole_file_witness :
    file_size demo_boot.fs 1 = 28 ∧
    bytes_of (user_image (load_program demo_boot (some (cstr str_shell)) 0 0 1
      (fun _ => 0)).s) 4 = [127, 69, 76, 70] ∧
    user_image (load_program demo_boot (some (cstr str_shell)) 0 0 1 (fun _ => 0)).s 24 =
      (if 24 < file_size demo_boot.fs 1 then file_byte demo_boot.fs 1 24 else 0) ∧
    user_image (load_program demo_boot (some (cstr str_shell)) 0 0 1 (fun _ => 0)).s 28 =
      (if 28 < file_size demo_boot.fs 1 then file_byte demo_boot.fs 1 28 else 0) :=
  ⟨by decide!, by decide!,
    load_program_copies_whole_file demo_boot (some (cstr str_shell)) 0 0 1 (fun _ => 0)
      ⟨(List.range 32).map (fun j => rd8 demo_fs (128 + j)), 2, 1⟩ (by decide!) (by decide!)
      (by decide) (fun n hn => demo_shell_blocks n hn) 24 (by decide),
    load_program_copies_whole_file demo_boot (some (cstr str_shell)) 0 0 1 (fun _ => 0)
      ⟨(List.range 32).map (fun j => rd8 demo_fs (128 + j)), 2, 1⟩ (by decide!) (by decide!)
      (by decide) (fun n hn => demo_shell_blocks n hn) 28 (by decide)⟩

/-- C27: `get_next_process` returns 0 and changes nothing when `num_process` is 1.
Otherwise, with the cursor `cur_process` in 1..3 and a scheduled process on some
terminal in 1..3, its loop ends (two increments after the first are enough): it moves
the cursor to the first terminal `t` after the previous position, in the cyclic order
1, 2, 3, 1, with `active_process[t] != 0`, sets `cur_terminal` to `t` and returns
`active_process[t]`, which is not 0; `t` is in 1..3; and when all three terminals have a
scheduled process, three successive calls put the cursor on the three terminals after
the previous position in the cyclic order, each of 1, 2, 3 once. -/
theorem get_next_process_round_robin (s : State) (fuel : Nat) (hc1 : 1 ≤ s.cur_process)
    (hc3 : s.cur_process ≤ 3) :
    (s.num_process = 1 → get_next_process (fuel + 2) s = some (0, s)) ∧
    (s.num_process ≠ 1 → (∃ t, 1 ≤ t ∧ t ≤ 3 ∧ s.active_process t ≠ 0) →
      ∃ t s', first_scheduled s = some t ∧
        get_next_process (fuel + 2) s = some (s.active_process t, s') ∧
        s.active_process t ≠ 0 ∧ 1 ≤ t ∧ t ≤ 3 ∧ s'.cur_process = t ∧ s'.cur_terminal = t) ∧
    (s.num_process ≠ 1 → (∀ t, 1 ≤ t → t ≤ 3 → s.active_process t ≠ 0) →
      ∃ r1 s1 r2 s2 r3 s3, get_next_process (fuel + 2) s = some (r1, s1) ∧
        get_next_process (fuel + 2) s1 = some (r2, s2) ∧
        get_next_process (fuel + 2) s2 = some (r3, s3) ∧
        [s1.cur_process, s2.cur_process, s3.cur_process] = cyclic_after s.cur_process ∧
        (cyclic_after s.cur_process).Perm [1, 2, 3]) := by
  refine ⟨?_, ?_, ?_⟩
  · intro hn
    unfold get_next_process
    rw [if_pos hn]
  · intro hn h
    obtain ⟨t, s', ht, hg, hcp, hct, _, _⟩ := get_next_process_spec s fuel hn hc1 hc3 h
    obtain ⟨t1, t3, hat⟩ := first_scheduled_spec s t ht
    exact ⟨t, s', ht, hg, hat, t1, t3, hcp, hct⟩
  · intro hn hall
    have hinc : ∀ c : Int, 1 ≤ c → c ≤ 3 →
        1 ≤ increment_cur_process c ∧ increment_cur_process c ≤ 3 := by
      intro c h1 h3
      unfold increment_cur_process
      split_ifs <;> omega
    obtain ⟨t1, s1, ht1, hg1, hcp1, _, hap1, hnp1⟩ :=
      get_next_process_spec s fuel hn hc1 hc3 ⟨1, by decide, by decide, hall 1 (by decide) (by decide)⟩
    rw [first_scheduled_all s hc1 hc3 hall] at ht1
    have e1 : s1.cur_process = increment_cur_process s.cur_process := by
      rw [hcp1]
      exact (Option.some.inj ht1).symm
    have hall1 : ∀ t, 1 ≤ t → t ≤ 3 → s1.active_process t ≠ 0 := by
      rw [hap1]
      exact hall
    have b1 := hinc s.cur_process hc1 hc3
    rw [← e1] at b1
    obtain ⟨t2, s2, ht2, hg2, hcp2, _, hap2, hnp2⟩ :=
      get_next_process_spec s1 fuel (by rw [hnp1]; exact hn) b1.1 b1.2
        ⟨1, by decide, by decide, hall1 1 (by decide) (by decide)⟩
    rw [first_scheduled_all s1 b1.1 b1.2 hall1] at ht2
    have e2 : s2.cur_process = increment_cur_process s1.cur_process := by
      rw [hcp2]
      exact (Option.some.inj ht2).symm
    have hall2 : ∀ t, 1 ≤ t → t ≤ 3 → s2.active_process t ≠ 0 := by
      rw [hap2]
      exact hall1
    have b2 := hinc s1.cur_process b1.1 b1.2
    rw [← e2] at b2
    obtain ⟨t3, s3, ht3, hg3, hcp3, _, _, _⟩ :=
      get_next_process_spec s2 fuel (by rw [hnp2, hnp1]; exact hn) b2.1 b2.2
        ⟨1, by decide, by decide, hall2 1 (by decide) (by decide)⟩
    rw [first_scheduled_all s2 b2.1 b2.2 hall2] at ht3
    have e3 : s3.cur_process = increment_cur_process s2.cur_process := by
      rw [hcp3]
      exact (Option.some.inj ht3).symm
    refine ⟨_, s1, _, s2, _, s3, hg1, hg2, hg3, ?_, ?_⟩
    · rw [e3, e2, e1]
      have hc : s.cur_process = 1 ∨ s.cur_process = 2 ∨ s.cur_process = 3 := by omega
      rcases hc with e | e | e <;> rw [e] <;> decide
    · have hc : s.cur_process = 1 ∨ s.cur_process = 2 ∨ s.cur_process = 3 := by omega
      rcases hc with e | e | e <;> rw [e] <;> decide

/-- C27 at a concrete input: with the processes 1, 2, 3 scheduled on the terminals 1, 2,
3 and the cursor on terminal 2, `get_next_process` returns a state with the cursor on
terminal 3, and three calls put it on 3, 1, 2. -/
theorem get_next_process_round_robin_witness :
    (∃ t s', first_scheduled demo_three = some t ∧
        get_next_process 2 demo_three = some (demo_three.active_process t, s') ∧
        demo_three.active_process t ≠ 0 ∧ 1 ≤ t ∧ t ≤ 3 ∧ s'.cur_process = t ∧
        s'.cur_terminal = t) ∧
    (∃ r1 s1 r2 s2 r3 s3, get_next_process 2 demo_three = some (r1, s1) ∧
        get_next_process 2 s1 = some (r2, s2) ∧ get_next_process 2 s2 = some (r3, s3) ∧
        [s1.cur_process, s2.cur_process, s3.cur_process] = cyclic_after demo_three.cur_process ∧
        (cyclic_after demo_three.cur_process).Perm [1, 2, 3]) :=
  ⟨(get_next_process_round_robin demo_three 0 (by decide!) (by decide!)).2.1 (by decide!)
      ⟨1, by decide, by decide, by decide!⟩,
    (get_next_process_round_robin demo_three 0 (by decide!) (by decide!)).2.2 (by decide!)
      (fun t h1 h3 => by
        have ht : t = 1 ∨ t = 2 ∨ t = 3 := by omega
        rcases ht with rfl | rfl | rfl <;> decide!)⟩

/-- C28: the make-codes of `key_layout` are those of the printable keys, `0x02-0x0D`,
`0x10-0x1B`, `0x1E-0x29`, `0x2B-0x35` and `0x39`; and for every one of them, typed
without Ctrl, with Caps Lock off or on and Shift held or not, `print_scancode` calls
`print_scancode_to_terminal`, which hands to the terminal the shifted-row character
when Shift is held or when Caps Lock is on and the key is a letter, and the base-row
character otherwise; so that Caps Lock without Shift leaves the character of a key that
is not a letter as it is. -/
theorem printable_key_character (k : kbd_t) (hctl : k.ctl_ON = 0)
    (hcaps : k.caps_lock = 0 ∨ k.caps_lock = 1) (e : Nat × Nat × Nat) (he : e ∈ key_layout) :
    key_layout.map (fun e => e.1) = printable_codes ∧
    print_scancode k e.1 = (k, key_action.to_terminal e.1) ∧
    print_scancode_to_terminal k e.1 =
      some (if k.shift_ON ≠ 0 ∨ (k.caps_lock = 1 ∧ is_letter e.2.1 = true) then e.2.2
        else e.2.1) ∧
    (k.shift_ON = 0 → is_letter e.2.1 = false → print_scancode_to_terminal k e.1 = some e.2.1) := by
  have hcodes : key_layout.map (fun e => e.1) = printable_codes := by decide
  have hmem : e.1 ∈ printable_codes := by
    rw [← hcodes]
    exact List.mem_map_of_mem _ he
  have hchar := scancode_access_layout e he (decide (k.shift_ON ≠ 0)) k.caps_lock hcaps
  have hval : print_scancode_to_terminal k e.1 =
      some (if k.shift_ON ≠ 0 ∨ (k.caps_lock = 1 ∧ is_letter e.2.1 = true) then e.2.2
        else e.2.1) := by
    unfold print_scancode_to_terminal
    rw [hchar]
    unfold layout_char
    simp only [decide_eq_true_eq]
  refine ⟨hcodes, print_scancode_forwards k hctl e.1 hmem, hval, ?_⟩
  intro hs hl
  rw [hval, if_neg]
  rw [hl]
  simp [hs]

/-- C28 at concrete inputs: with Caps Lock on and no Shift the key `0x1E` gives `A` and
the key `0x02` gives `1`. -/
theorem printable_key_character_witness :
    print_scancode_to_terminal ⟨0, 0, 0, 1⟩ 0x1E = some 65 ∧
    print_scancode_to_terminal ⟨0, 0, 0, 1⟩ 0x02 = some 49 :=
  ⟨(printable_key_character ⟨0, 0, 0, 1⟩ rfl (Or.inr rfl) (30, 97, 65) (by decide)).2.2.1,
    (printable_key_character ⟨0, 0, 0, 1⟩ rfl (Or.inr rfl) (2, 49, 33) (by decide)).2.2.1⟩

/-- C29: in every state reachable from boot through `execute` and `halt`,
`num_process - 1` is the number of entries of `open_pid[0..5]` that are 1. So whenever
`execute` is called in such a state and passes its guard `num_process > 6`, the scan for
a free pid stops at an index from 0 to 5, and no `execute` leaves the table; and the
`halt` of a root shell in such a state finds no other terminal open, so that the machine
stops there. -/
theorem live_processes_counted :
    (∀ (s : State) (b : Bool), ReachableExec s b →
      s.num_process - 1 = (live_processes s : Int)) ∧
    (∀ s : State, ReachableExec s false → ¬ s.num_process > 6 →
      ∃ k, pid_scan s.open_pid 6 0 = some k ∧ 0 ≤ k ∧ k ≤ 5) ∧
    (∀ (s : State) (command : List Nat) (fr : Frame), ReachableExec s false →
      ∀ s', execute s command fr ≠ ExecResult.off_table s') ∧
    (∀ (s : State) (status : Nat) (s1 : State) (next : Option Int), ReachableExec s false →
      s.current_pcb ≠ 0 → halt s status = HaltResult.root s1 next → next = none) := by
  refine ⟨?_, ?_, ?_, ?_⟩
  · intro s b h
    obtain ⟨stack, ps, _, _⟩ := reachable_exec_stack s b h
    rw [process_stack_count s stack ps, ps.num]
    ring
  · intro s h hn
    obtain ⟨stack, ps, _, _⟩ := reachable_exec_stack s false h
    exact process_stack_scan s stack ps hn
  · intro s command fr h s' hx
    obtain ⟨stack, ps, _, _⟩ := reachable_exec_stack s false h
    unfold execute at hx
    dsimp only at hx
    by_cases h1 : s.num_process > 6
    · rw [if_pos h1] at hx
      exact absurd hx (by simp)
    · rw [if_neg h1] at hx
      by_cases h2 : (is_valid_cmd s.fs blank_dentry (some (split_command command fr.args).1)
          fr.buf).1 = -1
      · rw [if_pos h2] at hx
        exact absurd hx (by simp)
      · rw [if_neg h2] at hx
        obtain ⟨k, hk, _, _⟩ := process_stack_scan s stack ps h1
        rw [hk] at hx
        dsimp only at hx
        unfold execute_load at hx
        dsimp only at hx
        split_ifs at hx
  · intro s status s1 next h hc hh
    obtain ⟨stack, ps, _, hcur⟩ := reachable_exec_stack s false h
    obtain ⟨rest, _, h2, _⟩ := process_stack_halt s status stack ps (hcur rfl) hc
    have hr : (halt s status).is_root = true := by
      rw [hh]
      rfl
    exact (h2 hr).2 s1 next hh

/-- C29 at a concrete input: with the boot shell of `demo_fs` running, `num_process` is
2 and one entry of `open_pid` is 1; the scan of the next `execute` stops at index 1. -/
theorem live_processes_counted_witness :
    demo_shell.num_process - 1 = (live_processes demo_shell : Int) ∧
    live_processes demo_shell = 1 ∧
    (∃ k, pid_scan demo_shell.open_pid 6 0 = some k ∧ 0 ≤ k ∧ k ≤ 5) ∧
    pid_scan demo_shell.open_pid 6 0 = some 1 :=
  ⟨live_processes_counted.1 demo_shell false
      (ReachableExec.exec demo_boot str_shell demo_frame
        (ReachableExec.boot demo_fs (fun _ => blank_pcb) (fun _ => 0))),
    by decide!,
    live_processes_counted.2.1 demo_shell
      (ReachableExec.exec demo_boot str_shell demo_frame
        (ReachableExec.boot demo_fs (fun _ => blank_pcb) (fun _ => 0))) (by decide!),
    by decide!⟩

/-- C30, evaluated where the code departs from it: the make-codes `0x01` (Esc) and
`0x0F` (Tab) have no `case` in `print_scancode` and pass the test of its `default`, so
they are forwarded to `print_scancode_to_terminal`, which computes the index -1 into
`row_1` and into `row_2`: it reads the byte in front of the table. -/
theorem escape_and_tab_index_outside_table :
    print_scancode init_keyboard 0x01 = (init_keyboard, key_action.to_terminal 0x01) ∧
    scancode_access false 0 0x01 = ⟨row_1, -1⟩ ∧
    print_scancode_to_terminal init_keyboard 0x01 = none ∧
    print_scancode init_keyboard 0x0F = (init_keyboard, key_action.to_terminal 0x0F) ∧
    scancode_access false 0 0x0F = ⟨row_2, -1⟩ ∧
    print_scancode_to_terminal init_keyboard 0x0F = none := by
  decide

end TerminalOS
